import Mathlib

/-!
# Verification of the starlark-rust parameter-binding core

A shallow embedding of `starlark/src/eval/runtime/params/spec.rs`:
the `ParametersSpec` builder, the frozen signature, the argument binder
(`collect_inline_impl` / `collect_slow`) and the feasibility check
(`can_fill_with_args_impl`), together with theorems about them.

Machine integers (`u32`/`usize`) are represented as `Nat`; all the counts
involved are small and no arithmetic in the source can overflow before
allocation would fail, so no modular reduction is needed.
-/

set_option autoImplicit false

namespace Starlark

/-- Modelled from the spec: the value/heap subsystem is external to the
repository (`Value`, `Heap`, `Dict`, `StringValue` live outside `spec.rs`).
Values are integers, strings, tuples and dicts; `heap.alloc_tuple`
becomes `tuple`, dict allocation becomes `dict`. -/
inductive StarValue where
  | int (n : Int)
  | str (s : String)
  | tuple (elems : List StarValue)
  | dict (entries : List (StarValue × StarValue))

/-- Modelled from the spec: `Value::iterate(heap)` may fail; tuples iterate
to their elements, every other value fails to iterate. -/
def StarValue.iterate : StarValue → Option (List StarValue)
  | .tuple elems => some elems
  | _ => none

/-- Modelled from the spec: `StringValue::new` — the string-value extraction
predicate used to validate splatted `**kwargs` keys. -/
def StarValue.asStr : StarValue → Option String
  | .str s => some s
  | _ => none

/-- Modelled from the spec: `DictRef::from_value` succeeds exactly on
mapping values, exposing the entries in insertion order
(`SmallMap::iter_hashed`). -/
def StarValue.dictEntries : StarValue → Option (List (StarValue × StarValue))
  | .dict entries => some entries
  | _ => none

/-- `ParameterKind<V>` from `spec.rs` with `V` instantiated to values. -/
inductive ParameterKind where
  | Required
  | Optional
  | Defaulted (v : StarValue)
  | Args
  | KWargs

def ParameterKind.isArgs : ParameterKind → Bool
  | .Args => true
  | _ => false

def ParameterKind.isKWargs : ParameterKind → Bool
  | .KWargs => true
  | _ => false

/-- A regular parameter: `Required`, `Optional` or `Defaulted`. -/
def ParameterKind.isRegular : ParameterKind → Bool
  | .Args => false
  | .KWargs => false
  | _ => true

def ParameterKind.isRequired : ParameterKind → Bool
  | .Required => true
  | _ => false

def ParameterKind.isOptional : ParameterKind → Bool
  | .Optional => true
  | _ => false

/-- `CurrentParameterStyle`; the `Ord` derived in Rust is the declaration
order, represented here by `styleRank`. -/
inductive CurrentParameterStyle where
  | PosOnly
  | PosOrNamed
  | NamedOnly
  | NoMore
deriving DecidableEq

def CurrentParameterStyle.styleRank : CurrentParameterStyle → Nat
  | .PosOnly => 0
  | .PosOrNamed => 1
  | .NamedOnly => 2
  | .NoMore => 3

/-- `ParametersSpec<V>`: the frozen signature.  `names` is the
`SymbolMap<u32>` as an insertion-ordered association list, and the
`DefParamIndices` are inlined as the four index fields. -/
structure ParametersSpec where
  function_name : String
  param_kinds : List ParameterKind
  param_names : List String
  names : List (String × Nat)
  num_positional_only : Nat
  num_positional : Nat
  args_index : Option Nat
  kwargs_index : Option Nat

/-- `SymbolMap` lookup (`get_str` / `get_hashed_str` /
`get_hashed_string_value`): first entry with the given key. -/
def assocLookup : List (String × Nat) → String → Option Nat
  | [], _ => none
  | (k, i) :: rest, nm => if k = nm then some i else assocLookup rest nm

/-- Name resolution against the signature.  Modelled from the spec:
`ResolvedArgName::get_index_from_param_spec` returns the pre-resolved
index for this signature, which is exactly the `names` lookup. -/
def ParametersSpec.lookupName (s : ParametersSpec) (nm : String) : Option Nat :=
  assocLookup s.names nm

/-- Number of declared parameters (`ParametersSpec::len`). -/
def ParametersSpec.len (s : ParametersSpec) : Nat :=
  s.param_kinds.length

/-- `param_kinds[i]`; out-of-range reads never happen on the paths we prove
about, the default is arbitrary. -/
def kindAt (s : ParametersSpec) (i : Nat) : ParameterKind :=
  s.param_kinds.getD i ParameterKind.Required

/-- `param_names[i]`. -/
def nameAt (s : ParametersSpec) (i : Nat) : String :=
  s.param_names.getD i ""

/-! ## Builder -/

/-- `ParametersSpecBuilder<V>`. -/
structure ParametersSpecBuilder where
  function_name : String
  params : List (String × ParameterKind)
  names : List (String × Nat)
  positional_only : Nat
  positional : Nat
  current_style : CurrentParameterStyle
  args : Option Nat
  kwargs : Option Nat

/-- `ParametersSpec::with_capacity` (capacity hints are irrelevant here). -/
def newBuilder (function_name : String) : ParametersSpecBuilder :=
  { function_name := function_name
    params := []
    names := []
    positional_only := 0
    positional := 0
    current_style := .PosOnly
    args := none
    kwargs := none }

/-- `ParametersSpecBuilder::add`.  The Rust `assert!`s (programmer-error
aborts) are modelled as `none`. -/
def builderAdd (b : ParametersSpecBuilder) (name : String) (val : ParameterKind) :
    Option ParametersSpecBuilder :=
  if val.isArgs || val.isKWargs then none
  else if b.current_style.styleRank < CurrentParameterStyle.NoMore.styleRank then
    if b.kwargs.isSome then none
    else
      let i := b.params.length
      let params' := b.params ++ [(name, val)]
      match
        (if b.current_style ≠ .PosOnly then
          -- `names.insert` asserting the name is fresh
          if (assocLookup b.names name).isSome then none
          else some (b.names ++ [(name, i)])
        else some b.names) with
      | none => none
      | some names' =>
        let doPos := b.args.isNone && b.current_style ≠ .NamedOnly
        some { b with
          params := params'
          names := names'
          positional := if doPos then i + 1 else b.positional
          positional_only :=
            if doPos && b.current_style = .PosOnly then i + 1 else b.positional_only }
  else none

/-- `ParametersSpecBuilder::args`. -/
def builderArgs (b : ParametersSpecBuilder) : Option ParametersSpecBuilder :=
  if b.args.isSome then none
  else if CurrentParameterStyle.NamedOnly.styleRank ≤ b.current_style.styleRank then none
  else if b.kwargs.isSome then none
  else
    some { b with
      params := b.params ++ [("*args", ParameterKind.Args)]
      args := some b.params.length
      current_style := .NamedOnly }

/-- `ParametersSpecBuilder::no_more_positional_only_args`. -/
def builderNoMorePositionalOnlyArgs (b : ParametersSpecBuilder) :
    Option ParametersSpecBuilder :=
  if b.current_style = .PosOnly then some { b with current_style := .PosOrNamed }
  else none

/-- `ParametersSpecBuilder::no_more_positional_args`. -/
def builderNoMorePositionalArgs (b : ParametersSpecBuilder) :
    Option ParametersSpecBuilder :=
  if b.args.isSome then none
  else if CurrentParameterStyle.NamedOnly.styleRank ≤ b.current_style.styleRank then none
  else if b.kwargs.isSome then none
  else some { b with current_style := .NamedOnly }

/-- `ParametersSpecBuilder::kwargs`. -/
def builderKwargs (b : ParametersSpecBuilder) : Option ParametersSpecBuilder :=
  if b.kwargs.isSome then none
  else
    some { b with
      params := b.params ++ [("**kwargs", ParameterKind.KWargs)]
      current_style := .NoMore
      kwargs := some b.params.length }

/-- `ParametersSpecBuilder::finish`. -/
def builderFinish (b : ParametersSpecBuilder) : Option ParametersSpec :=
  if b.positional_only ≤ b.positional then
    some { function_name := b.function_name
           param_kinds := b.params.map Prod.snd
           param_names := b.params.map Prod.fst
           names := b.names
           num_positional_only := b.positional_only
           num_positional := b.positional
           args_index := b.args
           kwargs_index := b.kwargs }
  else none

/-- One builder call, for quantifying over arbitrary builder histories. -/
inductive BuilderOp where
  | required (name : String)
  | optional (name : String)
  | defaulted (name : String) (v : StarValue)
  | args
  | noMorePositionalOnlyArgs
  | noMorePositionalArgs
  | kwargs

def applyOp (b : ParametersSpecBuilder) : BuilderOp → Option ParametersSpecBuilder
  | .required name => builderAdd b name .Required
  | .optional name => builderAdd b name .Optional
  | .defaulted name v => builderAdd b name (.Defaulted v)
  | .args => builderArgs b
  | .noMorePositionalOnlyArgs => builderNoMorePositionalOnlyArgs b
  | .noMorePositionalArgs => builderNoMorePositionalArgs b
  | .kwargs => builderKwargs b

def runOps (b : ParametersSpecBuilder) : List BuilderOp → Option ParametersSpecBuilder
  | [] => some b
  | op :: rest =>
    match applyOp b op with
    | none => none
    | some b' => runOps b' rest

/-- A complete builder run: `ParametersSpec::new(fn).…ops….finish()`. -/
def buildSpec (function_name : String) (ops : List BuilderOp) : Option ParametersSpec :=
  match runOps (newBuilder function_name) ops with
  | none => none
  | some b => builderFinish b

/-- Kind of the builder's parameter at index `i`. -/
def paramKindAt (b : ParametersSpecBuilder) (i : Nat) : ParameterKind :=
  (b.params.getD i ("", ParameterKind.Required)).2

/-- Name of the builder's parameter at index `i`. -/
def paramNameAt (b : ParametersSpecBuilder) (i : Nat) : String :=
  (b.params.getD i ("", ParameterKind.Required)).1

/-- The inductive invariant every reachable builder state satisfies; it
is what `finish` turns into `WellFormed`. -/
def BInv (b : ParametersSpecBuilder) : Prop :=
  b.positional_only ≤ b.positional ∧
  b.positional ≤ b.params.length ∧
  (∀ a, b.args = some a → b.positional = a ∧ a < b.params.length) ∧
  (∀ i < b.params.length, ((paramKindAt b i).isArgs = true ↔ b.args = some i)) ∧
  (∀ kp, b.kwargs = some kp → kp + 1 = b.params.length) ∧
  (∀ i < b.params.length, ((paramKindAt b i).isKWargs = true ↔ b.kwargs = some i)) ∧
  (∀ i < b.positional, (paramKindAt b i).isRegular = true) ∧
  (∀ p ∈ b.names, p.2 < b.params.length ∧ paramNameAt b p.2 = p.1 ∧
    b.positional_only ≤ p.2 ∧ (paramKindAt b p.2).isRegular = true) ∧
  (∀ i, b.positional_only ≤ i → i < b.params.length →
    (paramKindAt b i).isRegular = true →
    assocLookup b.names (paramNameAt b i) = some i) ∧
  (b.names.map Prod.fst).Nodup ∧
  (b.current_style = .PosOnly →
    b.positional_only = b.params.length ∧ b.positional = b.params.length ∧
    b.names = [] ∧ b.args = none ∧ b.kwargs = none) ∧
  (b.current_style = .PosOrNamed →
    b.positional = b.params.length ∧ b.args = none ∧ b.kwargs = none)

/-! ## Arguments and errors -/

/-- Modelled from the spec: the caller-side `Arguments` container
(`pos`/`names`/`named`/`args`/`kwargs` accessors, §6).  A resolved name
token is represented by the name itself; resolution happens through
`ParametersSpec.lookupName`. -/
structure Arguments where
  pos : List StarValue
  names : List String
  named : List StarValue
  args : Option StarValue
  kwargs : Option StarValue

/-- `FunctionError` variants raised by binding (error formatting aside;
the `function` fields carry `signature()`, which is the function name). -/
inductive FunctionError where
  | MissingParameter (name : String) (function : String)
  | RepeatedArg (name : String)
  | ExtraPositionalArg (count : Nat) (function : String)
  | ExtraNamedArg (names : List String) (function : String)
  | ArgsArrayIsNotIterable
  | ArgsValueIsNotString
  | KwArgsIsNotDict

/-! ## The slow binding path, phase by phase

`collect_slow` is a straight-line sequence of loops over one mutable
state; each loop becomes a recursive function and `collectSlow` their
composition.  Slots are a list of optional values; `List.set` is a no-op
out of range, and the bounds theorems show all writes are in range. -/

/-- The `LazyKwargs` overflow map: `None` until the first insertion. -/
def LazyKwargs := Option (List (String × StarValue))

/-- `SmallMap::insert_hashed`: replace in place if the key is present
(returning `true` = there was an old value), append otherwise. -/
def insertHashed : List (String × StarValue) → String → StarValue →
    Bool × List (String × StarValue)
  | [], k, v => (false, [(k, v)])
  | (k', v') :: rest, k, v =>
    if k' = k then (true, (k', v) :: rest)
    else
      let r := insertHashed rest k v
      (r.1, (k', v') :: r.2)

/-- `LazyKwargs::insert`; the `Bool` is `true` iff the key was a
duplicate. -/
def lazyInsert (kw : LazyKwargs) (k : String) (v : StarValue) : Bool × LazyKwargs :=
  match kw with
  | none => (false, some [(k, v)])
  | some mp =>
    let r := insertHashed mp k v
    (r.1, some r.2)

/-- Keys currently in the overflow map. -/
def ovfKeys (kw : LazyKwargs) : List String :=
  match kw with
  | none => []
  | some mp => mp.map Prod.fst

/-- `LazyKwargs::alloc`: the `**kwargs` dict value. -/
def lazyAlloc (kw : LazyKwargs) : StarValue :=
  match kw with
  | none => .dict []
  | some mp => .dict (mp.map fun p => (StarValue.str p.1, p.2))

/-- The zip-write of the positional fast branch
(`args.pos().iter().zip(slots.iter())` with `s.set(Some(*v))`). -/
def writeZip : List (Option StarValue) → List StarValue → List (Option StarValue)
  | slots, [] => slots
  | [], _ => []
  | _ :: slots, v :: vs => some v :: writeZip slots vs

/-- The shared shape of the positional-overflow loops (slow positional
branch and the `*args` splat): fill `slots[next]` while
`next < num_positional`, push the rest onto `star_args`. -/
def fillPos (spec : ParametersSpec) :
    List StarValue → List (Option StarValue) → Nat → List StarValue →
    List (Option StarValue) × Nat × List StarValue
  | [], slots, next, star => (slots, next, star)
  | v :: vs, slots, next, star =>
    if next < spec.num_positional then
      fillPos spec vs (slots.set next (some v)) (next + 1) star
    else
      fillPos spec vs slots next (star ++ [v])

/-- Phase 1 of `collect_slow`: consume the `pos` channel. -/
def posPhase (spec : ParametersSpec) (pos : List StarValue)
    (slots : List (Option StarValue)) :
    List (Option StarValue) × Nat × List StarValue :=
  if pos.length ≤ spec.num_positional then
    (writeZip slots pos, pos.length, [])
  else
    fillPos spec pos slots 0 []

/-- Minimum tracking for `lowest_name`, whose `usize::MAX` sentinel is
`none`. -/
def minOpt (low : Option Nat) (i : Nat) : Option Nat :=
  match low with
  | none => some i
  | some l => some (min l i)

/-- Phase 2 of `collect_slow`: the named-argument loop over
`names.zip(named)`.  Note that the `Bool` returned by the overflow
insert is discarded here, exactly as in the source. -/
def namedLoop (spec : ParametersSpec) :
    List (String × StarValue) → List (Option StarValue) → LazyKwargs → Option Nat →
    List (Option StarValue) × LazyKwargs × Option Nat
  | [], slots, kw, low => (slots, kw, low)
  | (nm, v) :: rest, slots, kw, low =>
    match spec.lookupName nm with
    | none => namedLoop spec rest slots (lazyInsert kw nm v).2 low
    | some i => namedLoop spec rest (slots.set i (some v)) kw (minOpt low i)

/-- Phase 5 of `collect_slow`: the loop over the splatted `**kwargs`
entries.  On a resolved name the slot is written before the duplicate
test, as in the source. -/
def kwLoop (spec : ParametersSpec) :
    List (StarValue × StarValue) → List (Option StarValue) → LazyKwargs →
    Except FunctionError (List (Option StarValue) × LazyKwargs)
  | [], slots, kw => .ok (slots, kw)
  | (k, v) :: rest, slots, kw =>
    match k.asStr with
    | none => .error .ArgsValueIsNotString
    | some s =>
      match spec.lookupName s with
      | some i =>
        let repeatHit := (slots.getD i none).isSome
        let slots' := slots.set i (some v)
        if repeatHit then .error (.RepeatedArg s)
        else kwLoop spec rest slots' kw
      | none =>
        let r := lazyInsert kw s v
        if r.1 then .error (.RepeatedArg s)
        else kwLoop spec rest slots r.2

/-- Phase 6 of `collect_slow`: defaults and missing-required, iterating
the indices `next_position..len`. -/
def defLoop (spec : ParametersSpec) :
    List Nat → List (Option StarValue) →
    Except FunctionError (List (Option StarValue))
  | [], slots => .ok slots
  | i :: rest, slots =>
    match slots.getD i none with
    | some _ => defLoop spec rest slots
    | none =>
      match kindAt spec i with
      | .Required => .error (.MissingParameter (nameAt spec i) spec.function_name)
      | .Defaulted x => defLoop spec rest (slots.set i (some x))
      | _ => defLoop spec rest slots

/-- Phase 7 of `collect_slow`: finalize the `*args` and `**kwargs`
sinks. -/
def finalizeSinks (spec : ParametersSpec) (slots : List (Option StarValue))
    (star : List StarValue) (kw : LazyKwargs) :
    Except FunctionError (List (Option StarValue)) :=
  match spec.args_index with
  | some a =>
    let slots' := slots.set a (some (.tuple star))
    match spec.kwargs_index with
    | some kp => .ok (slots'.set kp (some (lazyAlloc kw)))
    | none =>
      match kw with
      | some mp => .error (.ExtraNamedArg (mp.map Prod.fst) spec.function_name)
      | none => .ok slots'
  | none =>
    if !star.isEmpty then .error (.ExtraPositionalArg star.length spec.function_name)
    else
      match spec.kwargs_index with
      | some kp => .ok (slots.set kp (some (lazyAlloc kw)))
      | none =>
        match kw with
        | some mp => .error (.ExtraNamedArg (mp.map Prod.fst) spec.function_name)
        | none => .ok slots

/-- Phases 1–4 of `collect_slow`: positional fill, named loop, `*args`
splat, and the positional/named collision check. -/
def bindPhasesPreKw (spec : ParametersSpec) (args : Arguments)
    (slots : List (Option StarValue)) :
    Except FunctionError
      (List (Option StarValue) × Nat × List StarValue × LazyKwargs) :=
  let p1 := posPhase spec args.pos slots
  let p2 := namedLoop spec (args.names.zip args.named) p1.1 none none
  let afterSplat :
      Except FunctionError (List (Option StarValue) × Nat × List StarValue) :=
    match args.args with
    | none => .ok (p2.1, p1.2.1, p1.2.2)
    | some v =>
      match v.iterate with
      | none => .error .ArgsArrayIsNotIterable
      | some xs => .ok (fillPos spec xs p2.1 p1.2.1 p1.2.2)
  match afterSplat with
  | .error e => .error e
  | .ok (s3, n3, st3) =>
    match p2.2.2 with
    | some l =>
      if l < n3 then .error (.RepeatedArg (nameAt spec l))
      else .ok (s3, n3, st3, p2.2.1)
    | none => .ok (s3, n3, st3, p2.2.1)

/-- Phases 1–5 of `collect_slow`: everything up to and including the
splatted `**kwargs` consumption. -/
def bindPhases (spec : ParametersSpec) (args : Arguments)
    (slots : List (Option StarValue)) :
    Except FunctionError
      (List (Option StarValue) × Nat × List StarValue × LazyKwargs) :=
  match bindPhasesPreKw spec args slots with
  | .error e => .error e
  | .ok (s, n, st, kw) =>
    match args.kwargs with
    | none => .ok (s, n, st, kw)
    | some v =>
      match v.dictEntries with
      | none => .error .KwArgsIsNotDict
      | some es =>
        match kwLoop spec es s kw with
        | .error e => .error e
        | .ok (s', kw') => .ok (s', n, st, kw')

/-- Phases 6–7: defaults/required then sink finalization. -/
def finishBind (spec : ParametersSpec) (n : Nat) (star : List StarValue)
    (r : Except FunctionError (List (Option StarValue) × LazyKwargs)) :
    Except FunctionError (List (Option StarValue)) :=
  match r with
  | .error e => .error e
  | .ok (s, kw) =>
    match defLoop spec (List.range' n (spec.len - n)) s with
    | .error e => .error e
    | .ok s' => finalizeSinks spec s' star kw

/-- `ParametersSpec::collect_slow`.  The up-front
`assert!(slots.len() >= len)` is a precondition; the bounds theorem shows
that under it no slot access leaves `[0, len)`. -/
def collectSlow (spec : ParametersSpec) (args : Arguments)
    (slots : List (Option StarValue)) :
    Except FunctionError (List (Option StarValue)) :=
  match bindPhases spec args slots with
  | .error e => .error e
  | .ok (s, n, st, kw) =>
    finishBind spec n st (.ok (s, kw))

/-- The fast-path eligibility predicate of `collect_inline_impl`. -/
def fastPathOk (spec : ParametersSpec) (args : Arguments) : Bool :=
  args.pos.length = spec.num_positional &&
  args.pos.length = spec.len &&
  args.named.isEmpty &&
  args.args.isNone &&
  args.kwargs.isNone

/-- `ParametersSpec::collect_inline_impl`: the inlined fast path, else
`collect_slow`. -/
def collectInline (spec : ParametersSpec) (args : Arguments)
    (slots : List (Option StarValue)) :
    Except FunctionError (List (Option StarValue)) :=
  if fastPathOk spec args then .ok (writeZip slots args.pos)
  else collectSlow spec args slots

/-! ## The feasibility check -/

/-- First loop of `can_fill_with_args_impl` over `0..pos`. -/
def cfPosLoop (spec : ParametersSpec) :
    List Nat → List Bool → Option (List Bool)
  | [], filled => some filled
  | p :: rest, filled =>
    if p < spec.num_positional then cfPosLoop spec rest (filled.set p true)
    else if spec.args_index.isSome then cfPosLoop spec rest filled
    else none

/-- Names loop of `can_fill_with_args_impl`. -/
def cfNamesLoop (spec : ParametersSpec) :
    List String → List Bool → Option (List Bool)
  | [], filled => some filled
  | nm :: rest, filled =>
    match spec.lookupName nm with
    | some i =>
      if filled.getD i false then none
      else cfNamesLoop spec rest (filled.set i true)
    | none =>
      if spec.kwargs_index.isNone then none
      else cfNamesLoop spec rest filled

/-- `ParametersSpec::can_fill_with_args_impl`. -/
def canFillWithArgs (spec : ParametersSpec) (pos : Nat) (names : List String) : Bool :=
  match cfPosLoop spec (List.range pos) (List.replicate spec.len false) with
  | none => false
  | some filled =>
    if spec.num_positional < pos && spec.args_index.isNone then false
    else
      match cfNamesLoop spec names filled with
      | none => false
      | some filled =>
        (filled.zip spec.param_kinds).all fun fp =>
          fp.1 || !fp.2.isRequired

/-! ## Derived notions used in the statements -/

/-- Sequential slot write: `writeSeq slots i [v₀, v₁, …]` sets
`slots[i] := v₀`, `slots[i+1] := v₁`, …  The closed form of the
positional-overflow loops. -/
def writeSeq (slots : List (Option StarValue)) : Nat → List StarValue →
    List (Option StarValue)
  | _, [] => slots
  | i, v :: vs => writeSeq (slots.set i (some v)) (i + 1) vs

/-- The slot indices the named-argument loop writes: the resolved indices
of the name tokens, in call order. -/
def resolvedTargets (spec : ParametersSpec) (pairs : List (String × StarValue)) :
    List Nat :=
  pairs.filterMap fun p => spec.lookupName p.1

/-- A parameter kind whose slot the defaults loop leaves empty. -/
def ParameterKind.leftEmpty : ParameterKind → Bool
  | .Optional => true
  | .Args => true
  | .KWargs => true
  | _ => false

/-- Number of elements the `*args` splat contributes (0 when absent; on
succeeding binds the splat is iterable, so the `getD` default is never
reached). -/
def splatElemsLen (args : Arguments) : Nat :=
  match args.args with
  | none => 0
  | some v => (v.iterate.getD []).length

/-- Entries of the splatted `**kwargs` mapping (empty when absent or not
a dict; on succeeding binds a present splat is a dict). -/
def kwSplatEntries (args : Arguments) : List (StarValue × StarValue) :=
  match args.kwargs with
  | none => []
  | some v => v.dictEntries.getD []

/-- How many slots end up filled positionally: the contiguous prefix
covered by the `pos` channel plus the `*args` splat, capped at
`num_positional`. -/
def posSuppliedCount (spec : ParametersSpec) (args : Arguments) : Nat :=
  min (args.pos.length + splatElemsLen args) spec.num_positional

/-- The call supplied a value for slot `i`: positionally (in the filled
prefix), through a named argument resolving to `i`, or through a
`**kwargs` splat key resolving to `i`. -/
def SuppliedIdx (spec : ParametersSpec) (args : Arguments) (i : Nat) : Prop :=
  i < posSuppliedCount spec args ∨
  (∃ p ∈ args.names.zip args.named, spec.lookupName p.1 = some i) ∨
  (∃ e ∈ kwSplatEntries args, ∃ s, e.1.asStr = some s ∧ spec.lookupName s = some i)

/-- Total positional count of a call (`pos` channel plus splat), the
`pos` argument of the feasibility check. -/
def callPosCount (args : Arguments) : Nat :=
  args.pos.length + splatElemsLen args

/-- All keyword names of a call: the named channel plus the string keys
of the `**kwargs` splat. -/
def callNames (args : Arguments) : List String :=
  (args.names.zip args.named).map Prod.fst ++
    (kwSplatEntries args).filterMap fun e => e.1.asStr

/-- Agreement of two slot arrays on the first `n` entries; the bounds
theorem states the binder reads and writes only this prefix. -/
def EqBelow (n : Nat) (l l' : List (Option StarValue)) : Prop :=
  ∀ j, j < n → l.getD j none = l'.getD j none

/-! ## Structural well-formedness of a signature -/

/-- The structural invariants of a finished `ParametersSpec` (§3 of the
spec); every signature the builder produces satisfies them, and the
binder theorems assume them.  All conditions are decidable so concrete
signatures can discharge them by `decide`. -/
def WellFormed (s : ParametersSpec) : Prop :=
  s.param_names.length = s.param_kinds.length ∧
  s.num_positional_only ≤ s.num_positional ∧
  s.num_positional ≤ s.len ∧
  (∀ i < s.len, ((kindAt s i).isArgs = true ↔ s.args_index = some i)) ∧
  (∀ a, s.args_index = some a → a = s.num_positional ∧ a < s.len) ∧
  (∀ i < s.len, ((kindAt s i).isKWargs = true ↔ s.kwargs_index = some i)) ∧
  (∀ k, s.kwargs_index = some k → k + 1 = s.len) ∧
  (∀ i < s.num_positional, (kindAt s i).isRegular = true) ∧
  (∀ p ∈ s.names, p.2 < s.len ∧ nameAt s p.2 = p.1 ∧
    s.num_positional_only ≤ p.2 ∧ (kindAt s p.2).isRegular = true) ∧
  (∀ i, s.num_positional_only ≤ i → i < s.len → (kindAt s i).isRegular = true →
    s.lookupName (nameAt s i) = some i) ∧
  (s.names.map Prod.fst).Nodup

instance decidableOptionSomeForall (o : Option Nat) (P : Nat → Prop)
    [inst : ∀ a, Decidable (P a)] : Decidable (∀ a, o = some a → P a) :=
  match o with
  | none => isTrue (by intro a h; cases h)
  | some x =>
    match inst x with
    | isTrue h => isTrue (by intro a ha; cases ha; exact h)
    | isFalse h => isFalse (by intro hall; exact h (hall x rfl))

instance decidableWellFormed (s : ParametersSpec) : Decidable (WellFormed s) := by
  unfold WellFormed
  infer_instance

/-! ## Concrete signatures and calls (the spec's end-to-end scenarios) -/

/-- The signature of the spec's scenario function
`f(a, b=10, *args, c, **kwargs)`, frozen. -/
def exSpecF : ParametersSpec :=
  { function_name := "f"
    param_kinds := [.Required, .Defaulted (.int 10), .Args, .Required, .KWargs]
    param_names := ["a", "b", "*args", "c", "**kwargs"]
    names := [("a", 0), ("b", 1), ("c", 3)]
    num_positional_only := 0
    num_positional := 2
    args_index := some 2
    kwargs_index := some 4 }

/-- The builder history producing `exSpecF`. -/
def exOpsF : List BuilderOp :=
  [.noMorePositionalOnlyArgs, .required "a", .defaulted "b" (.int 10), .args,
   .required "c", .kwargs]

/-- The signature of the spec's scenario function `g($x, /, y, *, z)`. -/
def exSpecG : ParametersSpec :=
  { function_name := "g"
    param_kinds := [.Required, .Required, .Required]
    param_names := ["$x", "y", "z"]
    names := [("y", 1), ("z", 2)]
    num_positional_only := 1
    num_positional := 2
    args_index := none
    kwargs_index := none }

/-- A keyword-sink-only signature `h(**kwargs)`. -/
def exSpecH : ParametersSpec :=
  { function_name := "h"
    param_kinds := [.KWargs]
    param_names := ["**kwargs"]
    names := []
    num_positional_only := 0
    num_positional := 0
    args_index := none
    kwargs_index := some 0 }

/-- Scenario 1: `f(1, 2, 3, 4, c=5, d=6)`. -/
def exArgsS1 : Arguments :=
  ⟨[.int 1, .int 2, .int 3, .int 4], ["c", "d"], [.int 5, .int 6], none, none⟩

/-- Scenario 5: `f(1, 2, *(3,), c=4, **{e: 5})`. -/
def exArgsS5 : Arguments :=
  ⟨[.int 1, .int 2], ["c"], [.int 4], some (.tuple [.int 3]),
    some (.dict [(.str "e", .int 5)])⟩

/-- A call to `h` repeating the name `z` twice in the named channel. -/
def exArgsDup : Arguments :=
  ⟨[], ["z", "z"], [.int 1, .int 2], none, none⟩

/-- A call to `h` with the name `z` in the named channel and again as a
`**kwargs` splat key. -/
def exArgsCross : Arguments :=
  ⟨[], ["z"], [.int 1], none, some (.dict [(.str "z", .int 2)])⟩

/-- A call to `f` leaving required `c` empty while also carrying an
unknown keyword (only `MissingParameter` may be reported). -/
def exArgsMissing : Arguments :=
  ⟨[.int 1], ["q"], [.int 7], none, none⟩

/-- An all-positional signature `p(u, v)` for the fast-path claim. -/
def exSpecP : ParametersSpec :=
  { function_name := "p"
    param_kinds := [.Required, .Required]
    param_names := ["u", "v"]
    names := [("u", 0), ("v", 1)]
    num_positional_only := 0
    num_positional := 2
    args_index := none
    kwargs_index := none }

/-- The fast-path call `p(7, 8)`. -/
def exArgsP : Arguments :=
  ⟨[.int 7, .int 8], [], [], none, none⟩

/-- A single-required-parameter signature `q(a)` with no sinks. -/
def exSpecQ : ParametersSpec :=
  { function_name := "q"
    param_kinds := [.Required]
    param_names := ["a"]
    names := [("a", 0)]
    num_positional_only := 0
    num_positional := 1
    args_index := none
    kwargs_index := none }

/-- A call to `q` supplying only the unknown keyword `u`: both a missing
required parameter and an extra named argument are present. -/
def exArgsQ : Arguments :=
  ⟨[], ["u"], [.int 7], none, none⟩

/-- A call to `f` exercising the `*args` splat:
`f(1, *(2, 3, 4), c=5)`. -/
def exArgsSplat : Arguments :=
  ⟨[.int 1], ["c"], [.int 5], some (.tuple [.int 2, .int 3, .int 4]), none⟩

/-- Scenario 3: `f(1, 2, a=9)` — parameter `a` arrives both positionally
and by name. -/
def exArgsRep : Arguments :=
  ⟨[.int 1, .int 2], ["a"], [.int 9], none, none⟩

/-! ## Basic lemmas about slot lists -/

theorem getD_set_self {α : Type} (l : List α) (i : Nat) (v d : α) (h : i < l.length) :
    (l.set i v).getD i d = v := by
  induction l generalizing i with
  | nil => simp at h
  | cons a t ih =>
    cases i with
    | zero => rfl
    | succ n => simpa using ih n (by simpa using h)

theorem getD_set_of_ne {α : Type} (l : List α) (i j : Nat) (v d : α) (h : i ≠ j) :
    (l.set i v).getD j d = l.getD j d := by
  induction l generalizing i j with
  | nil => rfl
  | cons a t ih =>
    cases i with
    | zero =>
      cases j with
      | zero => exact absurd rfl h
      | succ m => rfl
    | succ n =>
      cases j with
      | zero => rfl
      | succ m => simpa using ih n m (by omega)

theorem getD_set_isSome_mono (l : List (Option StarValue)) (i j : Nat) (v : StarValue)
    (h : (l.getD j none).isSome = true) :
    ((l.set i (some v)).getD j none).isSome = true := by
  by_cases hij : i = j
  · subst hij
    by_cases hi : i < l.length
    · rw [getD_set_self l i (some v) none hi]; rfl
    · rw [List.set_eq_of_length_le (by omega)]; exact h
  · rwa [getD_set_of_ne l i j (some v) none hij]

theorem writeZip_length (slots : List (Option StarValue)) (vs : List StarValue) :
    (writeZip slots vs).length = slots.length := by
  induction slots generalizing vs with
  | nil => cases vs <;> rfl
  | cons s ss ih =>
    cases vs with
    | nil => rfl
    | cons v vs => simpa [writeZip] using ih vs

theorem writeZip_getD_lt (slots : List (Option StarValue)) (vs : List StarValue)
    (j : Nat) (hv : j < vs.length) (hs : j < slots.length) :
    (writeZip slots vs).getD j none = vs[j]? := by
  induction slots generalizing vs j with
  | nil => simp at hs
  | cons s ss ih =>
    cases vs with
    | nil => simp at hv
    | cons v vs =>
      cases j with
      | zero => simp [writeZip]
      | succ n =>
        simp only [writeZip, List.getD_cons_succ, List.getElem?_cons_succ]
        exact ih vs n (by simpa using hv) (by simpa using hs)

theorem writeZip_getD_ge (slots : List (Option StarValue)) (vs : List StarValue)
    (j : Nat) (hv : vs.length ≤ j) :
    (writeZip slots vs).getD j none = slots.getD j none := by
  induction slots generalizing vs j with
  | nil => cases vs <;> rfl
  | cons s ss ih =>
    cases vs with
    | nil => rfl
    | cons v vs =>
      cases j with
      | zero => simp at hv
      | succ n =>
        simp only [writeZip, List.getD_cons_succ]
        exact ih vs n (by simpa using hv)

theorem writeSeq_length (vs : List StarValue) (slots : List (Option StarValue)) (i : Nat) :
    (writeSeq slots i vs).length = slots.length := by
  induction vs generalizing slots i with
  | nil => rfl
  | cons v vs ih => simpa [writeSeq] using ih (slots.set i (some v)) (i + 1)

theorem writeSeq_getD_out (vs : List StarValue) (slots : List (Option StarValue))
    (i j : Nat) (h : j < i ∨ i + vs.length ≤ j) :
    (writeSeq slots i vs).getD j none = slots.getD j none := by
  induction vs generalizing slots i with
  | nil => rfl
  | cons v vs ih =>
    have hne : i ≠ j := by
      rcases h with h | h
      · omega
      · simp only [List.length_cons] at h; omega
    have h' : j < i + 1 ∨ i + 1 + vs.length ≤ j := by
      rcases h with h | h
      · omega
      · simp only [List.length_cons] at h; omega
    rw [writeSeq, ih (slots.set i (some v)) (i + 1) h', getD_set_of_ne _ _ _ _ _ hne]

theorem writeSeq_getD_in (vs : List StarValue) (slots : List (Option StarValue))
    (i j : Nat) (h1 : i ≤ j) (h2 : j < i + vs.length) (h3 : j < slots.length) :
    (writeSeq slots i vs).getD j none = vs[j - i]? := by
  induction vs generalizing slots i with
  | nil => simp only [List.length_nil] at h2; omega
  | cons v vs ih =>
    by_cases hij : j = i
    · subst hij
      rw [writeSeq, writeSeq_getD_out vs _ (j + 1) j (by omega),
        getD_set_self _ _ _ _ h3]
      simp
    · have h1' : i + 1 ≤ j := by omega
      have h2' : j < i + 1 + vs.length := by
        simp only [List.length_cons] at h2; omega
      rw [writeSeq, ih (slots.set i (some v)) (i + 1) h1' h2' (by simpa using h3)]
      have heq : j - i = (j - (i + 1)) + 1 := by omega
      rw [heq, List.getElem?_cons_succ]

theorem fillPos_eq (spec : ParametersSpec) (vs : List StarValue)
    (slots : List (Option StarValue)) (next : Nat) (star : List StarValue)
    (h : next ≤ spec.num_positional) :
    fillPos spec vs slots next star =
      (writeSeq slots next (vs.take (spec.num_positional - next)),
       next + min vs.length (spec.num_positional - next),
       star ++ vs.drop (spec.num_positional - next)) := by
  induction vs generalizing slots next star with
  | nil => simp [fillPos, writeSeq]
  | cons v vs ih =>
    by_cases hlt : next < spec.num_positional
    · have hsub : spec.num_positional - next = (spec.num_positional - (next + 1)) + 1 := by
        omega
      rw [fillPos, if_pos hlt, ih (slots.set next (some v)) (next + 1) star (by omega), hsub]
      rw [List.take_succ_cons, List.drop_succ_cons]
      refine Prod.ext rfl (Prod.ext ?_ rfl)
      show next + 1 + min vs.length (spec.num_positional - (next + 1)) =
        next + min (v :: vs).length (spec.num_positional - (next + 1) + 1)
      rw [List.length_cons]
      omega
    · have hn : spec.num_positional - next = 0 := by omega
      rw [fillPos, if_neg hlt, ih slots next (star ++ [v]) h, hn]
      simp [writeSeq]

theorem posPhase_next (spec : ParametersSpec) (pos : List StarValue)
    (slots : List (Option StarValue)) :
    (posPhase spec pos slots).2.1 = min pos.length spec.num_positional := by
  unfold posPhase
  split
  · simp; omega
  · rw [fillPos_eq spec pos slots 0 [] (by omega)]
    show 0 + min pos.length (spec.num_positional - 0) = min pos.length spec.num_positional
    omega

theorem posPhase_star (spec : ParametersSpec) (pos : List StarValue)
    (slots : List (Option StarValue)) :
    (posPhase spec pos slots).2.2 = pos.drop spec.num_positional := by
  unfold posPhase
  split
  · rename_i h
    rw [List.drop_eq_nil_of_le h]
  · rw [fillPos_eq spec pos slots 0 [] (by omega)]
    simp

theorem posPhase_length (spec : ParametersSpec) (pos : List StarValue)
    (slots : List (Option StarValue)) :
    (posPhase spec pos slots).1.length = slots.length := by
  unfold posPhase
  split
  · exact writeZip_length slots pos
  · rw [fillPos_eq spec pos slots 0 [] (by omega)]
    exact writeSeq_length _ slots 0

theorem posPhase_getD_lt (spec : ParametersSpec) (pos : List StarValue)
    (slots : List (Option StarValue)) (j : Nat)
    (hj : j < min pos.length spec.num_positional) (hs : j < slots.length) :
    (posPhase spec pos slots).1.getD j none = pos[j]? := by
  unfold posPhase
  split
  · exact writeZip_getD_lt slots pos j (by omega) hs
  · rename_i h
    rw [fillPos_eq spec pos slots 0 [] (by omega)]
    simp only []
    rw [writeSeq_getD_in _ slots 0 j (by omega)
      (by simp only [List.length_take, Nat.zero_add]; omega) hs]
    simp only [Nat.sub_zero]
    rw [List.getElem?_take, if_pos (by omega)]

theorem posPhase_getD_ge (spec : ParametersSpec) (pos : List StarValue)
    (slots : List (Option StarValue)) (j : Nat)
    (hj : min pos.length spec.num_positional ≤ j) :
    (posPhase spec pos slots).1.getD j none = slots.getD j none := by
  unfold posPhase
  split
  · rename_i h
    exact writeZip_getD_ge slots pos j (by omega)
  · rename_i h
    rw [fillPos_eq spec pos slots 0 [] (by omega)]
    simp only []
    exact writeSeq_getD_out _ slots 0 j
      (by simp only [List.length_take, Nat.zero_add]; omega)

/-! ## Lemmas about the named-argument loop -/

theorem resolvedTargets_nil (spec : ParametersSpec) : resolvedTargets spec [] = [] := rfl

theorem resolvedTargets_cons_none (spec : ParametersSpec) (nm : String) (v : StarValue)
    (rest : List (String × StarValue)) (h : spec.lookupName nm = none) :
    resolvedTargets spec ((nm, v) :: rest) = resolvedTargets spec rest := by
  simp [resolvedTargets, List.filterMap_cons, h]

theorem resolvedTargets_cons_some (spec : ParametersSpec) (nm : String) (v : StarValue)
    (rest : List (String × StarValue)) (i : Nat) (h : spec.lookupName nm = some i) :
    resolvedTargets spec ((nm, v) :: rest) = i :: resolvedTargets spec rest := by
  simp [resolvedTargets, List.filterMap_cons, h]

theorem namedLoop_length (spec : ParametersSpec) (pairs : List (String × StarValue))
    (slots : List (Option StarValue)) (kw : LazyKwargs) (low : Option Nat) :
    (namedLoop spec pairs slots kw low).1.length = slots.length := by
  induction pairs generalizing slots kw low with
  | nil => rfl
  | cons p rest ih =>
    obtain ⟨nm, v⟩ := p
    unfold namedLoop
    cases h : spec.lookupName nm with
    | none => exact ih slots _ low
    | some i => simpa [List.length_set] using ih (slots.set i (some v)) kw (minOpt low i)

theorem namedLoop_getD_notMem (spec : ParametersSpec) (pairs : List (String × StarValue))
    (j : Nat) :
    ∀ (slots : List (Option StarValue)) (kw : LazyKwargs) (low : Option Nat),
      j ∉ resolvedTargets spec pairs →
      (namedLoop spec pairs slots kw low).1.getD j none = slots.getD j none := by
  induction pairs with
  | nil => intro slots kw low _; rfl
  | cons p rest ih =>
    intro slots kw low hj
    obtain ⟨nm, v⟩ := p
    unfold namedLoop
    cases h : spec.lookupName nm with
    | none =>
      rw [resolvedTargets_cons_none spec nm v rest h] at hj
      exact ih slots _ low hj
    | some i =>
      rw [resolvedTargets_cons_some spec nm v rest i h] at hj
      have hne : i ≠ j := by intro he; exact hj (he ▸ List.mem_cons_self i _)
      rw [ih (slots.set i (some v)) kw (minOpt low i)
        (fun hm => hj (List.mem_cons_of_mem i hm)), getD_set_of_ne _ _ _ _ _ hne]

theorem namedLoop_getD_isSome_mono (spec : ParametersSpec)
    (pairs : List (String × StarValue)) (j : Nat) :
    ∀ (slots : List (Option StarValue)) (kw : LazyKwargs) (low : Option Nat),
      (slots.getD j none).isSome = true →
      ((namedLoop spec pairs slots kw low).1.getD j none).isSome = true := by
  induction pairs with
  | nil => intro slots kw low h; exact h
  | cons p rest ih =>
    intro slots kw low h
    obtain ⟨nm, v⟩ := p
    unfold namedLoop
    cases hl : spec.lookupName nm with
    | none => exact ih slots _ low h
    | some i =>
      simpa only [] using ih (slots.set i (some v)) kw (minOpt low i)
        (getD_set_isSome_mono slots i j v h)

theorem namedLoop_getD_mem (spec : ParametersSpec) (pairs : List (String × StarValue))
    (j : Nat) :
    ∀ (slots : List (Option StarValue)) (kw : LazyKwargs) (low : Option Nat),
      j ∈ resolvedTargets spec pairs → j < slots.length →
      ((namedLoop spec pairs slots kw low).1.getD j none).isSome = true := by
  induction pairs with
  | nil => intro slots kw low hj _; simp [resolvedTargets_nil] at hj
  | cons p rest ih =>
    intro slots kw low hj hlen
    obtain ⟨nm, v⟩ := p
    unfold namedLoop
    cases h : spec.lookupName nm with
    | none =>
      rw [resolvedTargets_cons_none spec nm v rest h] at hj
      exact ih slots _ low hj hlen
    | some i =>
      rw [resolvedTargets_cons_some spec nm v rest i h] at hj
      rcases List.mem_cons.mp hj with he | hm
      · subst he
        exact namedLoop_getD_isSome_mono spec rest j _ kw _
          (by rw [getD_set_self _ _ _ _ hlen]; rfl)
      · exact ih (slots.set i (some v)) kw (minOpt low i) hm (by simpa using hlen)

theorem namedLoop_low (spec : ParametersSpec) (pairs : List (String × StarValue))
    (slots : List (Option StarValue)) (kw : LazyKwargs) (low : Option Nat) :
    (namedLoop spec pairs slots kw low).2.2 =
      (resolvedTargets spec pairs).foldl minOpt low := by
  induction pairs generalizing slots kw low with
  | nil => rfl
  | cons p rest ih =>
    obtain ⟨nm, v⟩ := p
    unfold namedLoop
    cases h : spec.lookupName nm with
    | none => rw [resolvedTargets_cons_none spec nm v rest h]; exact ih slots _ low
    | some i =>
      rw [resolvedTargets_cons_some spec nm v rest i h]
      exact ih (slots.set i (some v)) kw (minOpt low i)

/-! ## Lemmas about `minOpt` folds -/

theorem foldl_minOpt_some_start (ts : List Nat) (m : Nat) :
    ∃ l, ts.foldl minOpt (some m) = some l := by
  induction ts generalizing m with
  | nil => exact ⟨m, rfl⟩
  | cons t ts ih => exact ih (min m t)

theorem foldl_minOpt_le_start (ts : List Nat) :
    ∀ (m l : Nat), ts.foldl minOpt (some m) = some l → l ≤ m := by
  induction ts with
  | nil => intro m l h; cases h; exact le_refl _
  | cons t ts ih =>
    intro m l h
    have := ih (min m t) l (by simpa [minOpt] using h)
    omega

theorem foldl_minOpt_le_mem (ts : List Nat) (t : Nat) :
    ∀ (low : Option Nat) (l : Nat), t ∈ ts → ts.foldl minOpt low = some l → l ≤ t := by
  induction ts with
  | nil => intro low l ht _; simp at ht
  | cons t0 ts ih =>
    intro low l ht h
    rcases List.mem_cons.mp ht with he | hm
    · subst he
      have hm0 : ∃ m, minOpt low t = some m ∧ m ≤ t := by
        cases low with
        | none => exact ⟨t, rfl, le_refl t⟩
        | some l0 => exact ⟨min l0 t, rfl, by omega⟩
      obtain ⟨m, hm1, hm2⟩ := hm0
      have := foldl_minOpt_le_start ts m l (by rw [List.foldl_cons, hm1] at h; exact h)
      omega
    · exact ih (minOpt low t0) l hm (by simpa using h)

theorem foldl_minOpt_some_src (ts : List Nat) :
    ∀ (low : Option Nat) (l : Nat), ts.foldl minOpt low = some l →
      l ∈ ts ∨ low = some l := by
  induction ts with
  | nil => intro low l h; exact Or.inr h
  | cons t0 ts ih =>
    intro low l h
    rcases ih (minOpt low t0) l (by simpa using h) with hm | he
    · exact Or.inl (List.mem_cons_of_mem t0 hm)
    · cases low with
      | none =>
        simp [minOpt] at he
        exact Or.inl (he ▸ List.mem_cons_self t0 ts)
      | some l0 =>
        simp [minOpt] at he
        rcases min_choice l0 t0 with hc | hc
        · exact Or.inr (by rw [← he, hc])
        · refine Or.inl ?_
          have : l = t0 := by rw [← he, hc]
          exact this ▸ List.mem_cons_self t0 ts

theorem foldl_minOpt_eq_none (ts : List Nat) (low : Option Nat)
    (h : ts.foldl minOpt low = none) : ts = [] ∧ low = none := by
  cases ts with
  | nil => exact ⟨rfl, h⟩
  | cons t0 ts =>
    exfalso
    have h1 : (t0 :: ts).foldl minOpt low = ts.foldl minOpt (minOpt low t0) := by simp
    have h2 : ∃ m, minOpt low t0 = some m := by
      cases low with
      | none => exact ⟨t0, rfl⟩
      | some l0 => exact ⟨min l0 t0, rfl⟩
    obtain ⟨m, hm⟩ := h2
    obtain ⟨l, hl⟩ := foldl_minOpt_some_start ts m
    rw [h1, hm, hl] at h
    cases h

/-! ## Lemmas about the overflow map -/

theorem insertHashed_fst (mp : List (String × StarValue)) (k : String) (v : StarValue) :
    (insertHashed mp k v).1 = true ↔ k ∈ mp.map Prod.fst := by
  induction mp with
  | nil => simp [insertHashed]
  | cons p rest ih =>
    obtain ⟨k', v'⟩ := p
    by_cases h : k' = k
    · subst h; simp [insertHashed]
    · simp [insertHashed, h, ih, Ne.symm h]

theorem insertHashed_keys (mp : List (String × StarValue)) (k : String) (v : StarValue)
    (x : String) :
    x ∈ (insertHashed mp k v).2.map Prod.fst ↔ x = k ∨ x ∈ mp.map Prod.fst := by
  induction mp with
  | nil => simp [insertHashed]
  | cons p rest ih =>
    obtain ⟨k', v'⟩ := p
    by_cases h : k' = k
    · subst h
      simp only [insertHashed, if_pos rfl]
      constructor
      · intro hx
        rcases (by simpa using hx : x = k' ∨ x ∈ rest.map Prod.fst) with he | hm
        · exact Or.inl he
        · exact Or.inr (by simp [hm])
      · intro hx
        rcases hx with he | hm
        · simp [he]
        · rcases (by simpa using hm : x = k' ∨ x ∈ rest.map Prod.fst) with he | hm'
          · simp [he]
          · simp [hm']
    · simp only [insertHashed, if_neg h]
      constructor
      · intro hx
        rcases (by simpa using hx : x = k' ∨ x ∈ (insertHashed rest k v).2.map Prod.fst)
          with he | hm
        · exact Or.inr (by simp [he])
        · rcases ih.mp hm with he | hm'
          · exact Or.inl he
          · exact Or.inr (by simp [hm'])
      · intro hx
        rcases hx with he | hm
        · subst he
          simp only [List.map_cons]
          exact List.mem_cons_of_mem _ (ih.mpr (Or.inl rfl))
        · rcases (by simpa using hm : x = k' ∨ x ∈ rest.map Prod.fst) with he | hm'
          · simp [he]
          · simp [ih, hm']

theorem lazyInsert_fst (kw : LazyKwargs) (k : String) (v : StarValue) :
    (lazyInsert kw k v).1 = true ↔ k ∈ ovfKeys kw := by
  cases kw with
  | none => simp [lazyInsert, ovfKeys]
  | some mp => simpa [lazyInsert, ovfKeys] using insertHashed_fst mp k v

theorem lazyInsert_mem (kw : LazyKwargs) (k : String) (v : StarValue) (x : String) :
    x ∈ ovfKeys (lazyInsert kw k v).2 ↔ x = k ∨ x ∈ ovfKeys kw := by
  cases kw with
  | none => simp [lazyInsert, ovfKeys]
  | some mp => simpa [lazyInsert, ovfKeys] using insertHashed_keys mp k v x

theorem ovfKeys_mem_some (kw : LazyKwargs) (k : String) (h : k ∈ ovfKeys kw) :
    ∃ mp, kw = some mp := by
  cases kw with
  | none => simp [ovfKeys] at h
  | some mp => exact ⟨mp, rfl⟩

theorem getD_set_some_none_inv (l : List (Option StarValue)) (i j : Nat) (v : StarValue)
    (h : (l.set i (some v)).getD j none = none) : l.getD j none = none := by
  by_cases hij : i = j
  · subst hij
    by_cases hi : i < l.length
    · rw [getD_set_self _ _ _ _ hi] at h; cases h
    · rwa [List.set_eq_of_length_le (by omega)] at h
  · rwa [getD_set_of_ne _ _ _ _ _ hij] at h

theorem namedLoop_kw_mono (spec : ParametersSpec) (pairs : List (String × StarValue))
    (x : String) :
    ∀ (slots : List (Option StarValue)) (kw : LazyKwargs) (low : Option Nat),
      x ∈ ovfKeys kw → x ∈ ovfKeys (namedLoop spec pairs slots kw low).2.1 := by
  induction pairs with
  | nil => intro slots kw low h; exact h
  | cons p rest ih =>
    intro slots kw low h
    obtain ⟨nm, v⟩ := p
    unfold namedLoop
    cases hl : spec.lookupName nm with
    | none => exact ih slots _ low ((lazyInsert_mem kw nm v x).mpr (Or.inr h))
    | some i => simpa only [] using ih (slots.set i (some v)) kw (minOpt low i) h

theorem namedLoop_kw_unresolved (spec : ParametersSpec)
    (pairs : List (String × StarValue)) (nm : String) (v : StarValue) :
    ∀ (slots : List (Option StarValue)) (kw : LazyKwargs) (low : Option Nat),
      (nm, v) ∈ pairs → spec.lookupName nm = none →
      nm ∈ ovfKeys (namedLoop spec pairs slots kw low).2.1 := by
  induction pairs with
  | nil => intro slots kw low h _; simp at h
  | cons p rest ih =>
    intro slots kw low hmem hln
    obtain ⟨nm', v'⟩ := p
    rcases List.mem_cons.mp hmem with he | hm
    · obtain ⟨he1, he2⟩ := Prod.mk.injEq .. ▸ he
      subst he1; subst he2
      unfold namedLoop
      rw [hln]
      exact namedLoop_kw_mono spec rest nm slots _ low
        ((lazyInsert_mem kw nm v nm).mpr (Or.inl rfl))
    · unfold namedLoop
      cases hl : spec.lookupName nm' with
      | none => exact ih slots _ low hm hln
      | some i => simpa only [] using ih (slots.set i (some v')) kw (minOpt low i) hm hln

/-! ## Lemmas about the kwargs-splat loop -/

theorem kwLoop_length (spec : ParametersSpec) (es : List (StarValue × StarValue)) :
    ∀ (slots : List (Option StarValue)) (kw : LazyKwargs)
      (s' : List (Option StarValue)) (kw' : LazyKwargs),
      kwLoop spec es slots kw = .ok (s', kw') → s'.length = slots.length := by
  induction es with
  | nil => intro slots kw s' kw' h; cases h; rfl
  | cons e rest ih =>
    intro slots kw s' kw' h
    obtain ⟨k, v⟩ := e
    cases hs : k.asStr with
    | none => simp [kwLoop, hs] at h
    | some s =>
      simp only [kwLoop, hs] at h
      cases hl : spec.lookupName s with
      | some i =>
        rw [hl] at h
        simp only [] at h
        by_cases hr : (slots.getD i none).isSome
        · rw [if_pos hr] at h; cases h
        · rw [if_neg hr] at h
          rw [ih _ _ _ _ h, List.length_set]
      | none =>
        rw [hl] at h
        simp only [] at h
        by_cases hr : (lazyInsert kw s v).1 = true
        · rw [if_pos hr] at h; cases h
        · rw [if_neg hr] at h
          exact ih _ _ _ _ h

theorem kwLoop_mono_slots (spec : ParametersSpec) (es : List (StarValue × StarValue))
    (j : Nat) :
    ∀ (slots : List (Option StarValue)) (kw : LazyKwargs)
      (s' : List (Option StarValue)) (kw' : LazyKwargs),
      kwLoop spec es slots kw = .ok (s', kw') →
      (slots.getD j none).isSome = true → (s'.getD j none).isSome = true := by
  induction es with
  | nil => intro slots kw s' kw' h hj; cases h; exact hj
  | cons e rest ih =>
    intro slots kw s' kw' h hj
    obtain ⟨k, v⟩ := e
    cases hs : k.asStr with
    | none => simp [kwLoop, hs] at h
    | some s =>
      simp only [kwLoop, hs] at h
      cases hl : spec.lookupName s with
      | some i =>
        rw [hl] at h
        simp only [] at h
        by_cases hr : (slots.getD i none).isSome
        · rw [if_pos hr] at h; cases h
        · rw [if_neg hr] at h
          exact ih _ _ _ _ h (getD_set_isSome_mono slots i j v hj)
      | none =>
        rw [hl] at h
        simp only [] at h
        by_cases hr : (lazyInsert kw s v).1 = true
        · rw [if_pos hr] at h; cases h
        · rw [if_neg hr] at h
          exact ih _ _ _ _ h hj

theorem kwLoop_mono_keys (spec : ParametersSpec) (es : List (StarValue × StarValue))
    (x : String) :
    ∀ (slots : List (Option StarValue)) (kw : LazyKwargs)
      (s' : List (Option StarValue)) (kw' : LazyKwargs),
      kwLoop spec es slots kw = .ok (s', kw') →
      x ∈ ovfKeys kw → x ∈ ovfKeys kw' := by
  induction es with
  | nil => intro slots kw s' kw' h hx; cases h; exact hx
  | cons e rest ih =>
    intro slots kw s' kw' h hx
    obtain ⟨k, v⟩ := e
    cases hs : k.asStr with
    | none => simp [kwLoop, hs] at h
    | some s =>
      simp only [kwLoop, hs] at h
      cases hl : spec.lookupName s with
      | some i =>
        rw [hl] at h
        simp only [] at h
        by_cases hr : (slots.getD i none).isSome
        · rw [if_pos hr] at h; cases h
        · rw [if_neg hr] at h
          exact ih _ _ _ _ h hx
      | none =>
        rw [hl] at h
        simp only [] at h
        by_cases hr : (lazyInsert kw s v).1 = true
        · rw [if_pos hr] at h; cases h
        · rw [if_neg hr] at h
          exact ih _ _ _ _ h ((lazyInsert_mem kw s v x).mpr (Or.inr hx))

theorem kwLoop_append (spec : ParametersSpec) (pre rest : List (StarValue × StarValue)) :
    ∀ (slots : List (Option StarValue)) (kw : LazyKwargs),
      kwLoop spec (pre ++ rest) slots kw =
        (match kwLoop spec pre slots kw with
         | .error e => .error e
         | .ok (s, kw2) => kwLoop spec rest s kw2) := by
  induction pre with
  | nil => intro slots kw; rfl
  | cons e pre ih =>
    intro slots kw
    obtain ⟨k, v⟩ := e
    cases hs : k.asStr with
    | none => simp [kwLoop, hs]
    | some s =>
      simp only [List.cons_append, kwLoop, hs]
      cases hl : spec.lookupName s with
      | some i =>
        simp only []
        by_cases hr : (slots.getD i none).isSome
        · rw [if_pos hr, if_pos hr]
        · rw [if_neg hr, if_neg hr]
          exact ih _ _
      | none =>
        simp only []
        by_cases hr : (lazyInsert kw s v).1 = true
        · rw [if_pos hr, if_pos hr]
        · rw [if_neg hr, if_neg hr]
          exact ih _ _

theorem kwLoop_ok_start (spec : ParametersSpec) (es : List (StarValue × StarValue)) :
    ∀ (slots : List (Option StarValue)) (kw : LazyKwargs)
      (s' : List (Option StarValue)) (kw' : LazyKwargs),
      kwLoop spec es slots kw = .ok (s', kw') →
      ∀ e ∈ es, ∃ s, e.1.asStr = some s ∧
        (∀ i, spec.lookupName s = some i → slots.getD i none = none) ∧
        (spec.lookupName s = none → s ∉ ovfKeys kw) := by
  induction es with
  | nil => intro slots kw s' kw' _ e he; simp at he
  | cons e0 rest ih =>
    intro slots kw s' kw' h e he
    obtain ⟨k, v⟩ := e0
    cases hs : k.asStr with
    | none => simp [kwLoop, hs] at h
    | some s =>
      simp only [kwLoop, hs] at h
      cases hl : spec.lookupName s with
      | some i =>
        rw [hl] at h
        simp only [] at h
        by_cases hr : (slots.getD i none).isSome
        · rw [if_pos hr] at h; cases h
        · rw [if_neg hr] at h
          rcases List.mem_cons.mp he with he0 | hm
          · subst he0
            refine ⟨s, hs, ?_, ?_⟩
            · intro i' hi'
              rw [hl] at hi'; cases hi'
              exact Option.not_isSome_iff_eq_none.mp hr
            · intro hn; rw [hl] at hn; cases hn
          · obtain ⟨s2, hs2, h1, h2⟩ := ih _ _ _ _ h e hm
            refine ⟨s2, hs2, ?_, h2⟩
            intro i' hi'
            exact getD_set_some_none_inv slots i i' v (h1 i' hi')
      | none =>
        rw [hl] at h
        simp only [] at h
        by_cases hr : (lazyInsert kw s v).1 = true
        · rw [if_pos hr] at h; cases h
        · rw [if_neg hr] at h
          rcases List.mem_cons.mp he with he0 | hm
          · subst he0
            refine ⟨s, hs, ?_, ?_⟩
            · intro i' hi'; rw [hl] at hi'; cases hi'
            · intro _
              intro hmem
              exact absurd ((lazyInsert_fst kw s v).mpr hmem) (by simpa using hr)
          · obtain ⟨s2, hs2, h1, h2⟩ := ih _ _ _ _ h e hm
            refine ⟨s2, hs2, h1, ?_⟩
            intro hn hmem
            exact h2 hn ((lazyInsert_mem kw s v s2).mpr (Or.inr hmem))

theorem kwLoop_ok_target_some (spec : ParametersSpec)
    (es : List (StarValue × StarValue)) (j : Nat) :
    ∀ (slots : List (Option StarValue)) (kw : LazyKwargs)
      (s' : List (Option StarValue)) (kw' : LazyKwargs),
      kwLoop spec es slots kw = .ok (s', kw') →
      ∀ e ∈ es, ∀ s, e.1.asStr = some s → spec.lookupName s = some j →
      j < slots.length → (s'.getD j none).isSome = true := by
  induction es with
  | nil => intro slots kw s' kw' _ e he; simp at he
  | cons e0 rest ih =>
    intro slots kw s' kw' h e he s hes hls hj
    obtain ⟨k, v⟩ := e0
    cases hs : k.asStr with
    | none => simp [kwLoop, hs] at h
    | some s0 =>
      simp only [kwLoop, hs] at h
      cases hl : spec.lookupName s0 with
      | some i =>
        rw [hl] at h
        simp only [] at h
        by_cases hr : (slots.getD i none).isSome
        · rw [if_pos hr] at h; cases h
        · rw [if_neg hr] at h
          rcases List.mem_cons.mp he with he0 | hm
          · subst he0
            have hss : s = s0 := by rw [hes] at hs; cases hs; rfl
            subst hss
            have hij : i = j := by rw [hls] at hl; cases hl; rfl
            subst hij
            exact kwLoop_mono_slots spec rest i _ _ _ _ h
              (by rw [getD_set_self _ _ _ _ hj]; rfl)
          · exact ih _ _ _ _ h e hm s hes hls (by simpa using hj)
      | none =>
        rw [hl] at h
        simp only [] at h
        by_cases hr : (lazyInsert kw s0 v).1 = true
        · rw [if_pos hr] at h; cases h
        · rw [if_neg hr] at h
          rcases List.mem_cons.mp he with he0 | hm
          · subst he0
            have hss : s = s0 := by rw [hes] at hs; cases hs; rfl
            subst hss
            rw [hls] at hl; cases hl
          · exact ih _ _ _ _ h e hm s hes hls hj

theorem kwLoop_ok_unresolved_mem (spec : ParametersSpec)
    (es : List (StarValue × StarValue)) (x : String) :
    ∀ (slots : List (Option StarValue)) (kw : LazyKwargs)
      (s' : List (Option StarValue)) (kw' : LazyKwargs),
      kwLoop spec es slots kw = .ok (s', kw') →
      ∀ e ∈ es, e.1.asStr = some x → spec.lookupName x = none →
      x ∈ ovfKeys kw' := by
  induction es with
  | nil => intro slots kw s' kw' _ e he; simp at he
  | cons e0 rest ih =>
    intro slots kw s' kw' h e he hes hlx
    obtain ⟨k, v⟩ := e0
    cases hs : k.asStr with
    | none => simp [kwLoop, hs] at h
    | some s0 =>
      simp only [kwLoop, hs] at h
      cases hl : spec.lookupName s0 with
      | some i =>
        rw [hl] at h
        simp only [] at h
        by_cases hr : (slots.getD i none).isSome
        · rw [if_pos hr] at h; cases h
        · rw [if_neg hr] at h
          rcases List.mem_cons.mp he with he0 | hm
          · subst he0
            have hss : x = s0 := by rw [hes] at hs; cases hs; rfl
            subst hss
            rw [hlx] at hl; cases hl
          · exact ih _ _ _ _ h e hm hes hlx
      | none =>
        rw [hl] at h
        simp only [] at h
        by_cases hr : (lazyInsert kw s0 v).1 = true
        · rw [if_pos hr] at h; cases h
        · rw [if_neg hr] at h
          rcases List.mem_cons.mp he with he0 | hm
          · subst he0
            have hss : x = s0 := by rw [hes] at hs; cases hs; rfl
            subst hss
            exact kwLoop_mono_keys spec rest x _ _ _ _ h
              ((lazyInsert_mem kw x v x).mpr (Or.inl rfl))
          · exact ih _ _ _ _ h e hm hes hlx

theorem kwLoop_getD_out (spec : ParametersSpec)
    (es : List (StarValue × StarValue)) (j : Nat) :
    ∀ (slots : List (Option StarValue)) (kw : LazyKwargs)
      (s' : List (Option StarValue)) (kw' : LazyKwargs),
      kwLoop spec es slots kw = .ok (s', kw') →
      (∀ e ∈ es, ∀ s i, e.1.asStr = some s → spec.lookupName s = some i → i ≠ j) →
      s'.getD j none = slots.getD j none := by
  induction es with
  | nil => intro slots kw s' kw' h _; cases h; rfl
  | cons e0 rest ih =>
    intro slots kw s' kw' h hne
    obtain ⟨k, v⟩ := e0
    cases hs : k.asStr with
    | none => simp [kwLoop, hs] at h
    | some s0 =>
      simp only [kwLoop, hs] at h
      cases hl : spec.lookupName s0 with
      | some i =>
        rw [hl] at h
        simp only [] at h
        by_cases hr : (slots.getD i none).isSome
        · rw [if_pos hr] at h; cases h
        · rw [if_neg hr] at h
          have hij : i ≠ j := hne (k, v) (List.mem_cons_self _ _) s0 i hs hl
          rw [ih _ _ _ _ h fun e hm s i' h1 h2 =>
            hne e (List.mem_cons_of_mem _ hm) s i' h1 h2]
          exact getD_set_of_ne _ _ _ _ _ hij
      | none =>
        rw [hl] at h
        simp only [] at h
        by_cases hr : (lazyInsert kw s0 v).1 = true
        · rw [if_pos hr] at h; cases h
        · rw [if_neg hr] at h
          exact ih _ _ _ _ h fun e hm s i' h1 h2 =>
            hne e (List.mem_cons_of_mem _ hm) s i' h1 h2

/-! ## Lemmas about the defaults loop -/

theorem defLoop_length (spec : ParametersSpec) (is' : List Nat) :
    ∀ (slots s' : List (Option StarValue)),
      defLoop spec is' slots = .ok s' → s'.length = slots.length := by
  induction is' with
  | nil => intro slots s' h; cases h; rfl
  | cons i rest ih =>
    intro slots s' h
    cases hslot : slots.getD i none with
    | some w => simp only [defLoop, hslot] at h; exact ih _ _ h
    | none =>
      simp only [defLoop, hslot] at h
      cases hk : kindAt spec i with
      | Required => rw [hk] at h; cases h
      | Defaulted x => rw [hk] at h; simp only [] at h; rw [ih _ _ h, List.length_set]
      | Optional => rw [hk] at h; exact ih _ _ h
      | Args => rw [hk] at h; exact ih _ _ h
      | KWargs => rw [hk] at h; exact ih _ _ h

theorem defLoop_mono (spec : ParametersSpec) (is' : List Nat) (j : Nat) :
    ∀ (slots s' : List (Option StarValue)),
      defLoop spec is' slots = .ok s' →
      (slots.getD j none).isSome = true → (s'.getD j none).isSome = true := by
  induction is' with
  | nil => intro slots s' h hj; cases h; exact hj
  | cons i rest ih =>
    intro slots s' h hj
    cases hslot : slots.getD i none with
    | some w => simp only [defLoop, hslot] at h; exact ih _ _ h hj
    | none =>
      simp only [defLoop, hslot] at h
      cases hk : kindAt spec i with
      | Required => rw [hk] at h; cases h
      | Defaulted x =>
        rw [hk] at h; simp only [] at h
        exact ih _ _ h (getD_set_isSome_mono slots i j x hj)
      | Optional => rw [hk] at h; exact ih _ _ h hj
      | Args => rw [hk] at h; exact ih _ _ h hj
      | KWargs => rw [hk] at h; exact ih _ _ h hj

theorem defLoop_getD_out (spec : ParametersSpec) (is' : List Nat) (j : Nat) :
    ∀ (slots s' : List (Option StarValue)),
      defLoop spec is' slots = .ok s' → j ∉ is' →
      s'.getD j none = slots.getD j none := by
  induction is' with
  | nil => intro slots s' h _; cases h; rfl
  | cons i rest ih =>
    intro slots s' h hj
    have hij : i ≠ j := fun he => hj (he ▸ List.mem_cons_self i rest)
    have hjr : j ∉ rest := fun hm => hj (List.mem_cons_of_mem i hm)
    cases hslot : slots.getD i none with
    | some w => simp only [defLoop, hslot] at h; exact ih _ _ h hjr
    | none =>
      simp only [defLoop, hslot] at h
      cases hk : kindAt spec i with
      | Required => rw [hk] at h; cases h
      | Defaulted x =>
        rw [hk] at h; simp only [] at h
        rw [ih _ _ h hjr, getD_set_of_ne _ _ _ _ _ hij]
      | Optional => rw [hk] at h; exact ih _ _ h hjr
      | Args => rw [hk] at h; exact ih _ _ h hjr
      | KWargs => rw [hk] at h; exact ih _ _ h hjr

theorem defLoop_not_defaulted (spec : ParametersSpec) (is' : List Nat) (j : Nat)
    (hnd : ∀ x, kindAt spec j ≠ .Defaulted x) :
    ∀ (slots s' : List (Option StarValue)),
      defLoop spec is' slots = .ok s' →
      s'.getD j none = slots.getD j none := by
  induction is' with
  | nil => intro slots s' h; cases h; rfl
  | cons i rest ih =>
    intro slots s' h
    cases hslot : slots.getD i none with
    | some w => simp only [defLoop, hslot] at h; exact ih _ _ h
    | none =>
      simp only [defLoop, hslot] at h
      cases hk : kindAt spec i with
      | Required => rw [hk] at h; cases h
      | Defaulted x =>
        rw [hk] at h; simp only [] at h
        have hij : i ≠ j := fun he => hnd x (he ▸ hk)
        rw [ih _ _ h, getD_set_of_ne _ _ _ _ _ hij]
      | Optional => rw [hk] at h; exact ih _ _ h
      | Args => rw [hk] at h; exact ih _ _ h
      | KWargs => rw [hk] at h; exact ih _ _ h

theorem defLoop_ok_leftEmpty (spec : ParametersSpec) (is' : List Nat) :
    ∀ (slots s' : List (Option StarValue)),
      defLoop spec is' slots = .ok s' → (∀ i ∈ is', i < slots.length) →
      ∀ i ∈ is', s'.getD i none = none → (kindAt spec i).leftEmpty = true := by
  induction is' with
  | nil => intro slots s' _ _ i hi; simp at hi
  | cons i0 rest ih =>
    intro slots s' h hlen i hi hnone
    cases hslot : slots.getD i0 none with
    | some w =>
      simp only [defLoop, hslot] at h
      rcases List.mem_cons.mp hi with he | hm
      · subst he
        have := defLoop_mono spec rest i _ _ h (by rw [hslot]; rfl)
        rw [hnone] at this; cases this
      · exact ih _ _ h (fun t ht => hlen t (List.mem_cons_of_mem _ ht)) i hm hnone
    | none =>
      simp only [defLoop, hslot] at h
      cases hk : kindAt spec i0 with
      | Required => rw [hk] at h; cases h
      | Defaulted x =>
        rw [hk] at h; simp only [] at h
        rcases List.mem_cons.mp hi with he | hm
        · subst he
          have hi0 : i < slots.length := hlen i (List.mem_cons_self _ _)
          have := defLoop_mono spec rest i _ _ h
            (by rw [getD_set_self _ _ _ _ hi0]; rfl)
          rw [hnone] at this; cases this
        · exact ih _ _ h
            (fun t ht => by
              rw [List.length_set]; exact hlen t (List.mem_cons_of_mem _ ht)) i hm hnone
      | Optional =>
        rw [hk] at h
        rcases List.mem_cons.mp hi with he | hm
        · subst he; rw [hk]; rfl
        · exact ih _ _ h (fun t ht => hlen t (List.mem_cons_of_mem _ ht)) i hm hnone
      | Args =>
        rw [hk] at h
        rcases List.mem_cons.mp hi with he | hm
        · subst he; rw [hk]; rfl
        · exact ih _ _ h (fun t ht => hlen t (List.mem_cons_of_mem _ ht)) i hm hnone
      | KWargs =>
        rw [hk] at h
        rcases List.mem_cons.mp hi with he | hm
        · subst he; rw [hk]; rfl
        · exact ih _ _ h (fun t ht => hlen t (List.mem_cons_of_mem _ ht)) i hm hnone

theorem defLoop_first_required (spec : ParametersSpec) (i : Nat) (rest : List Nat) :
    ∀ (pre : List Nat) (slots : List (Option StarValue)),
      (∀ j ∈ pre, slots.getD j none = none → (kindAt spec j).isRequired = false) →
      i ∉ pre → slots.getD i none = none → kindAt spec i = .Required →
      defLoop spec (pre ++ i :: rest) slots =
        .error (.MissingParameter (nameAt spec i) spec.function_name) := by
  intro pre
  induction pre with
  | nil =>
    intro slots _ _ hi hk
    simp only [List.nil_append, defLoop, hi, hk]
  | cons j pre ih =>
    intro slots hpre hnotin hi hk
    have hji : j ≠ i := fun he => hnotin (he ▸ List.mem_cons_self j pre)
    rw [List.cons_append]
    cases hslot : slots.getD j none with
    | some w =>
      simp only [defLoop, hslot]
      exact ih slots (fun t ht => hpre t (List.mem_cons_of_mem _ ht))
        (fun hm => hnotin (List.mem_cons_of_mem _ hm)) hi hk
    | none =>
      have hreq := hpre j (List.mem_cons_self _ _) hslot
      simp only [defLoop, hslot]
      cases hkj : kindAt spec j with
      | Required => rw [hkj] at hreq; cases hreq
      | Defaulted x =>
        simp only []
        exact ih (slots.set j (some x))
          (fun t ht hnone => hpre t (List.mem_cons_of_mem _ ht)
            (getD_set_some_none_inv slots j t x hnone))
          (fun hm => hnotin (List.mem_cons_of_mem _ hm))
          (by rw [getD_set_of_ne _ _ _ _ _ hji]; exact hi) hk
      | Optional =>
        exact ih slots (fun t ht => hpre t (List.mem_cons_of_mem _ ht))
          (fun hm => hnotin (List.mem_cons_of_mem _ hm)) hi hk
      | Args =>
        exact ih slots (fun t ht => hpre t (List.mem_cons_of_mem _ ht))
          (fun hm => hnotin (List.mem_cons_of_mem _ hm)) hi hk
      | KWargs =>
        exact ih slots (fun t ht => hpre t (List.mem_cons_of_mem _ ht))
          (fun hm => hnotin (List.mem_cons_of_mem _ hm)) hi hk

/-! ## Lemmas about sink finalization -/

theorem lazyAlloc_dict (kw : LazyKwargs) : ∃ es, lazyAlloc kw = .dict es := by
  cases kw with
  | none => exact ⟨[], rfl⟩
  | some mp => exact ⟨_, rfl⟩

theorem finalize_length (spec : ParametersSpec) (slots : List (Option StarValue))
    (star : List StarValue) (kw : LazyKwargs) (out : List (Option StarValue))
    (h : finalizeSinks spec slots star kw = .ok out) : out.length = slots.length := by
  unfold finalizeSinks at h
  cases ha : spec.args_index with
  | some a =>
    rw [ha] at h
    simp only [] at h
    cases hk : spec.kwargs_index with
    | some kp => rw [hk] at h; cases h; simp [List.length_set]
    | none =>
      rw [hk] at h
      cases hkw : kw with
      | some mp => rw [hkw] at h; cases h
      | none => rw [hkw] at h; cases h; simp [List.length_set]
  | none =>
    rw [ha] at h
    cases hst : star.isEmpty with
    | false => rw [hst] at h; cases h
    | true =>
      rw [hst] at h
      simp only [Bool.not_true, if_neg (by simp : ¬ (false = true))] at h
      cases hk : spec.kwargs_index with
      | some kp => rw [hk] at h; cases h; simp [List.length_set]
      | none =>
        rw [hk] at h
        cases hkw : kw with
        | some mp => rw [hkw] at h; cases h
        | none => rw [hkw] at h; cases h; rfl

theorem finalize_mono (spec : ParametersSpec) (slots : List (Option StarValue))
    (star : List StarValue) (kw : LazyKwargs) (out : List (Option StarValue)) (j : Nat)
    (h : finalizeSinks spec slots star kw = .ok out)
    (hj : (slots.getD j none).isSome = true) : (out.getD j none).isSome = true := by
  unfold finalizeSinks at h
  cases ha : spec.args_index with
  | some a =>
    rw [ha] at h
    simp only [] at h
    cases hk : spec.kwargs_index with
    | some kp =>
      rw [hk] at h; cases h
      exact getD_set_isSome_mono _ kp j _ (getD_set_isSome_mono _ a j _ hj)
    | none =>
      rw [hk] at h
      cases hkw : kw with
      | some mp => rw [hkw] at h; cases h
      | none => rw [hkw] at h; cases h; exact getD_set_isSome_mono _ a j _ hj
  | none =>
    rw [ha] at h
    cases hst : star.isEmpty with
    | false => rw [hst] at h; cases h
    | true =>
      rw [hst] at h
      simp only [Bool.not_true, if_neg (by simp : ¬ (false = true))] at h
      cases hk : spec.kwargs_index with
      | some kp => rw [hk] at h; cases h; exact getD_set_isSome_mono _ kp j _ hj
      | none =>
        rw [hk] at h
        cases hkw : kw with
        | some mp => rw [hkw] at h; cases h
        | none => rw [hkw] at h; cases h; exact hj

theorem finalize_getD_out (spec : ParametersSpec) (slots : List (Option StarValue))
    (star : List StarValue) (kw : LazyKwargs) (out : List (Option StarValue)) (j : Nat)
    (h : finalizeSinks spec slots star kw = .ok out)
    (hja : spec.args_index ≠ some j) (hjk : spec.kwargs_index ≠ some j) :
    out.getD j none = slots.getD j none := by
  unfold finalizeSinks at h
  cases ha : spec.args_index with
  | some a =>
    rw [ha] at h
    simp only [] at h
    have haj : a ≠ j := fun he => hja (ha ▸ he ▸ rfl)
    cases hk : spec.kwargs_index with
    | some kp =>
      rw [hk] at h; cases h
      have hkj : kp ≠ j := fun he => hjk (hk ▸ he ▸ rfl)
      rw [getD_set_of_ne _ _ _ _ _ hkj, getD_set_of_ne _ _ _ _ _ haj]
    | none =>
      rw [hk] at h
      cases hkw : kw with
      | some mp => rw [hkw] at h; cases h
      | none => rw [hkw] at h; cases h; rw [getD_set_of_ne _ _ _ _ _ haj]
  | none =>
    rw [ha] at h
    cases hst : star.isEmpty with
    | false => rw [hst] at h; cases h
    | true =>
      rw [hst] at h
      simp only [Bool.not_true, if_neg (by simp : ¬ (false = true))] at h
      cases hk : spec.kwargs_index with
      | some kp =>
        rw [hk] at h; cases h
        have hkj : kp ≠ j := fun he => hjk (hk ▸ he ▸ rfl)
        rw [getD_set_of_ne _ _ _ _ _ hkj]
      | none =>
        rw [hk] at h
        cases hkw : kw with
        | some mp => rw [hkw] at h; cases h
        | none => rw [hkw] at h; cases h; rfl

theorem finalize_args_slot (spec : ParametersSpec) (slots : List (Option StarValue))
    (star : List StarValue) (kw : LazyKwargs) (out : List (Option StarValue)) (a : Nat)
    (h : finalizeSinks spec slots star kw = .ok out)
    (ha : spec.args_index = some a) (hak : spec.kwargs_index ≠ some a)
    (hlen : a < slots.length) :
    out.getD a none = some (.tuple star) := by
  unfold finalizeSinks at h
  rw [ha] at h
  simp only [] at h
  cases hk : spec.kwargs_index with
  | some kp =>
    rw [hk] at h; cases h
    have hka : kp ≠ a := fun he => hak (hk ▸ he ▸ rfl)
    rw [getD_set_of_ne _ _ _ _ _ hka, getD_set_self _ _ _ _ hlen]
  | none =>
    rw [hk] at h
    cases hkw : kw with
    | some mp => rw [hkw] at h; cases h
    | none => rw [hkw] at h; cases h; rw [getD_set_self _ _ _ _ hlen]

theorem finalize_kwargs_slot (spec : ParametersSpec) (slots : List (Option StarValue))
    (star : List StarValue) (kw : LazyKwargs) (out : List (Option StarValue)) (kp : Nat)
    (h : finalizeSinks spec slots star kw = .ok out)
    (hk : spec.kwargs_index = some kp) (hlen : kp < slots.length) :
    out.getD kp none = some (lazyAlloc kw) := by
  unfold finalizeSinks at h
  cases ha : spec.args_index with
  | some a =>
    rw [ha, hk] at h
    simp only [] at h
    cases h
    exact getD_set_self _ _ _ _ (by simpa [List.length_set] using hlen)
  | none =>
    rw [ha] at h
    cases hst : star.isEmpty with
    | false => rw [hst] at h; cases h
    | true =>
      rw [hst] at h
      simp only [Bool.not_true, if_neg (by simp : ¬ (false = true))] at h
      rw [hk] at h
      cases h
      exact getD_set_self _ _ _ _ hlen

theorem finalize_star_empty (spec : ParametersSpec) (slots : List (Option StarValue))
    (star : List StarValue) (kw : LazyKwargs) (out : List (Option StarValue))
    (h : finalizeSinks spec slots star kw = .ok out)
    (ha : spec.args_index = none) : star = [] := by
  unfold finalizeSinks at h
  rw [ha] at h
  cases hst : star.isEmpty with
  | false => rw [hst] at h; cases h
  | true => exact List.isEmpty_iff.mp hst

theorem finalize_kw_none (spec : ParametersSpec) (slots : List (Option StarValue))
    (star : List StarValue) (kw : LazyKwargs) (out : List (Option StarValue))
    (h : finalizeSinks spec slots star kw = .ok out)
    (hk : spec.kwargs_index = none) : kw = none := by
  unfold finalizeSinks at h
  cases ha : spec.args_index with
  | some a =>
    rw [ha, hk] at h
    simp only [] at h
    cases hkw : kw with
    | some mp => rw [hkw] at h; cases h
    | none => rfl
  | none =>
    rw [ha] at h
    cases hst : star.isEmpty with
    | false => rw [hst] at h; cases h
    | true =>
      rw [hst] at h
      simp only [Bool.not_true, if_neg (by simp : ¬ (false = true))] at h
      rw [hk] at h
      cases hkw : kw with
      | some mp => rw [hkw] at h; cases h
      | none => rfl

/-! ## Decomposing the phase pipeline -/

theorem bindPhasesPreKw_noSplat_noLow (spec : ParametersSpec) (args : Arguments)
    (slots s1 : List (Option StarValue)) (n1 : Nat) (st1 : List StarValue)
    (s2 : List (Option StarValue)) (kw2 : LazyKwargs)
    (h1 : posPhase spec args.pos slots = (s1, n1, st1))
    (h2 : namedLoop spec (args.names.zip args.named) s1 none none = (s2, kw2, none))
    (hargs : args.args = none) :
    bindPhasesPreKw spec args slots = .ok (s2, n1, st1, kw2) := by
  unfold bindPhasesPreKw
  simp only [h1, h2, hargs]

theorem bindPhasesPreKw_noSplat_coll (spec : ParametersSpec) (args : Arguments)
    (slots s1 : List (Option StarValue)) (n1 : Nat) (st1 : List StarValue)
    (s2 : List (Option StarValue)) (kw2 : LazyKwargs) (l : Nat)
    (h1 : posPhase spec args.pos slots = (s1, n1, st1))
    (h2 : namedLoop spec (args.names.zip args.named) s1 none none = (s2, kw2, some l))
    (hargs : args.args = none) (hlt : l < n1) :
    bindPhasesPreKw spec args slots = .error (.RepeatedArg (nameAt spec l)) := by
  unfold bindPhasesPreKw
  simp only [h1, h2, hargs, if_pos hlt]

theorem bindPhasesPreKw_noSplat_ok (spec : ParametersSpec) (args : Arguments)
    (slots s1 : List (Option StarValue)) (n1 : Nat) (st1 : List StarValue)
    (s2 : List (Option StarValue)) (kw2 : LazyKwargs) (l : Nat)
    (h1 : posPhase spec args.pos slots = (s1, n1, st1))
    (h2 : namedLoop spec (args.names.zip args.named) s1 none none = (s2, kw2, some l))
    (hargs : args.args = none) (hge : ¬ l < n1) :
    bindPhasesPreKw spec args slots = .ok (s2, n1, st1, kw2) := by
  unfold bindPhasesPreKw
  simp only [h1, h2, hargs, if_neg hge]

theorem bindPhasesPreKw_splat_bad (spec : ParametersSpec) (args : Arguments)
    (slots : List (Option StarValue)) (v : StarValue)
    (hargs : args.args = some v) (hit : v.iterate = none) :
    bindPhasesPreKw spec args slots = .error .ArgsArrayIsNotIterable := by
  unfold bindPhasesPreKw
  simp only [hargs, hit]

theorem bindPhasesPreKw_splat_noLow (spec : ParametersSpec) (args : Arguments)
    (slots s1 : List (Option StarValue)) (n1 : Nat) (st1 : List StarValue)
    (s2 : List (Option StarValue)) (kw2 : LazyKwargs) (v : StarValue)
    (xs : List StarValue) (s3 : List (Option StarValue)) (n3 : Nat)
    (st3 : List StarValue)
    (h1 : posPhase spec args.pos slots = (s1, n1, st1))
    (h2 : namedLoop spec (args.names.zip args.named) s1 none none = (s2, kw2, none))
    (hargs : args.args = some v) (hit : v.iterate = some xs)
    (hfill : fillPos spec xs s2 n1 st1 = (s3, n3, st3)) :
    bindPhasesPreKw spec args slots = .ok (s3, n3, st3, kw2) := by
  unfold bindPhasesPreKw
  simp only [h1, h2, hargs, hit, hfill]

theorem bindPhasesPreKw_splat_coll (spec : ParametersSpec) (args : Arguments)
    (slots s1 : List (Option StarValue)) (n1 : Nat) (st1 : List StarValue)
    (s2 : List (Option StarValue)) (kw2 : LazyKwargs) (v : StarValue)
    (xs : List StarValue) (s3 : List (Option StarValue)) (n3 : Nat)
    (st3 : List StarValue) (l : Nat)
    (h1 : posPhase spec args.pos slots = (s1, n1, st1))
    (h2 : namedLoop spec (args.names.zip args.named) s1 none none = (s2, kw2, some l))
    (hargs : args.args = some v) (hit : v.iterate = some xs)
    (hfill : fillPos spec xs s2 n1 st1 = (s3, n3, st3)) (hlt : l < n3) :
    bindPhasesPreKw spec args slots = .error (.RepeatedArg (nameAt spec l)) := by
  unfold bindPhasesPreKw
  simp only [h1, h2, hargs, hit, hfill, if_pos hlt]

theorem bindPhasesPreKw_splat_ok (spec : ParametersSpec) (args : Arguments)
    (slots s1 : List (Option StarValue)) (n1 : Nat) (st1 : List StarValue)
    (s2 : List (Option StarValue)) (kw2 : LazyKwargs) (v : StarValue)
    (xs : List StarValue) (s3 : List (Option StarValue)) (n3 : Nat)
    (st3 : List StarValue) (l : Nat)
    (h1 : posPhase spec args.pos slots = (s1, n1, st1))
    (h2 : namedLoop spec (args.names.zip args.named) s1 none none = (s2, kw2, some l))
    (hargs : args.args = some v) (hit : v.iterate = some xs)
    (hfill : fillPos spec xs s2 n1 st1 = (s3, n3, st3)) (hge : ¬ l < n3) :
    bindPhasesPreKw spec args slots = .ok (s3, n3, st3, kw2) := by
  unfold bindPhasesPreKw
  simp only [h1, h2, hargs, hit, hfill, if_neg hge]

theorem finishBind_errIn (spec : ParametersSpec) (n : Nat) (star : List StarValue)
    (e : FunctionError) : finishBind spec n star (.error e) = .error e := rfl

theorem finishBind_ok_def (spec : ParametersSpec) (n : Nat) (star : List StarValue)
    (s : List (Option StarValue)) (kw : LazyKwargs) :
    finishBind spec n star (.ok (s, kw)) =
      match defLoop spec (List.range' n (spec.len - n)) s with
      | .error e => .error e
      | .ok s' => finalizeSinks spec s' star kw := rfl

theorem finishBind_defErr (spec : ParametersSpec) (n : Nat) (star : List StarValue)
    (s : List (Option StarValue)) (kw : LazyKwargs) (e : FunctionError)
    (hd : defLoop spec (List.range' n (spec.len - n)) s = .error e) :
    finishBind spec n star (.ok (s, kw)) = .error e := by
  rw [finishBind_ok_def, hd]

theorem finishBind_defOk (spec : ParametersSpec) (n : Nat) (star : List StarValue)
    (s s' : List (Option StarValue)) (kw : LazyKwargs)
    (hd : defLoop spec (List.range' n (spec.len - n)) s = .ok s') :
    finishBind spec n star (.ok (s, kw)) = finalizeSinks spec s' star kw := by
  rw [finishBind_ok_def, hd]

theorem bindPhases_err (spec : ParametersSpec) (args : Arguments)
    (slots : List (Option StarValue)) (e : FunctionError)
    (hpre : bindPhasesPreKw spec args slots = .error e) :
    bindPhases spec args slots = .error e := by
  unfold bindPhases
  rw [hpre]

theorem bindPhases_noKw (spec : ParametersSpec) (args : Arguments)
    (slots s : List (Option StarValue)) (n : Nat) (st : List StarValue)
    (kw : LazyKwargs)
    (hpre : bindPhasesPreKw spec args slots = .ok (s, n, st, kw))
    (hkw : args.kwargs = none) :
    bindPhases spec args slots = .ok (s, n, st, kw) := by
  unfold bindPhases
  rw [hpre]
  simp only [hkw]

theorem bindPhases_kwNotDict (spec : ParametersSpec) (args : Arguments)
    (slots s : List (Option StarValue)) (n : Nat) (st : List StarValue)
    (kw : LazyKwargs) (v : StarValue)
    (hpre : bindPhasesPreKw spec args slots = .ok (s, n, st, kw))
    (hkw : args.kwargs = some v) (hd : v.dictEntries = none) :
    bindPhases spec args slots = .error .KwArgsIsNotDict := by
  unfold bindPhases
  rw [hpre]
  simp only [hkw, hd]

theorem bindPhases_kwErr (spec : ParametersSpec) (args : Arguments)
    (slots s : List (Option StarValue)) (n : Nat) (st : List StarValue)
    (kw : LazyKwargs) (v : StarValue) (es : List (StarValue × StarValue))
    (e : FunctionError)
    (hpre : bindPhasesPreKw spec args slots = .ok (s, n, st, kw))
    (hkw : args.kwargs = some v) (hd : v.dictEntries = some es)
    (hloop : kwLoop spec es s kw = .error e) :
    bindPhases spec args slots = .error e := by
  unfold bindPhases
  rw [hpre]
  simp only [hkw, hd, hloop]

theorem bindPhases_kwOk (spec : ParametersSpec) (args : Arguments)
    (slots s : List (Option StarValue)) (n : Nat) (st : List StarValue)
    (kw : LazyKwargs) (v : StarValue) (es : List (StarValue × StarValue))
    (s' : List (Option StarValue)) (kw' : LazyKwargs)
    (hpre : bindPhasesPreKw spec args slots = .ok (s, n, st, kw))
    (hkw : args.kwargs = some v) (hd : v.dictEntries = some es)
    (hloop : kwLoop spec es s kw = .ok (s', kw')) :
    bindPhases spec args slots = .ok (s', n, st, kw') := by
  unfold bindPhases
  rw [hpre]
  simp only [hkw, hd, hloop]

theorem collectSlow_err (spec : ParametersSpec) (args : Arguments)
    (slots : List (Option StarValue)) (e : FunctionError)
    (hb : bindPhases spec args slots = .error e) :
    collectSlow spec args slots = .error e := by
  unfold collectSlow
  rw [hb]

theorem collectSlow_ok_decomp (spec : ParametersSpec) (args : Arguments)
    (slots s : List (Option StarValue)) (n : Nat) (st : List StarValue)
    (kw : LazyKwargs)
    (hb : bindPhases spec args slots = .ok (s, n, st, kw)) :
    collectSlow spec args slots = finishBind spec n st (.ok (s, kw)) := by
  unfold collectSlow
  rw [hb]

theorem collectSlow_ok_elim (spec : ParametersSpec) (args : Arguments)
    (slots out : List (Option StarValue))
    (h : collectSlow spec args slots = .ok out) :
    ∃ (s : List (Option StarValue)) (n : Nat) (st : List StarValue)
      (kw : LazyKwargs) (s₄ : List (Option StarValue)),
      bindPhases spec args slots = .ok (s, n, st, kw) ∧
      defLoop spec (List.range' n (spec.len - n)) s = .ok s₄ ∧
      finalizeSinks spec s₄ st kw = .ok out := by
  cases hb : bindPhases spec args slots with
  | error e =>
    rw [collectSlow_err spec args slots e hb] at h
    cases h
  | ok r =>
    obtain ⟨s, n, st, kw⟩ := r
    rw [collectSlow_ok_decomp spec args slots s n st kw hb,
      finishBind_ok_def] at h
    cases hd : defLoop spec (List.range' n (spec.len - n)) s with
    | error e =>
      rw [hd] at h
      exact Except.noConfusion h
    | ok s₄ =>
      rw [hd] at h
      exact ⟨s, n, st, kw, s₄, rfl, hd, h⟩

theorem bindPhases_ok_elim (spec : ParametersSpec) (args : Arguments)
    (slots s' : List (Option StarValue)) (n : Nat) (st : List StarValue)
    (kw' : LazyKwargs)
    (h : bindPhases spec args slots = .ok (s', n, st, kw')) :
    ∃ (s : List (Option StarValue)) (kw : LazyKwargs),
      bindPhasesPreKw spec args slots = .ok (s, n, st, kw) ∧
      ((args.kwargs = none ∧ s' = s ∧ kw' = kw) ∨
       (∃ v es, args.kwargs = some v ∧ v.dictEntries = some es ∧
         kwLoop spec es s kw = .ok (s', kw'))) := by
  cases hpre : bindPhasesPreKw spec args slots with
  | error e =>
    rw [bindPhases_err spec args slots e hpre] at h
    exact Except.noConfusion h
  | ok r =>
    obtain ⟨s, n0, st0, kw⟩ := r
    cases hkw : args.kwargs with
    | none =>
      rw [bindPhases_noKw spec args slots s n0 st0 kw hpre hkw] at h
      simp only [Except.ok.injEq, Prod.mk.injEq] at h
      obtain ⟨h1, h2, h3, h4⟩ := h
      subst h1; subst h2; subst h3; subst h4
      exact ⟨s, kw, rfl, Or.inl ⟨rfl, rfl, rfl⟩⟩
    | some v =>
      cases hd : v.dictEntries with
      | none =>
        rw [bindPhases_kwNotDict spec args slots s n0 st0 kw v hpre hkw hd] at h
        exact Except.noConfusion h
      | some es =>
        cases hloop : kwLoop spec es s kw with
        | error e =>
          rw [bindPhases_kwErr spec args slots s n0 st0 kw v es e hpre hkw hd hloop] at h
          exact Except.noConfusion h
        | ok r2 =>
          obtain ⟨s2, kw2⟩ := r2
          rw [bindPhases_kwOk spec args slots s n0 st0 kw v es s2 kw2
            hpre hkw hd hloop] at h
          simp only [Except.ok.injEq, Prod.mk.injEq] at h
          obtain ⟨h1, h2, h3, h4⟩ := h
          subst h1; subst h2; subst h3; subst h4
          exact ⟨s, kw, rfl, Or.inr ⟨v, es, rfl, hd, hloop⟩⟩

theorem bindPhasesPreKw_ok_elim (spec : ParametersSpec) (args : Arguments)
    (slots s : List (Option StarValue)) (n : Nat) (st : List StarValue)
    (kw : LazyKwargs)
    (h : bindPhasesPreKw spec args slots = .ok (s, n, st, kw)) :
    ∃ (s1 : List (Option StarValue)) (n1 : Nat) (st1 : List StarValue)
      (s2 : List (Option StarValue)) (low : Option Nat),
      posPhase spec args.pos slots = (s1, n1, st1) ∧
      namedLoop spec (args.names.zip args.named) s1 none none = (s2, kw, low) ∧
      ((args.args = none ∧ s = s2 ∧ n = n1 ∧ st = st1) ∨
       (∃ v xs, args.args = some v ∧ v.iterate = some xs ∧
         fillPos spec xs s2 n1 st1 = (s, n, st))) ∧
      (∀ l, low = some l → n ≤ l) := by
  obtain ⟨⟨s1, n1, st1⟩, hp⟩ : ∃ r, posPhase spec args.pos slots = r := ⟨_, rfl⟩
  obtain ⟨⟨s2, kw2, low⟩, hnl⟩ :
      ∃ r, namedLoop spec (args.names.zip args.named) s1 none none = r := ⟨_, rfl⟩
  cases hargs : args.args with
  | none =>
    cases hlow : low with
    | none =>
      rw [hlow] at hnl
      rw [bindPhasesPreKw_noSplat_noLow spec args slots s1 n1 st1 s2 kw2
        hp hnl hargs] at h
      simp only [Except.ok.injEq, Prod.mk.injEq] at h
      obtain ⟨h1, h2, h3, h4⟩ := h
      subst h1; subst h2; subst h3; subst h4
      exact ⟨s1, n1, st1, s2, none, hp, hnl, Or.inl ⟨rfl, rfl, rfl, rfl⟩,
        fun l hl => by cases hl⟩
    | some l =>
      rw [hlow] at hnl
      by_cases hlt : l < n1
      · rw [bindPhasesPreKw_noSplat_coll spec args slots s1 n1 st1 s2 kw2 l
          hp hnl hargs hlt] at h
        exact Except.noConfusion h
      · rw [bindPhasesPreKw_noSplat_ok spec args slots s1 n1 st1 s2 kw2 l
          hp hnl hargs hlt] at h
        simp only [Except.ok.injEq, Prod.mk.injEq] at h
        obtain ⟨h1, h2, h3, h4⟩ := h
        subst h1; subst h2; subst h3; subst h4
        exact ⟨s1, n1, st1, s2, some l, hp, hnl, Or.inl ⟨rfl, rfl, rfl, rfl⟩,
          fun l' hl' => by cases hl'; omega⟩
  | some v =>
    cases hit : v.iterate with
    | none =>
      rw [bindPhasesPreKw_splat_bad spec args slots v hargs hit] at h
      exact Except.noConfusion h
    | some xs =>
      obtain ⟨⟨s3, n3, st3⟩, hf⟩ : ∃ r, fillPos spec xs s2 n1 st1 = r := ⟨_, rfl⟩
      cases hlow : low with
      | none =>
        rw [hlow] at hnl
        rw [bindPhasesPreKw_splat_noLow spec args slots s1 n1 st1 s2 kw2 v xs
          s3 n3 st3 hp hnl hargs hit hf] at h
        simp only [Except.ok.injEq, Prod.mk.injEq] at h
        obtain ⟨h1, h2, h3, h4⟩ := h
        subst h1; subst h2; subst h3; subst h4
        exact ⟨s1, n1, st1, s2, none, hp, hnl,
          Or.inr ⟨v, xs, rfl, hit, hf⟩, fun l hl => by cases hl⟩
      | some l =>
        rw [hlow] at hnl
        by_cases hlt : l < n3
        · rw [bindPhasesPreKw_splat_coll spec args slots s1 n1 st1 s2 kw2 v xs
            s3 n3 st3 l hp hnl hargs hit hf hlt] at h
          exact Except.noConfusion h
        · rw [bindPhasesPreKw_splat_ok spec args slots s1 n1 st1 s2 kw2 v xs
            s3 n3 st3 l hp hnl hargs hit hf hlt] at h
          simp only [Except.ok.injEq, Prod.mk.injEq] at h
          obtain ⟨h1, h2, h3, h4⟩ := h
          subst h1; subst h2; subst h3; subst h4
          exact ⟨s1, n1, st1, s2, some l, hp, hnl,
            Or.inr ⟨v, xs, rfl, hit, hf⟩, fun l' hl' => by cases hl'; omega⟩

/-! ## Further small helpers -/

theorem assocLookup_mem (l : List (String × Nat)) (nm : String) (i : Nat)
    (h : assocLookup l nm = some i) : (nm, i) ∈ l := by
  induction l with
  | nil => cases h
  | cons p rest ih =>
    obtain ⟨k, j⟩ := p
    by_cases hk : k = nm
    · subst hk
      rw [assocLookup, if_pos rfl] at h
      cases h
      exact List.mem_cons_self _ _
    · rw [assocLookup, if_neg hk] at h
      exact List.mem_cons_of_mem _ (ih h)

theorem writeSeq_isSome_mono (vs : List StarValue) (j : Nat) :
    ∀ (slots : List (Option StarValue)) (i : Nat),
      (slots.getD j none).isSome = true →
      ((writeSeq slots i vs).getD j none).isSome = true := by
  induction vs with
  | nil => intro slots i h; exact h
  | cons v vs ih =>
    intro slots i h
    exact ih (slots.set i (some v)) (i + 1) (getD_set_isSome_mono slots i j v h)

theorem fillPos_isSome_mono (spec : ParametersSpec) (vs : List StarValue) (j : Nat) :
    ∀ (slots : List (Option StarValue)) (next : Nat) (star : List StarValue),
      (slots.getD j none).isSome = true →
      ((fillPos spec vs slots next star).1.getD j none).isSome = true := by
  induction vs with
  | nil => intro slots next star h; exact h
  | cons v vs ih =>
    intro slots next star h
    unfold fillPos
    by_cases hlt : next < spec.num_positional
    · rw [if_pos hlt]
      exact ih (slots.set next (some v)) (next + 1) star
        (getD_set_isSome_mono slots next j v h)
    · rw [if_neg hlt]
      exact ih slots next (star ++ [v]) h

theorem mem_zip_of_mem_names (names : List String) (named : List StarValue)
    (nm : String) (hn : nm ∈ names) (hlen : names.length = named.length) :
    ∃ w, (nm, w) ∈ names.zip named := by
  have hmap : (names.zip named).map Prod.fst = names :=
    List.map_fst_zip names named (le_of_eq hlen)
  rw [← hmap] at hn
  obtain ⟨p, hp, hfst⟩ := List.mem_map.mp hn
  exact ⟨p.2, by rwa [show (nm, p.2) = p from Prod.ext hfst.symm rfl]⟩

theorem isKWargs_not_isRegular (k : ParameterKind)
    (h1 : k.isKWargs = true) (h2 : k.isRegular = true) : False := by
  cases k <;> simp [ParameterKind.isKWargs, ParameterKind.isRegular] at h1 h2

/-! ## The claims -/

/-- Claim C2: for every call satisfying the fast-path predicate
(`pos.len == num_positional == N`, no named, no splats), the fast path
and the slow path both succeed and write the identical contents
`slots[i] = pos[i]` into every slot `i < N`. -/
theorem claim_C2 (spec : ParametersSpec) (args : Arguments)
    (slots : List (Option StarValue))
    (hwf : WellFormed spec) (hfast : fastPathOk spec args = true)
    (hlen : spec.len ≤ slots.length) :
    collectInline spec args slots = .ok (writeZip slots args.pos) ∧
    collectSlow spec args slots = .ok (writeZip slots args.pos) ∧
    ∀ i < spec.len, (writeZip slots args.pos).getD i none = args.pos[i]? := by
  obtain ⟨hL, hpo, hpN, hargsIff, hargs2, hkwIff, hkw2, hposreg, hsound, hcomp,
    hnodup⟩ := hwf
  simp only [fastPathOk, Bool.and_eq_true, decide_eq_true_eq,
    List.isEmpty_iff, Option.isNone_iff_eq_none] at hfast
  obtain ⟨⟨⟨⟨hp, hN⟩, hnamed⟩, hargs⟩, hkw⟩ := hfast
  have hano : spec.args_index = none := by
    cases ha : spec.args_index with
    | none => rfl
    | some a =>
      obtain ⟨ha1, ha2⟩ := hargs2 a ha
      omega
  have hkno : spec.kwargs_index = none := by
    cases hk : spec.kwargs_index with
    | none => rfl
    | some k =>
      have hk1 := hkw2 k hk
      have hkk : (kindAt spec k).isKWargs = true := (hkwIff k (by omega)).mpr hk
      have hkr : (kindAt spec k).isRegular = true := hposreg k (by omega)
      exact (isKWargs_not_isRegular _ hkk hkr).elim
  have hp1 : posPhase spec args.pos slots = (writeZip slots args.pos, args.pos.length, []) := by
    unfold posPhase
    rw [if_pos (le_of_eq hp)]
  have hp2 : namedLoop spec (args.names.zip args.named) (writeZip slots args.pos)
      none none = (writeZip slots args.pos, none, none) := by
    rw [hnamed, List.zip_nil_right]
    rfl
  have hpre := bindPhasesPreKw_noSplat_noLow spec args slots _ _ _ _ _ hp1 hp2 hargs
  have hb := bindPhases_noKw spec args slots _ _ _ _ hpre hkw
  have hdl : defLoop spec (List.range' args.pos.length (spec.len - args.pos.length))
      (writeZip slots args.pos) = .ok (writeZip slots args.pos) := by
    rw [show spec.len - args.pos.length = 0 by omega]
    rfl
  have hfin : finalizeSinks spec (writeZip slots args.pos) [] none =
      .ok (writeZip slots args.pos) := by
    unfold finalizeSinks
    rw [hano, hkno]
    rfl
  have hslow : collectSlow spec args slots = .ok (writeZip slots args.pos) := by
    rw [collectSlow_ok_decomp spec args slots _ _ _ _ hb, finishBind_defOk _ _ _ _ _ _ hdl,
      hfin]
  refine ⟨?_, hslow, ?_⟩
  · unfold collectInline
    rw [if_pos]
    simp only [fastPathOk, Bool.and_eq_true, decide_eq_true_eq,
      List.isEmpty_iff, Option.isNone_iff_eq_none]
    exact ⟨⟨⟨⟨hp, hN⟩, hnamed⟩, hargs⟩, hkw⟩
  · intro i hi
    exact writeZip_getD_lt slots args.pos i (by omega) (by omega)

/-- Witness for C2 at `p(7, 8)`. -/
theorem claim_C2_witness :
    (WellFormed exSpecP ∧ fastPathOk exSpecP exArgsP = true ∧
      exSpecP.len ≤ ([none, none] : List (Option StarValue)).length) ∧
    (collectInline exSpecP exArgsP [none, none] = .ok (writeZip [none, none] exArgsP.pos) ∧
     collectSlow exSpecP exArgsP [none, none] = .ok (writeZip [none, none] exArgsP.pos) ∧
     ∀ i < exSpecP.len, (writeZip [none, none] exArgsP.pos).getD i none =
       exArgsP.pos[i]?) :=
  ⟨⟨by decide, rfl, by decide⟩,
    claim_C2 exSpecP exArgsP [none, none] (by decide) rfl (by decide)⟩

/-- Counterexample to C3 as stated: calling `h(**kwargs)` with the name
`z` twice in the named channel binds successfully (the second value
wins), instead of failing with `RepeatedArg`. -/
theorem claim_C3_counterexample :
    collectSlow exSpecH exArgsDup [none] =
      .ok [some (.dict [(.str "z", .int 2)])] := rfl

/-- Claim C3 (amended): a name appearing once in the named channel and
once as a key of the splatted `**kwargs` mapping makes bind fail; within
the named channel alone the duplicate report of the overflow insert is
discarded and the last value wins, so no error is raised there. -/
theorem claim_C3 (spec : ParametersSpec) (args : Arguments)
    (slots : List (Option StarValue)) (nm : String) (w : StarValue)
    (es : List (StarValue × StarValue))
    (hwf : WellFormed spec) (hlen : spec.len ≤ slots.length)
    (hn : nm ∈ args.names) (hzip : args.names.length = args.named.length)
    (hkw : args.kwargs = some (.dict es)) (hmem : (StarValue.str nm, w) ∈ es) :
    ∃ e, collectSlow spec args slots = .error e := by
  obtain ⟨hL, hpo, hpN, hargsIff, hargs2, hkwIff, hkw2, hposreg, hsound, hcomp,
    hnodup⟩ := hwf
  cases hres : collectSlow spec args slots with
  | error e => exact ⟨e, rfl⟩
  | ok out =>
    exfalso
    obtain ⟨s, n, st, kw, s₄, hb, hdl, hfin⟩ :=
      collectSlow_ok_elim spec args slots out hres
    obtain ⟨s0, kw0, hpre, hkwstage⟩ := bindPhases_ok_elim spec args slots s n st kw hb
    rcases hkwstage with ⟨hkn, _, _⟩ | ⟨v, es', hv, hd, hloop⟩
    · rw [hkn] at hkw; cases hkw
    · rw [hv] at hkw
      have hveq : v = .dict es := Option.some.inj hkw
      subst hveq
      have hes : es' = es :=
        (Option.some.inj (show some es = some es' from hd)).symm
      rw [hes] at hloop
      obtain ⟨s1, n1, st1, s2, low, hp, hnl, hsplat, hcoll⟩ :=
        bindPhasesPreKw_ok_elim spec args slots s0 n st kw0 hpre
      obtain ⟨w', hw'⟩ := mem_zip_of_mem_names args.names args.named nm hn hzip
      obtain ⟨sx, hsx, hstart1, hstart2⟩ :=
        kwLoop_ok_start spec es s0 kw0 _ _ hloop (.str nm, w) hmem
      have hsxnm : sx = nm :=
        (Option.some.inj (show some nm = some sx from hsx)).symm
      rw [hsxnm] at hstart1 hstart2
      cases hl : spec.lookupName nm with
      | some i =>
        have hnone := hstart1 i hl
        have hiN : i < spec.len := ((hsound (nm, i) (assocLookup_mem _ _ _ hl)).1)
        have hlen1 : s1.length = slots.length := by
          have := posPhase_length spec args.pos slots
          rw [hp] at this
          exact this
        have htgt : i ∈ resolvedTargets spec (args.names.zip args.named) := by
          unfold resolvedTargets
          exact List.mem_filterMap.mpr ⟨(nm, w'), hw', hl⟩
        have hsome2 : ((s2.getD i none)).isSome = true := by
          have := namedLoop_getD_mem spec (args.names.zip args.named) i s1 none none
            htgt (by omega)
          rw [hnl] at this
          exact this
        have hsome : ((s0.getD i none)).isSome = true := by
          rcases hsplat with ⟨_, hs, _, _⟩ | ⟨vv, xs, hvv, hit, hf⟩
          · rw [hs]; exact hsome2
          · have := fillPos_isSome_mono spec xs i s2 n1 st1 hsome2
            rw [hf] at this
            exact this
        rw [hnone] at hsome
        cases hsome
      | none =>
        have hnin := hstart2 hl
        have hin : nm ∈ ovfKeys kw0 := by
          have := namedLoop_kw_unresolved spec (args.names.zip args.named) nm w'
            s1 none none hw' hl
          rw [hnl] at this
          exact this
        exact hnin hin

/-- Witness for C3 (amended) at `h(z=1, **{z: 2})`. -/
theorem claim_C3_witness :
    (WellFormed exSpecH ∧ exSpecH.len ≤ ([none] : List (Option StarValue)).length ∧
      "z" ∈ exArgsCross.names ∧
      exArgsCross.names.length = exArgsCross.named.length ∧
      exArgsCross.kwargs = some (.dict [(.str "z", .int 2)]) ∧
      (StarValue.str "z", StarValue.int 2) ∈ [(StarValue.str "z", StarValue.int 2)]) ∧
    (∃ e, collectSlow exSpecH exArgsCross [none] = .error e) :=
  ⟨⟨by decide, by decide, List.mem_cons_self _ _, rfl, rfl, List.mem_cons_self _ _⟩,
    claim_C3 exSpecH exArgsCross [none] "z" (.int 2) [(.str "z", .int 2)]
      (by decide) (by decide) (List.mem_cons_self _ _) rfl rfl
      (List.mem_cons_self _ _)⟩

/-- Claim C4: when the phases up to and including the `**kwargs` splat
succeed and some `Required` slot at index `i` (the first such) is still
empty, binding returns `MissingParameter` for it — regardless of the
pending positional overflow `st` and keyword overflow `kw`, i.e. in
preference to `ExtraPositionalArg` and `ExtraNamedArg`. -/
theorem claim_C4 (spec : ParametersSpec) (args : Arguments)
    (slots s : List (Option StarValue)) (n : Nat) (st : List StarValue)
    (kw : LazyKwargs) (i : Nat)
    (hb : bindPhases spec args slots = .ok (s, n, st, kw))
    (hn : n ≤ i) (hiN : i < spec.len)
    (hempty : s.getD i none = none) (hreq : kindAt spec i = .Required)
    (hfirst : ∀ j, n ≤ j → j < i → s.getD j none = none →
      (kindAt spec j).isRequired = false) :
    collectSlow spec args slots =
      .error (.MissingParameter (nameAt spec i) spec.function_name) := by
  rw [collectSlow_ok_decomp spec args slots s n st kw hb]
  have hsplit : List.range' n (spec.len - n) =
      List.range' n (i - n) ++ i :: List.range' (i + 1) (spec.len - (i + 1)) := by
    have h1 : i :: List.range' (i + 1) (spec.len - (i + 1)) =
        List.range' i ((spec.len - (i + 1)) + 1) := by
      rw [List.range'_succ]
    rw [h1, show (spec.len - (i + 1)) + 1 = spec.len - i by omega]
    have h2 := List.range'_append n (i - n) (spec.len - i) 1
    rw [show n + 1 * (i - n) = i by omega] at h2
    rw [h2, show spec.len - i + (i - n) = spec.len - n by omega]
  have hd : defLoop spec (List.range' n (spec.len - n)) s =
      .error (.MissingParameter (nameAt spec i) spec.function_name) := by
    rw [hsplit]
    refine defLoop_first_required spec i _ _ s ?_ ?_ hempty hreq
    · intro j hj hnone
      rw [List.mem_range'_1] at hj
      exact hfirst j (by omega) (by omega) hnone
    · intro hmem
      rw [List.mem_range'_1] at hmem
      omega
  exact finishBind_defErr spec n st s kw _ hd

/-- Witness for C4 at `q(u=7)`: the required `a` is missing and the
unknown keyword `u` has no sink, yet `MissingParameter` is reported. -/
theorem claim_C4_witness :
    (bindPhases exSpecQ exArgsQ [none] =
      .ok ([none], 0, [], some [("u", .int 7)]) ∧
      (0 : Nat) ≤ 0 ∧ 0 < exSpecQ.len ∧
      ([none] : List (Option StarValue)).getD 0 none = none ∧
      kindAt exSpecQ 0 = .Required) ∧
    collectSlow exSpecQ exArgsQ [none] =
      .error (.MissingParameter (nameAt exSpecQ 0) exSpecQ.function_name) :=
  ⟨⟨rfl, le_refl 0, by decide, rfl, rfl⟩,
    claim_C4 exSpecQ exArgsQ [none] [none] 0 [] (some [("u", .int 7)]) 0
      rfl (le_refl 0) (by decide) rfl rfl (fun j _ hj _ => by omega)⟩

/-- Claim C9: consuming a splatted `*args` value `v` after the
positional and named phases: a non-iterable `v` fails the bind with the
args-not-iterable error; otherwise the elements fill the positional
slots from `next_position` up to `num_positional` and the remainder is
appended to `star_args` — and on every succeeding bind with initially
empty slots, the slots the splat filled were still empty (so it is the
next empty positional slots that are filled). -/
theorem claim_C9 (spec : ParametersSpec) (args : Arguments)
    (slots s1 : List (Option StarValue)) (n1 : Nat) (st1 : List StarValue)
    (s2 : List (Option StarValue)) (kw2 : LazyKwargs) (low : Option Nat)
    (v : StarValue)
    (hwf : WellFormed spec) (hlen : spec.len ≤ slots.length)
    (h1 : posPhase spec args.pos slots = (s1, n1, st1))
    (h2 : namedLoop spec (args.names.zip args.named) s1 none none = (s2, kw2, low))
    (hargs : args.args = some v) :
    (v.iterate = none →
      collectSlow spec args slots = .error .ArgsArrayIsNotIterable) ∧
    (∀ xs, v.iterate = some xs →
      fillPos spec xs s2 n1 st1 =
        (writeSeq s2 n1 (xs.take (spec.num_positional - n1)),
         n1 + min xs.length (spec.num_positional - n1),
         st1 ++ xs.drop (spec.num_positional - n1)) ∧
      (∀ out, collectSlow spec args slots = .ok out →
        (∀ i < spec.len, slots.getD i none = none) →
        ∀ j, n1 ≤ j → j < n1 + min xs.length (spec.num_positional - n1) →
          s2.getD j none = none)) := by
  obtain ⟨hL, hpo, hpN, hargsIff, hargs2, hkwIff, hkw2, hposreg, hsound, hcomp,
    hnodup⟩ := hwf
  have hn1 : n1 = min args.pos.length spec.num_positional := by
    have := posPhase_next spec args.pos slots
    rw [h1] at this
    simpa using this
  constructor
  · intro hit
    exact collectSlow_err spec args slots _
      (bindPhases_err spec args slots _
        (bindPhasesPreKw_splat_bad spec args slots v hargs hit))
  · intro xs hit
    have hclosed := fillPos_eq spec xs s2 n1 st1 (by omega)
    refine ⟨hclosed, ?_⟩
    intro out hok hempty j hj1 hj2
    obtain ⟨s, n, st, kw, s₄, hb, hdl, hfin⟩ :=
      collectSlow_ok_elim spec args slots out hok
    obtain ⟨s0, kw0, hpre, hkwstage⟩ := bindPhases_ok_elim spec args slots s n st kw hb
    obtain ⟨s1', n1', st1', s2', low', hp', hnl', hsplat', hcoll⟩ :=
      bindPhasesPreKw_ok_elim spec args slots s0 n st kw0 hpre
    have he1 := h1.symm.trans hp'
    simp only [Prod.mk.injEq] at he1
    obtain ⟨e1, e2, e3⟩ := he1
    subst e1; subst e2; subst e3
    have he2 := h2.symm.trans hnl'
    simp only [Prod.mk.injEq] at he2
    obtain ⟨f1, f2, f3⟩ := he2
    subst f1; subst f2; subst f3
    rcases hsplat' with ⟨hno, _, _, _⟩ | ⟨vv, xs', hvv, hit', hf⟩
    · rw [hno] at hargs; cases hargs
    · have hveq : v = vv := Option.some.inj (hargs.symm.trans hvv)
      subst hveq
      have hxseq : xs = xs' := Option.some.inj (hit.symm.trans hit')
      subst hxseq
      have hn := hf.symm.trans hclosed
      simp only [Prod.mk.injEq] at hn
      obtain ⟨g1, g2, g3⟩ := hn
      by_cases htj : j ∈ resolvedTargets spec (args.names.zip args.named)
      · exfalso
        have hlow := namedLoop_low spec (args.names.zip args.named) s1 none none
        rw [h2] at hlow
        cases hl : low with
        | none =>
          rw [hl] at hlow
          have := foldl_minOpt_eq_none _ none hlow.symm
          rw [this.1] at htj
          simp at htj
        | some l =>
          rw [hl] at hlow
          have hle := foldl_minOpt_le_mem _ j none l htj hlow.symm
          have := hcoll l hl
          omega
      · have hnm := namedLoop_getD_notMem spec (args.names.zip args.named) j s1
          none none htj
        rw [h2] at hnm
        have hge := posPhase_getD_ge spec args.pos slots j (by omega)
        rw [h1] at hge
        rw [hnm, hge]
        exact hempty j (by omega)

/-- Witness for C9 at `f(1, *(2, 3, 4), c=5)`. -/
theorem claim_C9_witness :
    (WellFormed exSpecF ∧ exSpecF.len ≤ (List.replicate 5 none :
        List (Option StarValue)).length ∧
      posPhase exSpecF exArgsSplat.pos (List.replicate 5 none) =
        ([some (.int 1), none, none, none, none], 1, []) ∧
      namedLoop exSpecF (exArgsSplat.names.zip exArgsSplat.named)
        [some (.int 1), none, none, none, none] none none =
        ([some (.int 1), none, none, some (.int 5), none], none, some 3) ∧
      exArgsSplat.args = some (.tuple [.int 2, .int 3, .int 4])) ∧
    ((StarValue.tuple [.int 2, .int 3, .int 4]).iterate = none →
      collectSlow exSpecF exArgsSplat (List.replicate 5 none) =
        .error .ArgsArrayIsNotIterable) ∧
    (∀ xs, (StarValue.tuple [.int 2, .int 3, .int 4]).iterate = some xs →
      fillPos exSpecF xs [some (.int 1), none, none, some (.int 5), none] 1 [] =
        (writeSeq [some (.int 1), none, none, some (.int 5), none] 1
          (xs.take (exSpecF.num_positional - 1)),
         1 + min xs.length (exSpecF.num_positional - 1),
         [] ++ xs.drop (exSpecF.num_positional - 1)) ∧
      (∀ out, collectSlow exSpecF exArgsSplat (List.replicate 5 none) = .ok out →
        (∀ i < exSpecF.len, (List.replicate 5 (none : Option StarValue)).getD i none
          = none) →
        ∀ j, 1 ≤ j → j < 1 + min xs.length (exSpecF.num_positional - 1) →
          ([some (.int 1), none, none, some (.int 5), none] :
            List (Option StarValue)).getD j none = none)) :=
  ⟨⟨by decide, by decide, rfl, rfl, rfl⟩,
    claim_C9 exSpecF exArgsSplat (List.replicate 5 none)
      [some (.int 1), none, none, none, none] 1 []
      [some (.int 1), none, none, some (.int 5), none] none (some 3)
      (.tuple [.int 2, .int 3, .int 4]) (by decide) (by decide) rfl rfl rfl⟩

/-- Claim C5: after the positional, named and `*args` phases, the binder
fails at the collision check with `RepeatedArg (param_names[lowest])`
exactly when some slot index written by a named argument lies below the
final `next_position` — i.e. exactly when some parameter received both a
positional and a named value (the positional fills occupy the contiguous
prefix below `next_position`, as the last conjunct certifies) — and every
named-written index is at least `num_positional_only`. -/
theorem claim_C5 (spec : ParametersSpec) (args : Arguments)
    (slots s1 : List (Option StarValue)) (n1 : Nat) (st1 : List StarValue)
    (s2 : List (Option StarValue)) (kw2 : LazyKwargs) (low : Option Nat)
    (xs : List StarValue) (s3 : List (Option StarValue)) (n3 : Nat)
    (st3 : List StarValue)
    (hwf : WellFormed spec) (hlen : spec.len ≤ slots.length)
    (h1 : posPhase spec args.pos slots = (s1, n1, st1))
    (h2 : namedLoop spec (args.names.zip args.named) s1 none none = (s2, kw2, low))
    (hsplat : (args.args = none ∧ xs = []) ∨
      (∃ v, args.args = some v ∧ v.iterate = some xs))
    (h3 : fillPos spec xs s2 n1 st1 = (s3, n3, st3)) :
    ((∃ l, low = some l ∧ l < n3) ↔
      (∃ i ∈ resolvedTargets spec (args.names.zip args.named), i < n3)) ∧
    (∀ l, low = some l → l < n3 →
      collectSlow spec args slots = .error (.RepeatedArg (nameAt spec l)) ∧
      l ∈ resolvedTargets spec (args.names.zip args.named) ∧
      (∀ i ∈ resolvedTargets spec (args.names.zip args.named), l ≤ i)) ∧
    (∀ i ∈ resolvedTargets spec (args.names.zip args.named),
      spec.num_positional_only ≤ i) ∧
    (∀ i < n3, (s3.getD i none).isSome = true) := by
  obtain ⟨hL, hpo, hpN, hargsIff, hargs2, hkwIff, hkw2, hposreg, hsound, hcomp,
    hnodup⟩ := hwf
  have hn1 : n1 = min args.pos.length spec.num_positional := by
    have := posPhase_next spec args.pos slots
    rw [h1] at this
    simpa using this
  have hlow := namedLoop_low spec (args.names.zip args.named) s1 none none
  rw [h2] at hlow
  have hclosed := fillPos_eq spec xs s2 n1 st1 (by omega)
  have hn := h3.symm.trans hclosed
  simp only [Prod.mk.injEq] at hn
  obtain ⟨g1, g2, g3⟩ := hn
  have hn3 : n3 ≤ spec.num_positional := by omega
  have hs2len : s2.length = slots.length := by
    have ha := namedLoop_length spec (args.names.zip args.named) s1 none none
    rw [h2] at ha
    have hb := posPhase_length spec args.pos slots
    rw [h1] at hb
    simp only [] at ha hb
    omega
  refine ⟨?_, ?_, ?_, ?_⟩
  · constructor
    · rintro ⟨l, hl, hlt⟩
      rw [hl] at hlow
      rcases foldl_minOpt_some_src _ none l hlow.symm with hm | hm
      · exact ⟨l, hm, hlt⟩
      · cases hm
    · rintro ⟨i, hi, hilt⟩
      cases hl : low with
      | none =>
        rw [hl] at hlow
        have := foldl_minOpt_eq_none _ none hlow.symm
        rw [this.1] at hi
        simp at hi
      | some l =>
        rw [hl] at hlow
        have := foldl_minOpt_le_mem _ i none l hi hlow.symm
        exact ⟨l, rfl, by omega⟩
  · intro l hl hlt
    rw [hl] at h2 hlow
    refine ⟨?_, ?_, ?_⟩
    · rcases hsplat with ⟨hno, hxs0⟩ | ⟨v, hv, hit⟩
      · subst hxs0
        have h3' := (show fillPos spec [] s2 n1 st1 = (s2, n1, st1) from rfl).symm.trans h3
        simp only [Prod.mk.injEq] at h3'
        obtain ⟨k1, k2, k3⟩ := h3'
        exact collectSlow_err spec args slots _
          (bindPhases_err spec args slots _
            (bindPhasesPreKw_noSplat_coll spec args slots s1 n1 st1 s2 kw2 l
              h1 h2 hno (by omega)))
      · exact collectSlow_err spec args slots _
          (bindPhases_err spec args slots _
            (bindPhasesPreKw_splat_coll spec args slots s1 n1 st1 s2 kw2 v xs
              s3 n3 st3 l h1 h2 hv hit h3 hlt))
    · rcases foldl_minOpt_some_src _ none l hlow.symm with hm | hm
      · exact hm
      · cases hm
    · intro i hi
      exact foldl_minOpt_le_mem _ i none l hi hlow.symm
  · intro i hi
    obtain ⟨p, hp, hlook⟩ := List.mem_filterMap.mp hi
    exact (hsound (p.1, i) (assocLookup_mem _ _ _ hlook)).2.2.1
  · intro i hi
    by_cases hin1 : i < n1
    · have hs1 := posPhase_getD_lt spec args.pos slots i (by omega) (by omega)
      rw [h1] at hs1
      have hs1some : ((s1.getD i none)).isSome = true := by
        rw [hs1, List.getElem?_eq_getElem (by omega : i < args.pos.length)]
        rfl
      have hs2some := namedLoop_getD_isSome_mono spec (args.names.zip args.named) i
        s1 none none hs1some
      rw [h2] at hs2some
      have := fillPos_isSome_mono spec xs i s2 n1 st1 hs2some
      rw [h3] at this
      exact this
    · have hrange : i - n1 < (xs.take (spec.num_positional - n1)).length := by
        rw [List.length_take]
        omega
      have := writeSeq_getD_in (xs.take (spec.num_positional - n1)) s2 n1 i
        (by omega) (by rw [List.length_take]; omega) (by omega)
      rw [← g1] at this
      rw [this, List.getElem?_eq_getElem hrange]
      rfl

/-- Witness for C5 at `f(1, 2, a=9)`: parameter `a` (index 0) is filled
positionally and by name, and the collision check reports it. -/
theorem claim_C5_witness :
    (WellFormed exSpecF ∧ exSpecF.len ≤ (List.replicate 5 none :
        List (Option StarValue)).length ∧
      posPhase exSpecF exArgsRep.pos (List.replicate 5 none) =
        ([some (.int 1), some (.int 2), none, none, none], 2, []) ∧
      namedLoop exSpecF (exArgsRep.names.zip exArgsRep.named)
        [some (.int 1), some (.int 2), none, none, none] none none =
        ([some (.int 9), some (.int 2), none, none, none], none, some 0) ∧
      (exArgsRep.args = none ∧ ([] : List StarValue) = []) ∧
      fillPos exSpecF [] [some (.int 9), some (.int 2), none, none, none] 2 [] =
        ([some (.int 9), some (.int 2), none, none, none], 2, [])) ∧
    (((∃ l, (some 0 : Option Nat) = some l ∧ l < 2) ↔
      (∃ i ∈ resolvedTargets exSpecF (exArgsRep.names.zip exArgsRep.named), i < 2)) ∧
     (∀ l, (some 0 : Option Nat) = some l → l < 2 →
       collectSlow exSpecF exArgsRep (List.replicate 5 none) =
         .error (.RepeatedArg (nameAt exSpecF l)) ∧
       l ∈ resolvedTargets exSpecF (exArgsRep.names.zip exArgsRep.named) ∧
       (∀ i ∈ resolvedTargets exSpecF (exArgsRep.names.zip exArgsRep.named), l ≤ i)) ∧
     (∀ i ∈ resolvedTargets exSpecF (exArgsRep.names.zip exArgsRep.named),
       exSpecF.num_positional_only ≤ i) ∧
     (∀ i < 2, (([some (.int 9), some (.int 2), none, none, none] :
        List (Option StarValue)).getD i none).isSome = true)) :=
  ⟨⟨by decide, by decide, rfl, rfl, ⟨rfl, rfl⟩, rfl⟩,
    claim_C5 exSpecF exArgsRep (List.replicate 5 none)
      [some (.int 1), some (.int 2), none, none, none] 2 []
      [some (.int 9), some (.int 2), none, none, none] none (some 0)
      [] [some (.int 9), some (.int 2), none, none, none] 2 []
      (by decide) (by decide) rfl rfl (Or.inl ⟨rfl, rfl⟩) rfl⟩

/-- Claim C8: consumption of the splatted `**kwargs` value `v` once the
earlier phases succeeded: a non-mapping fails with `KwArgsIsNotDict`;
per entry (after a successfully processed prefix `pre`), a non-string
key fails with `ArgsValueIsNotString`; a string key resolving to slot
`i` writes the value there and fails with `RepeatedArg` exactly if the
slot was already filled; a non-resolving key is inserted into the
overflow and fails with `RepeatedArg` exactly if already present
there. -/
theorem claim_C8 (spec : ParametersSpec) (args : Arguments)
    (slots s0 : List (Option StarValue)) (n0 : Nat) (st0 : List StarValue)
    (kw0 : LazyKwargs) (v : StarValue)
    (hpre : bindPhasesPreKw spec args slots = .ok (s0, n0, st0, kw0))
    (hv : args.kwargs = some v) :
    (v.dictEntries = none → collectSlow spec args slots = .error .KwArgsIsNotDict) ∧
    (∀ es pre k w rest s1 kw1, v.dictEntries = some es →
      es = pre ++ (k, w) :: rest →
      kwLoop spec pre s0 kw0 = .ok (s1, kw1) →
      ((k.asStr = none →
          collectSlow spec args slots = .error .ArgsValueIsNotString) ∧
       (∀ s i, k.asStr = some s → spec.lookupName s = some i →
         ((s1.getD i none).isSome = true →
            collectSlow spec args slots = .error (.RepeatedArg s)) ∧
         ((s1.getD i none).isSome = false →
            collectSlow spec args slots =
              finishBind spec n0 st0 (kwLoop spec rest (s1.set i (some w)) kw1))) ∧
       (∀ s, k.asStr = some s → spec.lookupName s = none →
         (s ∈ ovfKeys kw1 →
            collectSlow spec args slots = .error (.RepeatedArg s)) ∧
         (s ∉ ovfKeys kw1 →
            collectSlow spec args slots =
              finishBind spec n0 st0
                (kwLoop spec rest s1 (lazyInsert kw1 s w).2))))) := by
  have hmaster : ∀ es, v.dictEntries = some es →
      collectSlow spec args slots = finishBind spec n0 st0 (kwLoop spec es s0 kw0) := by
    intro es hd
    cases hloop : kwLoop spec es s0 kw0 with
    | error e =>
      rw [collectSlow_err spec args slots e
        (bindPhases_kwErr spec args slots s0 n0 st0 kw0 v es e hpre hv hd hloop)]
      rfl
    | ok r =>
      obtain ⟨s', kw'⟩ := r
      rw [collectSlow_ok_decomp spec args slots s' n0 st0 kw'
        (bindPhases_kwOk spec args slots s0 n0 st0 kw0 v es s' kw' hpre hv hd hloop)]
  constructor
  · intro hd
    exact collectSlow_err spec args slots _
      (bindPhases_kwNotDict spec args slots s0 n0 st0 kw0 v hpre hv hd)
  · intro es pre k w rest s1 kw1 hd hsplit hplp
    have hstep : collectSlow spec args slots =
        finishBind spec n0 st0 (kwLoop spec ((k, w) :: rest) s1 kw1) := by
      rw [hmaster es hd, hsplit, kwLoop_append spec pre ((k, w) :: rest) s0 kw0, hplp]
    refine ⟨?_, ?_, ?_⟩
    · intro hs
      rw [hstep]
      simp only [kwLoop, hs]
      rfl
    · intro s i hs hl
      constructor
      · intro hr
        rw [hstep]
        simp only [kwLoop, hs, hl, hr]
        rfl
      · intro hr
        rw [hstep]
        simp only [kwLoop, hs, hl, hr]
        rfl
    · intro s hs hl
      constructor
      · intro hr
        have hrb : (lazyInsert kw1 s w).1 = true := (lazyInsert_fst kw1 s w).mpr hr
        rw [hstep]
        simp only [kwLoop, hs, hl, hrb]
        rfl
      · intro hr
        have hrb : (lazyInsert kw1 s w).1 = false := by
          cases hb : (lazyInsert kw1 s w).1 with
          | true => exact absurd ((lazyInsert_fst kw1 s w).mp hb) hr
          | false => rfl
        rw [hstep]
        simp only [kwLoop, hs, hl, hrb]
        rfl

/-- Witness for C8 at `f(1, 2, *(3,), c=4, **{e: 5})`. -/
theorem claim_C8_witness :
    (bindPhasesPreKw exSpecF exArgsS5 (List.replicate 5 none) =
      .ok ([some (.int 1), some (.int 2), none, some (.int 4), none], 2,
        [.int 3], none) ∧
      exArgsS5.kwargs = some (.dict [(.str "e", .int 5)])) ∧
    (((StarValue.dict [(.str "e", .int 5)]).dictEntries = none →
      collectSlow exSpecF exArgsS5 (List.replicate 5 none) =
        .error .KwArgsIsNotDict) ∧
    (∀ es pre k w rest s1 kw1,
      (StarValue.dict [(.str "e", .int 5)]).dictEntries = some es →
      es = pre ++ (k, w) :: rest →
      kwLoop exSpecF pre [some (.int 1), some (.int 2), none, some (.int 4), none]
        none = .ok (s1, kw1) →
      ((k.asStr = none →
          collectSlow exSpecF exArgsS5 (List.replicate 5 none) =
            .error .ArgsValueIsNotString) ∧
       (∀ s i, k.asStr = some s → exSpecF.lookupName s = some i →
         ((s1.getD i none).isSome = true →
            collectSlow exSpecF exArgsS5 (List.replicate 5 none) =
              .error (.RepeatedArg s)) ∧
         ((s1.getD i none).isSome = false →
            collectSlow exSpecF exArgsS5 (List.replicate 5 none) =
              finishBind exSpecF 2 [.int 3]
                (kwLoop exSpecF rest (s1.set i (some w)) kw1))) ∧
       (∀ s, k.asStr = some s → exSpecF.lookupName s = none →
         (s ∈ ovfKeys kw1 →
            collectSlow exSpecF exArgsS5 (List.replicate 5 none) =
              .error (.RepeatedArg s)) ∧
         (s ∉ ovfKeys kw1 →
            collectSlow exSpecF exArgsS5 (List.replicate 5 none) =
              finishBind exSpecF 2 [.int 3]
                (kwLoop exSpecF rest s1 (lazyInsert kw1 s w).2)))))) :=
  ⟨⟨rfl, rfl⟩,
    claim_C8 exSpecF exArgsS5 (List.replicate 5 none)
      [some (.int 1), some (.int 2), none, some (.int 4), none] 2 [.int 3] none
      (.dict [(.str "e", .int 5)]) rfl rfl⟩

/-! ## Builder lemmas -/

theorem getD_append_len {α : Type} (l : List α) (x d : α) :
    (l ++ [x]).getD l.length d = x := by
  induction l with
  | nil => rfl
  | cons a t ih => simpa using ih

theorem assocLookup_append_found (l l' : List (String × Nat)) (nm : String) (i : Nat)
    (h : assocLookup l nm = some i) : assocLookup (l ++ l') nm = some i := by
  induction l with
  | nil => cases h
  | cons p rest ih =>
    obtain ⟨k, j⟩ := p
    by_cases hk : k = nm
    · rw [assocLookup, if_pos hk] at h
      rw [List.cons_append, assocLookup, if_pos hk]
      exact h
    · rw [assocLookup, if_neg hk] at h
      rw [List.cons_append, assocLookup, if_neg hk]
      exact ih h

theorem assocLookup_append_notfound (l l' : List (String × Nat)) (nm : String)
    (h : assocLookup l nm = none) : assocLookup (l ++ l') nm = assocLookup l' nm := by
  induction l with
  | nil => rfl
  | cons p rest ih =>
    obtain ⟨k, j⟩ := p
    by_cases hk : k = nm
    · rw [assocLookup, if_pos hk] at h; cases h
    · rw [assocLookup, if_neg hk] at h
      rw [List.cons_append, assocLookup, if_neg hk]
      exact ih h

theorem assocLookup_none_not_mem (l : List (String × Nat)) (nm : String)
    (h : assocLookup l nm = none) : nm ∉ l.map Prod.fst := by
  induction l with
  | nil => simp
  | cons p rest ih =>
    obtain ⟨k, j⟩ := p
    by_cases hk : k = nm
    · rw [assocLookup, if_pos hk] at h; cases h
    · rw [assocLookup, if_neg hk] at h
      simp only [List.map_cons, List.mem_cons]
      rintro (he | hm)
      · exact hk he.symm
      · exact ih h hm

theorem getD_map_snd (l : List (String × ParameterKind)) (i : Nat) (h : i < l.length) :
    (l.map Prod.snd).getD i ParameterKind.Required =
      (l.getD i ("", ParameterKind.Required)).2 := by
  induction l generalizing i with
  | nil => simp at h
  | cons p rest ih =>
    cases i with
    | zero => rfl
    | succ n => simpa using ih n (by simpa using h)

theorem getD_map_fst (l : List (String × ParameterKind)) (i : Nat) (h : i < l.length) :
    (l.map Prod.fst).getD i "" = (l.getD i ("", ParameterKind.Required)).1 := by
  induction l generalizing i with
  | nil => simp at h
  | cons p rest ih =>
    cases i with
    | zero => rfl
    | succ n => simpa using ih n (by simpa using h)

theorem regular_of_not_sinks (k : ParameterKind)
    (h1 : k.isArgs = false) (h2 : k.isKWargs = false) : k.isRegular = true := by
  cases k <;> simp_all [ParameterKind.isArgs, ParameterKind.isKWargs,
    ParameterKind.isRegular]

theorem binv_new (fn : String) : BInv (newBuilder fn) := by
  refine ⟨le_refl 0, le_refl 0, ?_, ?_, ?_, ?_, ?_, ?_, ?_, ?_, ?_, ?_⟩
  · intro a h; cases h
  · intro i hi; simp [newBuilder] at hi
  · intro kp h; cases h
  · intro i hi; simp [newBuilder] at hi
  · intro i hi; simp [newBuilder] at hi
  · intro p hp; simp [newBuilder] at hp
  · intro i h1 h2; simp [newBuilder] at h2
  · simp [newBuilder]
  · intro _; exact ⟨rfl, rfl, rfl, rfl, rfl⟩
  · intro h; cases h

theorem binv_nmpo (b b' : ParametersSpecBuilder) (hb : BInv b)
    (h : builderNoMorePositionalOnlyArgs b = some b') : BInv b' := by
  unfold builderNoMorePositionalOnlyArgs at h
  by_cases hs : b.current_style = .PosOnly
  · rw [if_pos hs] at h
    have hb' := Option.some.inj h
    subst hb'
    obtain ⟨i1, i2, i3, i4, i5, i6, i7, i8, i9, i10, i11, i12⟩ := hb
    obtain ⟨j1, j2, j3, j4, j5⟩ := i11 hs
    refine ⟨i1, i2, i3, i4, i5, i6, i7, i8, i9, i10, ?_, ?_⟩
    · intro hc; cases hc
    · intro _; exact ⟨j2, j4, j5⟩
  · rw [if_neg hs] at h; cases h

theorem binv_nmpa (b b' : ParametersSpecBuilder) (hb : BInv b)
    (h : builderNoMorePositionalArgs b = some b') : BInv b' := by
  unfold builderNoMorePositionalArgs at h
  by_cases h1 : b.args.isSome = true
  · rw [if_pos h1] at h; cases h
  · rw [if_neg h1] at h
    by_cases h2 : CurrentParameterStyle.NamedOnly.styleRank ≤ b.current_style.styleRank
    · rw [if_pos h2] at h; cases h
    · rw [if_neg h2] at h
      by_cases h3 : b.kwargs.isSome = true
      · rw [if_pos h3] at h; cases h
      · rw [if_neg h3] at h
        have hb' := Option.some.inj h
        subst hb'
        obtain ⟨i1, i2, i3, i4, i5, i6, i7, i8, i9, i10, i11, i12⟩ := hb
        refine ⟨i1, i2, i3, i4, i5, i6, i7, i8, i9, i10, ?_, ?_⟩
        · intro hc; cases hc
        · intro hc; cases hc

theorem binv_args (b b' : ParametersSpecBuilder) (hb : BInv b)
    (h : builderArgs b = some b') : BInv b' := by
  unfold builderArgs at h
  by_cases h1 : b.args.isSome = true
  · rw [if_pos h1] at h; cases h
  · rw [if_neg h1] at h
    by_cases h2 : CurrentParameterStyle.NamedOnly.styleRank ≤ b.current_style.styleRank
    · rw [if_pos h2] at h; cases h
    · rw [if_neg h2] at h
      by_cases h3 : b.kwargs.isSome = true
      · rw [if_pos h3] at h; cases h
      · rw [if_neg h3] at h
        have hb' := Option.some.inj h
        subst hb'
        obtain ⟨i1, i2, i3, i4, i5, i6, i7, i8, i9, i10, i11, i12⟩ := hb
        have hargsnone : b.args = none := by
          cases ha : b.args with
          | none => rfl
          | some a => rw [ha] at h1; simp at h1
        have hkwnone : b.kwargs = none := by
          cases hk : b.kwargs with
          | none => rfl
          | some k => rw [hk] at h3; simp at h3
        have hposN : b.positional = b.params.length := by
          rcases (show b.current_style = .PosOnly ∨ b.current_style = .PosOrNamed by
            cases hc : b.current_style <;>
              simp [hc, CurrentParameterStyle.styleRank] at h2 ⊢) with hc | hc
          · exact (i11 hc).2.1
          · exact (i12 hc).1
        set N := b.params.length with hN
        have hlen' : (b.params ++ [("*args", ParameterKind.Args)]).length = N + 1 := by
          simp
        have hkOld : ∀ i, i < N →
            paramKindAt { b with
              params := b.params ++ [("*args", ParameterKind.Args)],
              args := some N, current_style := .NamedOnly } i = paramKindAt b i := by
          intro i hi
          unfold paramKindAt
          simp only []
          rw [List.getD_append _ _ _ _ hi]
        have hkNew : paramKindAt { b with
            params := b.params ++ [("*args", ParameterKind.Args)],
            args := some N, current_style := .NamedOnly } N = ParameterKind.Args := by
          unfold paramKindAt
          simp only []
          rw [getD_append_len]
        have hnOld : ∀ i, i < N →
            paramNameAt { b with
              params := b.params ++ [("*args", ParameterKind.Args)],
              args := some N, current_style := .NamedOnly } i = paramNameAt b i := by
          intro i hi
          unfold paramNameAt
          simp only []
          rw [List.getD_append _ _ _ _ hi]
        refine ⟨i1, by simp only [hlen']; omega, ?_, ?_, ?_, ?_, ?_, ?_, ?_, i10,
          ?_, ?_⟩
        · intro a ha
          have := Option.some.inj ha
          subst this
          rw [hlen']
          exact ⟨hposN, by omega⟩
        · intro i hi
          rw [hlen'] at hi
          by_cases hiN : i < N
          · rw [hkOld i hiN]
            constructor
            · intro hA
              rw [hargsnone] at i4
              exact absurd hA (by simpa using (i4 i hiN).not.mpr (by simp))
            · intro he
              have := Option.some.inj he
              omega
          · have : i = N := by omega
            subst this
            rw [hkNew]
            simp [ParameterKind.isArgs]
        · intro kp hkp
          rw [hkwnone] at hkp
          cases hkp
        · intro i hi
          rw [hlen'] at hi
          by_cases hiN : i < N
          · rw [hkOld i hiN]
            rw [hkwnone] at i6 ⊢
            exact i6 i hiN
          · have : i = N := by omega
            subst this
            rw [hkNew]
            rw [hkwnone]
            simp [ParameterKind.isKWargs]
        · intro i hi
          have hi' : i < b.positional := hi
          rw [hkOld i (by omega)]
          exact i7 i hi'
        · intro p hp
          obtain ⟨k1, k2, k3, k4⟩ := i8 p hp
          rw [hlen']
          exact ⟨by omega, by rw [hnOld p.2 k1]; exact k2, k3,
            by rw [hkOld p.2 k1]; exact k4⟩
        · intro i hle hi hreg
          rw [hlen'] at hi
          by_cases hiN : i < N
          · rw [hnOld i hiN]
            exact i9 i hle hiN (by rw [hkOld i hiN] at hreg; exact hreg)
          · have : i = N := by omega
            subst this
            rw [hkNew] at hreg
            simp [ParameterKind.isRegular] at hreg
        · intro hc; cases hc
        · intro hc; cases hc

theorem binv_kwargs (b b' : ParametersSpecBuilder) (hb : BInv b)
    (h : builderKwargs b = some b') : BInv b' := by
  unfold builderKwargs at h
  by_cases h1 : b.kwargs.isSome = true
  · rw [if_pos h1] at h; cases h
  · rw [if_neg h1] at h
    have hb' := Option.some.inj h
    subst hb'
    obtain ⟨i1, i2, i3, i4, i5, i6, i7, i8, i9, i10, i11, i12⟩ := hb
    have hkwnone : b.kwargs = none := by
      cases hk : b.kwargs with
      | none => rfl
      | some k => rw [hk] at h1; simp at h1
    set N := b.params.length with hN
    have hlen' : (b.params ++ [("**kwargs", ParameterKind.KWargs)]).length = N + 1 := by
      simp
    have hkOld : ∀ i, i < N →
        paramKindAt { b with
          params := b.params ++ [("**kwargs", ParameterKind.KWargs)],
          current_style := .NoMore, kwargs := some N } i = paramKindAt b i := by
      intro i hi
      unfold paramKindAt
      simp only []
      rw [List.getD_append _ _ _ _ hi]
    have hkNew : paramKindAt { b with
        params := b.params ++ [("**kwargs", ParameterKind.KWargs)],
        current_style := .NoMore, kwargs := some N } N = ParameterKind.KWargs := by
      unfold paramKindAt
      simp only []
      rw [getD_append_len]
    have hnOld : ∀ i, i < N →
        paramNameAt { b with
          params := b.params ++ [("**kwargs", ParameterKind.KWargs)],
          current_style := .NoMore, kwargs := some N } i = paramNameAt b i := by
      intro i hi
      unfold paramNameAt
      simp only []
      rw [List.getD_append _ _ _ _ hi]
    refine ⟨i1, by simp only [hlen']; omega, ?_, ?_, ?_, ?_, ?_, ?_, ?_, i10,
      ?_, ?_⟩
    · intro a ha
      obtain ⟨k1, k2⟩ := i3 a ha
      rw [hlen']
      exact ⟨k1, by omega⟩
    · intro i hi
      rw [hlen'] at hi
      by_cases hiN : i < N
      · rw [hkOld i hiN]
        exact i4 i hiN
      · have : i = N := by omega
        subst this
        rw [hkNew]
        simp only [ParameterKind.isKWargs, ParameterKind.isArgs]
        constructor
        · intro hc; cases hc
        · intro he
          obtain ⟨_, k2⟩ := i3 N he
          omega
    · intro kp hkp
      have := Option.some.inj hkp
      subst this
      rw [hlen']
    · intro i hi
      rw [hlen'] at hi
      by_cases hiN : i < N
      · rw [hkOld i hiN]
        rw [hkwnone] at i6
        constructor
        · intro hKW
          exact absurd hKW (by simpa using (i6 i hiN).not.mpr (by simp))
        · intro he
          have := Option.some.inj he
          omega
      · have : i = N := by omega
        subst this
        rw [hkNew]
        simp [ParameterKind.isKWargs]
    · intro i hi
      have hi' : i < b.positional := hi
      rw [hkOld i (by omega)]
      exact i7 i hi'
    · intro p hp
      obtain ⟨k1, k2, k3, k4⟩ := i8 p hp
      rw [hlen']
      exact ⟨by omega, by rw [hnOld p.2 k1]; exact k2, k3,
        by rw [hkOld p.2 k1]; exact k4⟩
    · intro i hle hi hreg
      rw [hlen'] at hi
      by_cases hiN : i < N
      · rw [hnOld i hiN]
        exact i9 i hle hiN (by rw [hkOld i hiN] at hreg; exact hreg)
      · have : i = N := by omega
        subst this
        rw [hkNew] at hreg
        simp [ParameterKind.isRegular] at hreg
    · intro hc; cases hc
    · intro hc; cases hc

theorem binv_add (b : ParametersSpecBuilder) (name : String) (val : ParameterKind)
    (b' : ParametersSpecBuilder) (hb : BInv b) (h : builderAdd b name val = some b') :
    BInv b' := by
  obtain ⟨i1, i2, i3, i4, i5, i6, i7, i8, i9, i10, i11, i12⟩ := hb
  unfold builderAdd at h
  by_cases hval : (val.isArgs || val.isKWargs) = true
  · rw [if_pos hval] at h; cases h
  · rw [if_neg hval] at h
    have hvA : val.isArgs = false := by
      cases hx : val.isArgs
      · rfl
      · exact absurd (by simp [hx]) hval
    have hvK : val.isKWargs = false := by
      cases hx : val.isKWargs
      · rfl
      · exact absurd (by simp [hx]) hval
    have hvR : val.isRegular = true := regular_of_not_sinks val hvA hvK
    by_cases hstyle : b.current_style.styleRank < CurrentParameterStyle.NoMore.styleRank
    · rw [if_pos hstyle] at h
      by_cases hkwS : b.kwargs.isSome = true
      · rw [if_pos hkwS] at h; cases h
      · rw [if_neg hkwS] at h
        have hkwnone : b.kwargs = none := by
          cases hk : b.kwargs with
          | none => rfl
          | some k => rw [hk] at hkwS; simp at hkwS
        simp only [] at h
        have hkOld : ∀ i, i < b.params.length →
            ((b.params ++ [(name, val)]).getD i ("", ParameterKind.Required)).2 =
              paramKindAt b i := by
          intro i hi
          unfold paramKindAt
          rw [List.getD_append _ _ _ _ hi]
        have hkNew : ((b.params ++ [(name, val)]).getD b.params.length
            ("", ParameterKind.Required)).2 = val := by
          rw [getD_append_len]
        have hnOld : ∀ i, i < b.params.length →
            ((b.params ++ [(name, val)]).getD i ("", ParameterKind.Required)).1 =
              paramNameAt b i := by
          intro i hi
          unfold paramNameAt
          rw [List.getD_append _ _ _ _ hi]
        have hnNew : ((b.params ++ [(name, val)]).getD b.params.length
            ("", ParameterKind.Required)).1 = name := by
          rw [getD_append_len]
        by_cases hPos : b.current_style = .PosOnly
        · obtain ⟨e1, e2, e3, e4, e5⟩ := i11 hPos
          rw [if_neg (fun hne => hne hPos)] at h
          simp only [] at h
          rw [hPos, e4] at h
          simp at h
          subst h
          refine ⟨?_, ?_, ?_, ?_, ?_, ?_, ?_, ?_, ?_, ?_, ?_, ?_⟩
          · exact le_refl _
          · show b.params.length + 1 ≤ (b.params ++ [(name, val)]).length
            simp
          · intro a ha
            exact Option.noConfusion ha
          · intro i hi
            have hi' : i < (b.params ++ [(name, val)]).length := hi
            simp only [List.length_append, List.length_cons, List.length_nil] at hi'
            show ((b.params ++ [(name, val)]).getD i ("", ParameterKind.Required)).2.isArgs
              = true ↔ (none : Option Nat) = some i
            by_cases hiN : i < b.params.length
            · rw [hkOld i hiN]
              have := i4 i hiN
              rw [e4] at this
              exact this
            · have hieq : i = b.params.length := by omega
              subst hieq
              rw [hkNew, hvA]
              simp
          · intro kp hkp
            have hkp' : b.kwargs = some kp := hkp
            rw [hkwnone] at hkp'
            exact Option.noConfusion hkp'
          · intro i hi
            have hi' : i < (b.params ++ [(name, val)]).length := hi
            simp only [List.length_append, List.length_cons, List.length_nil] at hi'
            show ((b.params ++ [(name, val)]).getD i ("", ParameterKind.Required)).2.isKWargs
              = true ↔ b.kwargs = some i
            rw [hkwnone]
            by_cases hiN : i < b.params.length
            · rw [hkOld i hiN]
              have := i6 i hiN
              rw [hkwnone] at this
              exact this
            · have hieq : i = b.params.length := by omega
              subst hieq
              rw [hkNew, hvK]
              simp
          · intro i hi
            have hi' : i < b.params.length + 1 := hi
            show ((b.params ++ [(name, val)]).getD i ("", ParameterKind.Required)).2.isRegular
              = true
            by_cases hiN : i < b.params.length
            · rw [hkOld i hiN]
              exact i7 i (by omega)
            · have hieq : i = b.params.length := by omega
              subst hieq
              rw [hkNew]
              exact hvR
          · intro p hp
            have hp' : p ∈ b.names := hp
            rw [e3] at hp'
            simp at hp'
          · intro i hle hi hreg
            have hle' : b.params.length + 1 ≤ i := hle
            have hi' : i < (b.params ++ [(name, val)]).length := hi
            simp only [List.length_append, List.length_cons, List.length_nil] at hi'
            omega
          · exact i10
          · intro _
            refine ⟨by simp, by simp, e3, rfl, e5⟩
          · intro hc
            exact CurrentParameterStyle.noConfusion hc
        · rw [if_pos hPos] at h
          by_cases hfound : (assocLookup b.names name).isSome = true
          · rw [if_pos hfound] at h
            simp only [] at h
            cases h
          · rw [if_neg hfound] at h
            simp only [] at h
            have hnotfound : assocLookup b.names name = none := by
              cases hx : assocLookup b.names name with
              | none => rfl
              | some j => rw [hx] at hfound; simp at hfound
            have hnamemem : name ∉ b.names.map Prod.fst :=
              assocLookup_none_not_mem b.names name hnotfound
            have hsound' : ∀ p ∈ b.names ++ [(name, b.params.length)],
                p.2 < (b.params ++ [(name, val)]).length ∧
                ((b.params ++ [(name, val)]).getD p.2 ("", ParameterKind.Required)).1
                  = p.1 ∧
                b.positional_only ≤ p.2 ∧
                ((b.params ++ [(name, val)]).getD p.2
                  ("", ParameterKind.Required)).2.isRegular = true := by
              intro p hp
              rcases List.mem_append.mp hp with hpo | hpn
              · obtain ⟨k1, k2, k3, k4⟩ := i8 p hpo
                refine ⟨by simp; omega, by rw [hnOld p.2 k1]; exact k2, k3,
                  by rw [hkOld p.2 k1]; exact k4⟩
              · have hpe : p = (name, b.params.length) := by simpa using hpn
                subst hpe
                refine ⟨by simp, hnNew, by omega, by rw [hkNew]; exact hvR⟩
            have hcomp' : ∀ i, b.positional_only ≤ i →
                i < (b.params ++ [(name, val)]).length →
                ((b.params ++ [(name, val)]).getD i
                  ("", ParameterKind.Required)).2.isRegular = true →
                assocLookup (b.names ++ [(name, b.params.length)])
                  (((b.params ++ [(name, val)]).getD i
                    ("", ParameterKind.Required)).1) = some i := by
              intro i hle hi hreg
              have hi' : i < b.params.length + 1 := by simpa using hi
              by_cases hiN : i < b.params.length
              · rw [hnOld i hiN]
                rw [hkOld i hiN] at hreg
                exact assocLookup_append_found _ _ _ _ (i9 i hle hiN hreg)
              · have hieq : i = b.params.length := by omega
                subst hieq
                rw [hnNew]
                rw [assocLookup_append_notfound _ _ _ hnotfound]
                rw [assocLookup, if_pos rfl]
            have hnodup' : ((b.names ++ [(name, b.params.length)]).map Prod.fst).Nodup := by
              rw [List.map_append]
              simp only [List.map_cons, List.map_nil]
              rw [List.nodup_append]
              exact ⟨i10, List.nodup_singleton name,
                fun a ha hb2 => by
                  simp at hb2
                  subst hb2
                  exact hnamemem ha⟩
            by_cases hNamed : b.current_style = .NamedOnly
            · -- no positional increment
              rw [hNamed] at h
              simp at h
              subst h
              refine ⟨i1, by simp; omega, ?_, ?_, ?_, ?_, ?_, hsound', hcomp', hnodup',
                ?_, ?_⟩
              · intro a ha
                have ha' : b.args = some a := ha
                obtain ⟨k1, k2⟩ := i3 a ha'
                exact ⟨k1, by simp; omega⟩
              · intro i hi
                have hi' : i < b.params.length + 1 := by simpa using hi
                show ((b.params ++ [(name, val)]).getD i
                  ("", ParameterKind.Required)).2.isArgs = true ↔ b.args = some i
                by_cases hiN : i < b.params.length
                · rw [hkOld i hiN]
                  exact i4 i hiN
                · have hieq : i = b.params.length := by omega
                  subst hieq
                  rw [hkNew, hvA]
                  constructor
                  · intro hc; cases hc
                  · intro he
                    obtain ⟨_, k2⟩ := i3 _ he
                    omega
              · intro kp hkp
                have hkp' : b.kwargs = some kp := hkp
                rw [hkwnone] at hkp'
                cases hkp'
              · intro i hi
                have hi' : i < b.params.length + 1 := by simpa using hi
                show ((b.params ++ [(name, val)]).getD i
                  ("", ParameterKind.Required)).2.isKWargs = true ↔ b.kwargs = some i
                rw [hkwnone]
                by_cases hiN : i < b.params.length
                · rw [hkOld i hiN]
                  have := i6 i hiN
                  rw [hkwnone] at this
                  exact this
                · have hieq : i = b.params.length := by omega
                  subst hieq
                  rw [hkNew, hvK]
                  simp
              · intro i hi
                have hi' : i < b.positional := hi
                show ((b.params ++ [(name, val)]).getD i
                  ("", ParameterKind.Required)).2.isRegular = true
                rw [hkOld i (by omega)]
                exact i7 i hi'
              · intro hc
                exact CurrentParameterStyle.noConfusion hc
              · intro hc
                exact CurrentParameterStyle.noConfusion hc
            · -- PosOrNamed: positional increments
              have hPON : b.current_style = .PosOrNamed := by
                cases hc : b.current_style
                · exact absurd hc hPos
                · rfl
                · exact absurd hc hNamed
                · rw [hc] at hstyle
                  simp [CurrentParameterStyle.styleRank] at hstyle
              obtain ⟨e1, e2, e3⟩ := i12 hPON
              rw [hPON, e2] at h
              simp at h
              subst h
              refine ⟨by simp only []; omega, by simp, ?_, ?_, ?_, ?_, ?_,
                hsound', hcomp', hnodup', ?_, ?_⟩
              · intro a ha
                exact Option.noConfusion ha
              · intro i hi
                have hi' : i < b.params.length + 1 := by simpa using hi
                show ((b.params ++ [(name, val)]).getD i
                  ("", ParameterKind.Required)).2.isArgs = true ↔ (none : Option Nat) = some i
                by_cases hiN : i < b.params.length
                · rw [hkOld i hiN]
                  have := i4 i hiN
                  rw [e2] at this
                  exact this
                · have hieq : i = b.params.length := by omega
                  subst hieq
                  rw [hkNew, hvA]
                  simp
              · intro kp hkp
                have hkp' : b.kwargs = some kp := hkp
                rw [hkwnone] at hkp'
                cases hkp'
              · intro i hi
                have hi' : i < b.params.length + 1 := by simpa using hi
                show ((b.params ++ [(name, val)]).getD i
                  ("", ParameterKind.Required)).2.isKWargs = true ↔ b.kwargs = some i
                rw [hkwnone]
                by_cases hiN : i < b.params.length
                · rw [hkOld i hiN]
                  have := i6 i hiN
                  rw [hkwnone] at this
                  exact this
                · have hieq : i = b.params.length := by omega
                  subst hieq
                  rw [hkNew, hvK]
                  simp
              · intro i hi
                have hi' : i < b.params.length + 1 := hi
                show ((b.params ++ [(name, val)]).getD i
                  ("", ParameterKind.Required)).2.isRegular = true
                by_cases hiN : i < b.params.length
                · rw [hkOld i hiN]
                  exact i7 i (by omega)
                · have hieq : i = b.params.length := by omega
                  subst hieq
                  rw [hkNew]
                  exact hvR
              · intro hc
                exact CurrentParameterStyle.noConfusion hc
              · intro _
                exact ⟨by simp, rfl, e3⟩
    · rw [if_neg hstyle] at h
      cases h

theorem binv_applyOp (b b' : ParametersSpecBuilder) (op : BuilderOp) (hb : BInv b)
    (h : applyOp b op = some b') : BInv b' := by
  cases op with
  | required name => exact binv_add b name .Required b' hb h
  | optional name => exact binv_add b name .Optional b' hb h
  | defaulted name v => exact binv_add b name (.Defaulted v) b' hb h
  | args => exact binv_args b b' hb h
  | noMorePositionalOnlyArgs => exact binv_nmpo b b' hb h
  | noMorePositionalArgs => exact binv_nmpa b b' hb h
  | kwargs => exact binv_kwargs b b' hb h

theorem binv_runOps (ops : List BuilderOp) : ∀ b b', BInv b →
    runOps b ops = some b' → BInv b' := by
  induction ops with
  | nil =>
    intro b b' hb h
    exact (Option.some.inj h) ▸ hb
  | cons op rest ih =>
    intro b b' hb h
    simp only [runOps] at h
    cases hap : applyOp b op with
    | none => rw [hap] at h; cases h
    | some b1 =>
      rw [hap] at h
      exact ih b1 b' (binv_applyOp b b1 op hb hap) h

theorem finish_wf (b : ParametersSpecBuilder) (s : ParametersSpec) (hb : BInv b)
    (h : builderFinish b = some s) : WellFormed s := by
  obtain ⟨i1, i2, i3, i4, i5, i6, i7, i8, i9, i10, i11, i12⟩ := hb
  unfold builderFinish at h
  rw [if_pos i1] at h
  simp only [Option.some.injEq] at h
  subst h
  refine ⟨by simp, i1, ?_, ?_, ?_, ?_, ?_, ?_, ?_, ?_, i10⟩
  · show b.positional ≤ (b.params.map Prod.snd).length
    simpa using i2
  · intro i hi
    have hi' : i < b.params.length := by
      simpa [ParametersSpec.len] using hi
    show ((b.params.map Prod.snd).getD i ParameterKind.Required).isArgs = true ↔
      b.args = some i
    rw [getD_map_snd b.params i hi']
    exact i4 i hi'
  · intro a ha
    obtain ⟨k1, k2⟩ := i3 a ha
    exact ⟨k1.symm, by simpa [ParametersSpec.len] using k2⟩
  · intro i hi
    have hi' : i < b.params.length := by
      simpa [ParametersSpec.len] using hi
    show ((b.params.map Prod.snd).getD i ParameterKind.Required).isKWargs = true ↔
      b.kwargs = some i
    rw [getD_map_snd b.params i hi']
    exact i6 i hi'
  · intro kp hkp
    have := i5 kp hkp
    simp [ParametersSpec.len]
    omega
  · intro i hi
    have hi' : i < b.positional := hi
    show ((b.params.map Prod.snd).getD i ParameterKind.Required).isRegular = true
    rw [getD_map_snd b.params i (by omega)]
    exact i7 i hi'
  · intro p hp
    obtain ⟨k1, k2, k3, k4⟩ := i8 p hp
    refine ⟨by simpa [ParametersSpec.len] using k1, ?_, k3, ?_⟩
    · show (b.params.map Prod.fst).getD p.2 "" = p.1
      rw [getD_map_fst b.params p.2 k1]
      exact k2
    · show ((b.params.map Prod.snd).getD p.2 ParameterKind.Required).isRegular = true
      rw [getD_map_snd b.params p.2 k1]
      exact k4
  · intro i hle hi hreg
    have hi' : i < b.params.length := by
      simpa [ParametersSpec.len] using hi
    have hreg' : ((b.params.map Prod.snd).getD i ParameterKind.Required).isRegular
        = true := hreg
    rw [getD_map_snd b.params i hi'] at hreg'
    show assocLookup b.names ((b.params.map Prod.fst).getD i "") = some i
    rw [getD_map_fst b.params i hi']
    exact i9 i hle hi' hreg'

theorem isArgs_eq_args (k : ParameterKind) (h : k.isArgs = true) :
    k = ParameterKind.Args := by
  cases k <;> first | rfl | exact Bool.noConfusion h

theorem isKWargs_eq_kwargs (k : ParameterKind) (h : k.isKWargs = true) :
    k = ParameterKind.KWargs := by
  cases k <;> first | rfl | exact Bool.noConfusion h

/-- C7: every signature a builder run ending in `finish` produces satisfies
the structural invariants: `num_positional_only ≤ num_positional ≤ N`
together with the rest of `WellFormed` (the name map holds exactly the
name-addressable parameters, each mapped to its own index), the `Args`
sink, if present, sits at index `num_positional` with kind `Args`, and the
`KWargs` sink, if present, sits at index `N - 1` with kind `KWargs`. -/
theorem claim_C7 (fn : String) (ops : List BuilderOp) (s : ParametersSpec)
    (h : buildSpec fn ops = some s) :
    WellFormed s ∧
    (∀ a, s.args_index = some a →
      a = s.num_positional ∧ kindAt s a = ParameterKind.Args) ∧
    (∀ k, s.kwargs_index = some k →
      k + 1 = s.len ∧ kindAt s k = ParameterKind.KWargs) := by
  have hwf : WellFormed s := by
    unfold buildSpec at h
    cases hr : runOps (newBuilder fn) ops with
    | none => rw [hr] at h; cases h
    | some b =>
      rw [hr] at h
      exact finish_wf b s (binv_runOps ops (newBuilder fn) b (binv_new fn) hr) h
  obtain ⟨w1, w2, w3, w4, w5, w6, w7, w8, w9, w10, w11⟩ := hwf
  refine ⟨⟨w1, w2, w3, w4, w5, w6, w7, w8, w9, w10, w11⟩, ?_, ?_⟩
  · intro a ha
    obtain ⟨k1, k2⟩ := w5 a ha
    exact ⟨k1, isArgs_eq_args _ ((w4 a k2).mpr ha)⟩
  · intro k hk
    have hlen := w7 k hk
    have hlt : k < s.len := by omega
    exact ⟨hlen, isKWargs_eq_kwargs _ ((w6 k hlt).mpr hk)⟩

/-- Witness for C7 at the concrete builder history of
`f(a, b=10, *args, c, **kwargs)`. -/
theorem claim_C7_witness :
    WellFormed exSpecF ∧
    (∀ a, exSpecF.args_index = some a →
      a = exSpecF.num_positional ∧ kindAt exSpecF a = ParameterKind.Args) ∧
    (∀ k, exSpecF.kwargs_index = some k →
      k + 1 = exSpecF.len ∧ kindAt exSpecF k = ParameterKind.KWargs) :=
  claim_C7 "f" exOpsF exSpecF rfl

theorem leftEmpty_cases (k : ParameterKind) (h : k.leftEmpty = true) :
    k = ParameterKind.Optional ∨ k = ParameterKind.Args ∨ k = ParameterKind.KWargs := by
  cases k with
  | Required => exact Bool.noConfusion h
  | Optional => exact Or.inl rfl
  | Defaulted v => exact Bool.noConfusion h
  | Args => exact Or.inr (Or.inl rfl)
  | KWargs => exact Or.inr (Or.inr rfl)

theorem sink_indices_ne (spec : ParametersSpec) (hwf : WellFormed spec) (a : Nat)
    (ha : spec.args_index = some a) : spec.kwargs_index ≠ some a := by
  obtain ⟨w1, w2, w3, w4, w5, w6, w7, w8, w9, w10, w11⟩ := hwf
  intro hk
  have h1 := (w4 a (w5 a ha).2).mpr ha
  have h2 := (w6 a (w5 a ha).2).mpr hk
  rw [isArgs_eq_args _ h1] at h2
  exact Bool.noConfusion h2

/-- C1: on a well-formed signature with `N` parameters, whenever the slow
binding path succeeds starting from empty slots, a slot `i < N` of the
output is empty exactly when its parameter is `Optional` and the call
supplied no value for it; the `Args` sink slot, if any, holds a tuple and
the `KWargs` sink slot, if any, holds a mapping. -/
theorem claim_C1 (spec : ParametersSpec) (args : Arguments)
    (slots out : List (Option StarValue))
    (hwf : WellFormed spec)
    (hsl : spec.len ≤ slots.length)
    (hempty : ∀ j, slots.getD j none = none)
    (hok : collectSlow spec args slots = .ok out) :
    (∀ i, i < spec.len →
      (out.getD i none = none ↔
        kindAt spec i = ParameterKind.Optional ∧ ¬ SuppliedIdx spec args i)) ∧
    (∀ a, spec.args_index = some a →
      ∃ xs, out.getD a none = some (StarValue.tuple xs)) ∧
    (∀ k, spec.kwargs_index = some k →
      ∃ es, out.getD k none = some (StarValue.dict es)) := by
  have hwfC := hwf
  obtain ⟨w1, w2, w3, w4, w5, w6, w7, w8, w9, w10, w11⟩ := hwfC
  obtain ⟨s, n, st, kw, s4, hbp, hdef, hfin⟩ :=
    collectSlow_ok_elim spec args slots out hok
  obtain ⟨s0, kw0, hpre, hkwcase⟩ := bindPhases_ok_elim spec args slots s n st kw hbp
  obtain ⟨s1, n1, st1, s2, low, hp, hnl, hsplit, hlow⟩ :=
    bindPhasesPreKw_ok_elim spec args slots s0 n st kw0 hpre
  have hn1 : n1 = min args.pos.length spec.num_positional := by
    have h := posPhase_next spec args.pos slots
    rw [hp] at h
    exact h
  have hs1len : s1.length = slots.length := by
    have h := posPhase_length spec args.pos slots
    rw [hp] at h
    exact h
  have hs2len : s2.length = slots.length := by
    have h := namedLoop_length spec (args.names.zip args.named) s1 none none
    rw [hnl] at h
    have h' : s2.length = s1.length := h
    omega
  have hn1le : n1 ≤ spec.num_positional := by omega
  have hbranch :
      n = posSuppliedCount spec args ∧
      s0.length = slots.length ∧
      (∀ j, j < n → (s0.getD j none).isSome = true) ∧
      (∀ j, (s2.getD j none).isSome = true → (s0.getD j none).isSome = true) ∧
      (∀ j, n ≤ j → j ∉ resolvedTargets spec (args.names.zip args.named) →
        s0.getD j none = slots.getD j none) := by
    have hs1some : ∀ j, j < n1 → (s1.getD j none).isSome = true := by
      intro j hj
      have hgd := posPhase_getD_lt spec args.pos slots j (by omega) (by omega)
      rw [hp] at hgd
      have hgd' : s1.getD j none = args.pos[j]? := hgd
      rw [hgd', List.getElem?_eq_getElem (show j < args.pos.length by omega)]
      rfl
    have hs2some : ∀ j, j < n1 → (s2.getD j none).isSome = true := by
      intro j hj
      have h2 := namedLoop_getD_isSome_mono spec (args.names.zip args.named) j
        s1 none none (hs1some j hj)
      rw [hnl] at h2
      exact h2
    have hout21 : ∀ j, j ∉ resolvedTargets spec (args.names.zip args.named) →
        s2.getD j none = s1.getD j none := by
      intro j hjn
      have h2 := namedLoop_getD_notMem spec (args.names.zip args.named) j
        s1 none none hjn
      rw [hnl] at h2
      exact h2
    have hout1slots : ∀ j, n1 ≤ j → s1.getD j none = slots.getD j none := by
      intro j hj
      have h1 := posPhase_getD_ge spec args.pos slots j (by omega)
      rw [hp] at h1
      exact h1
    rcases hsplit with ⟨hargsN, hs0, hnn, hstst⟩ | ⟨v, xs, hargsS, hiter, hf⟩
    · have hsp0 : splatElemsLen args = 0 := by
        unfold splatElemsLen
        rw [hargsN]
      have hpsc : n = posSuppliedCount spec args := by
        unfold posSuppliedCount
        rw [hsp0]
        omega
      refine ⟨hpsc, by rw [hs0]; exact hs2len, ?_, ?_, ?_⟩
      · intro j hj
        rw [hs0]
        exact hs2some j (by omega)
      · intro j h
        rw [hs0]
        exact h
      · intro j hj hjn
        rw [hs0, hout21 j hjn, hout1slots j (by omega)]
    · rw [fillPos_eq spec xs s2 n1 st1 hn1le] at hf
      simp only [Prod.mk.injEq] at hf
      obtain ⟨hfs, hfn, hfst⟩ := hf
      have hsplatlen : splatElemsLen args = xs.length := by
        unfold splatElemsLen
        rw [hargsS]
        simp only []
        rw [hiter]
        rfl
      have htklen : (xs.take (spec.num_positional - n1)).length =
          min xs.length (spec.num_positional - n1) := by
        rw [List.length_take, Nat.min_comm]
      refine ⟨?_, ?_, ?_, ?_, ?_⟩
      · unfold posSuppliedCount
        rw [hsplatlen]
        omega
      · rw [← hfs, writeSeq_length]
        exact hs2len
      · intro j hj
        rw [← hfs]
        by_cases hjn1 : j < n1
        · exact writeSeq_isSome_mono _ j s2 n1 (hs2some j hjn1)
        · rw [writeSeq_getD_in _ s2 n1 j (by omega) (by rw [htklen]; omega)
            (by omega)]
          rw [List.getElem?_eq_getElem (show j - n1 < (xs.take
            (spec.num_positional - n1)).length by rw [htklen]; omega)]
          rfl
      · intro j h
        rw [← hfs]
        exact writeSeq_isSome_mono _ j s2 n1 h
      · intro j hj hjn
        rw [← hfs]
        rw [writeSeq_getD_out _ s2 n1 j (Or.inr (by rw [htklen]; omega))]
        rw [hout21 j hjn, hout1slots j (by omega)]
  obtain ⟨hneq, hs0len, hfill, hs0mono, hs0out⟩ := hbranch
  have hkwb :
      s.length = slots.length ∧
      (∀ j, (s0.getD j none).isSome = true → (s.getD j none).isSome = true) ∧
      (∀ j, j < spec.len → ∀ e ∈ kwSplatEntries args, ∀ str, e.1.asStr = some str →
        spec.lookupName str = some j → (s.getD j none).isSome = true) ∧
      (∀ j, (∀ e ∈ kwSplatEntries args, ∀ str i', e.1.asStr = some str →
        spec.lookupName str = some i' → i' ≠ j) → s.getD j none = s0.getD j none) := by
    rcases hkwcase with ⟨hkwN, hss, hkwkw⟩ | ⟨v, es, hkwS, hdict, hloop⟩
    · refine ⟨by rw [hss]; exact hs0len, ?_, ?_, ?_⟩
      · intro j h
        rw [hss]
        exact h
      · intro j hj e he str hstr hl
        exfalso
        have hke : kwSplatEntries args = [] := by
          unfold kwSplatEntries
          rw [hkwN]
        rw [hke] at he
        simp at he
      · intro j _
        rw [hss]
    · have hes : kwSplatEntries args = es := by
        unfold kwSplatEntries
        rw [hkwS]
        simp only []
        rw [hdict]
        rfl
      refine ⟨?_, ?_, ?_, ?_⟩
      · rw [kwLoop_length spec es s0 kw0 s kw hloop]
        exact hs0len
      · intro j h
        exact kwLoop_mono_slots spec es j s0 kw0 s kw hloop h
      · intro j hj e he str hstr hl
        rw [hes] at he
        exact kwLoop_ok_target_some spec es j s0 kw0 s kw hloop e he str hstr hl
          (by omega)
      · intro j hcond
        refine kwLoop_getD_out spec es j s0 kw0 s kw hloop ?_
        intro e he str i' h1 h2
        exact hcond e (by rw [hes]; exact he) str i' h1 h2
  obtain ⟨hslen, hsmono, hkwtarget, hsout⟩ := hkwb
  have hs4len : s4.length = s.length := defLoop_length spec _ s s4 hdef
  have houtlen : out.length = s4.length := finalize_length spec s4 st kw out hfin
  have hnlen : n ≤ spec.num_positional := by
    rw [hneq]
    unfold posSuppliedCount
    omega
  refine ⟨?_, ?_, ?_⟩
  · intro i hi
    constructor
    · intro hnone
      have hia : spec.args_index ≠ some i := by
        intro ha
        have hsa := finalize_args_slot spec s4 st kw out i hfin ha
          (sink_indices_ne spec hwf i ha) (by omega)
        rw [hnone] at hsa
        cases hsa
      have hik : spec.kwargs_index ≠ some i := by
        intro hk
        have hsk := finalize_kwargs_slot spec s4 st kw out i hfin hk (by omega)
        rw [hnone] at hsk
        cases hsk
      have houti : out.getD i none = s4.getD i none :=
        finalize_getD_out spec s4 st kw out i hfin hia hik
      have hs4none : s4.getD i none = none := by
        rw [← houti]
        exact hnone
      have hge : n ≤ i := by
        by_contra hlt
        push_neg at hlt
        have h0 := hfill i hlt
        have h1 := hsmono i h0
        have h2 := defLoop_mono spec _ i s s4 hdef h1
        rw [hs4none] at h2
        cases h2
      have hmem : i ∈ List.range' n (spec.len - n) := by
        rw [List.mem_range'_1]
        omega
      have hle := defLoop_ok_leftEmpty spec _ s s4 hdef
        (fun t ht => by rw [List.mem_range'_1] at ht; omega) i hmem hs4none
      rcases leftEmpty_cases _ hle with hopt | hargsk | hkwargsk
      · refine ⟨hopt, ?_⟩
        intro hsup
        rcases hsup with hlt | ⟨p, hpmem, hpl⟩ | ⟨e, hemem, str, hstr, hsl'⟩
        · omega
        · have hres : i ∈ resolvedTargets spec (args.names.zip args.named) := by
            unfold resolvedTargets
            exact List.mem_filterMap.mpr ⟨p, hpmem, hpl⟩
          have h2 := namedLoop_getD_mem spec (args.names.zip args.named) i
            s1 none none hres (by omega)
          rw [hnl] at h2
          have h2' : (s2.getD i none).isSome = true := h2
          have h5 := defLoop_mono spec _ i s s4 hdef (hsmono i (hs0mono i h2'))
          rw [hs4none] at h5
          cases h5
        · have h4 := hkwtarget i hi e hemem str hstr hsl'
          have h5 := defLoop_mono spec _ i s s4 hdef h4
          rw [hs4none] at h5
          cases h5
      · exact absurd ((w4 i hi).mp (by rw [hargsk]; rfl)) hia
      · exact absurd ((w6 i hi).mp (by rw [hkwargsk]; rfl)) hik
    · rintro ⟨hopt, hnsup⟩
      have hia : spec.args_index ≠ some i := by
        intro ha
        have h1 := (w4 i hi).mpr ha
        rw [hopt] at h1
        exact Bool.noConfusion h1
      have hik : spec.kwargs_index ≠ some i := by
        intro hk
        have h1 := (w6 i hi).mpr hk
        rw [hopt] at h1
        exact Bool.noConfusion h1
      have hnd : ∀ x, kindAt spec i ≠ ParameterKind.Defaulted x := by
        intro x h
        rw [hopt] at h
        exact ParameterKind.noConfusion h
      have hkwcond : ∀ e ∈ kwSplatEntries args, ∀ str i',
          e.1.asStr = some str → spec.lookupName str = some i' → i' ≠ i := by
        intro e he str i' h1 h2 heq
        subst heq
        exact hnsup (Or.inr (Or.inr ⟨e, he, str, h1, h2⟩))
      have hgei : n ≤ i := by
        have hnp : ¬ i < posSuppliedCount spec args := fun h => hnsup (Or.inl h)
        omega
      have hnres : i ∉ resolvedTargets spec (args.names.zip args.named) := by
        intro hres
        unfold resolvedTargets at hres
        obtain ⟨p, hpmem, hpl⟩ := List.mem_filterMap.mp hres
        exact hnsup (Or.inr (Or.inl ⟨p, hpmem, hpl⟩))
      rw [finalize_getD_out spec s4 st kw out i hfin hia hik]
      rw [defLoop_not_defaulted spec (List.range' n (spec.len - n)) i hnd s s4 hdef]
      rw [hsout i hkwcond]
      rw [hs0out i hgei hnres]
      exact hempty i
  · intro a ha
    have halen : a < s4.length := by
      have h := (w5 a ha).2
      omega
    exact ⟨st, finalize_args_slot spec s4 st kw out a hfin ha
      (sink_indices_ne spec hwf a ha) halen⟩
  · intro k hk
    have hklen : k < s4.length := by
      have h := w7 k hk
      omega
    obtain ⟨es, hes⟩ := lazyAlloc_dict kw
    exact ⟨es, by rw [finalize_kwargs_slot spec s4 st kw out k hfin hk hklen, hes]⟩

/-- Witness for C1 at the spec's scenario 1, `f(1, 2, 3, 4, c=5, d=6)`. -/
theorem claim_C1_witness :
    (∀ i, i < exSpecF.len →
      (([some (StarValue.int 1), some (StarValue.int 2),
         some (StarValue.tuple [StarValue.int 3, StarValue.int 4]),
         some (StarValue.int 5),
         some (StarValue.dict [(StarValue.str "d", StarValue.int 6)])] :
           List (Option StarValue)).getD i none = none ↔
        kindAt exSpecF i = ParameterKind.Optional ∧
          ¬ SuppliedIdx exSpecF exArgsS1 i)) ∧
    (∀ a, exSpecF.args_index = some a →
      ∃ xs, ([some (StarValue.int 1), some (StarValue.int 2),
         some (StarValue.tuple [StarValue.int 3, StarValue.int 4]),
         some (StarValue.int 5),
         some (StarValue.dict [(StarValue.str "d", StarValue.int 6)])] :
           List (Option StarValue)).getD a none = some (StarValue.tuple xs)) ∧
    (∀ k, exSpecF.kwargs_index = some k →
      ∃ es, ([some (StarValue.int 1), some (StarValue.int 2),
         some (StarValue.tuple [StarValue.int 3, StarValue.int 4]),
         some (StarValue.int 5),
         some (StarValue.dict [(StarValue.str "d", StarValue.int 6)])] :
           List (Option StarValue)).getD k none = some (StarValue.dict es)) :=
  claim_C1 exSpecF exArgsS1 (List.replicate 5 none) _ (by decide) (by decide)
    (by intro j; rcases j with _ | _ | _ | _ | _ | j <;> rfl) rfl

theorem eqBelow_set (N i : Nat) (v : Option StarValue)
    (l l' : List (Option StarValue)) (hl : N ≤ l.length) (hl' : N ≤ l'.length)
    (hi : i < N) (h : EqBelow N l l') : EqBelow N (l.set i v) (l'.set i v) := by
  intro j hj
  by_cases hij : i = j
  · subst hij
    rw [getD_set_self l i v none (by omega), getD_set_self l' i v none (by omega)]
  · rw [getD_set_of_ne l i j v none hij, getD_set_of_ne l' i j v none hij]
    exact h j hj

theorem lookupName_lt_len (spec : ParametersSpec) (hwf : WellFormed spec)
    (nm : String) (i : Nat) (h : spec.lookupName nm = some i) : i < spec.len := by
  obtain ⟨-, -, -, -, -, -, -, -, w9, -, -⟩ := hwf
  exact (w9 (nm, i) (assocLookup_mem spec.names nm i h)).1

theorem fillPos_length (spec : ParametersSpec) (vs : List StarValue) :
    ∀ (slots : List (Option StarValue)) (next : Nat) (star : List StarValue),
      (fillPos spec vs slots next star).1.length = slots.length := by
  induction vs with
  | nil => intro slots next star; rfl
  | cons v vs ih =>
    intro slots next star
    unfold fillPos
    by_cases hlt : next < spec.num_positional
    · rw [if_pos hlt, ih (slots.set next (some v)) (next + 1) star]
      simp [List.length_set]
    · rw [if_neg hlt]
      exact ih slots next (star ++ [v])

theorem getD_eq_getElem_of_lt (l : List (Option StarValue)) (j : Nat)
    (h : j < l.length) : l.getD j none = l[j] := by
  rw [List.getD_eq_getElem?_getD, List.getElem?_eq_getElem h]
  rfl

theorem posPhase_congr (spec : ParametersSpec) (pos : List StarValue)
    (slots slots' : List (Option StarValue)) (N : Nat)
    (hnum : spec.num_positional ≤ N)
    (hl : N ≤ slots.length) (hl' : N ≤ slots'.length)
    (h : EqBelow N slots slots') :
    EqBelow N (posPhase spec pos slots).1 (posPhase spec pos slots').1 ∧
    (posPhase spec pos slots).2.1 = (posPhase spec pos slots').2.1 ∧
    (posPhase spec pos slots).2.2 = (posPhase spec pos slots').2.2 := by
  refine ⟨?_, ?_, ?_⟩
  · intro j hj
    by_cases hjm : j < min pos.length spec.num_positional
    · rw [posPhase_getD_lt spec pos slots j hjm (by omega),
        posPhase_getD_lt spec pos slots' j hjm (by omega)]
    · push_neg at hjm
      rw [posPhase_getD_ge spec pos slots j hjm,
        posPhase_getD_ge spec pos slots' j hjm]
      exact h j hj
  · rw [posPhase_next, posPhase_next]
  · rw [posPhase_star, posPhase_star]

theorem fillPos_congr (spec : ParametersSpec) (xs : List StarValue)
    (s2 t2 : List (Option StarValue)) (n1 : Nat) (st1 : List StarValue) (N : Nat)
    (hnum : spec.num_positional ≤ N) (hn1 : n1 ≤ spec.num_positional)
    (hl : N ≤ s2.length) (hl' : N ≤ t2.length) (h : EqBelow N s2 t2) :
    EqBelow N (fillPos spec xs s2 n1 st1).1 (fillPos spec xs t2 n1 st1).1 ∧
    (fillPos spec xs s2 n1 st1).2 = (fillPos spec xs t2 n1 st1).2 := by
  rw [fillPos_eq spec xs s2 n1 st1 hn1, fillPos_eq spec xs t2 n1 st1 hn1]
  refine ⟨?_, rfl⟩
  intro j hj
  by_cases hcase : n1 ≤ j ∧ j < n1 + (xs.take (spec.num_positional - n1)).length
  · rw [writeSeq_getD_in _ s2 n1 j hcase.1 hcase.2 (by omega),
      writeSeq_getD_in _ t2 n1 j hcase.1 hcase.2 (by omega)]
  · have hside : j < n1 ∨ n1 + (xs.take (spec.num_positional - n1)).length ≤ j := by
      rcases Nat.lt_or_ge j n1 with hx | hx
      · exact Or.inl hx
      · right
        by_contra hy
        push_neg at hy
        exact hcase ⟨hx, hy⟩
    rw [writeSeq_getD_out _ s2 n1 j hside, writeSeq_getD_out _ t2 n1 j hside]
    exact h j hj

theorem namedLoop_congr (spec : ParametersSpec) (N : Nat) :
    ∀ (pairs : List (String × StarValue)),
      (∀ p ∈ pairs, ∀ i, spec.lookupName p.1 = some i → i < N) →
      ∀ (slots slots' : List (Option StarValue)) (kw : LazyKwargs) (low : Option Nat),
      N ≤ slots.length → N ≤ slots'.length → EqBelow N slots slots' →
      EqBelow N (namedLoop spec pairs slots kw low).1
        (namedLoop spec pairs slots' kw low).1 ∧
      (namedLoop spec pairs slots kw low).2 =
        (namedLoop spec pairs slots' kw low).2 := by
  intro pairs
  induction pairs with
  | nil => intro _ slots slots' kw low _ _ h; exact ⟨h, rfl⟩
  | cons p rest ih =>
    intro htgt slots slots' kw low hl hl' h
    obtain ⟨nm, v⟩ := p
    unfold namedLoop
    cases hlk : spec.lookupName nm with
    | none =>
      exact ih (fun q hq => htgt q (List.mem_cons_of_mem _ hq)) slots slots'
        ((lazyInsert kw nm v).2) low hl hl' h
    | some i =>
      have hiN : i < N := htgt (nm, v) (List.mem_cons_self _ _) i hlk
      exact ih (fun q hq => htgt q (List.mem_cons_of_mem _ hq))
        (slots.set i (some v)) (slots'.set i (some v)) kw (minOpt low i)
        (by rw [List.length_set]; exact hl) (by rw [List.length_set]; exact hl')
        (eqBelow_set N i (some v) slots slots' hl hl' hiN h)

theorem kwLoop_cons_notstr (spec : ParametersSpec) (k v : StarValue)
    (rest : List (StarValue × StarValue)) (slots : List (Option StarValue))
    (kw : LazyKwargs) (hs : k.asStr = none) :
    kwLoop spec ((k, v) :: rest) slots kw = .error .ArgsValueIsNotString := by
  simp [kwLoop, hs]

theorem kwLoop_cons_hit (spec : ParametersSpec) (k v : StarValue)
    (rest : List (StarValue × StarValue)) (slots : List (Option StarValue))
    (kw : LazyKwargs) (str : String) (i : Nat)
    (hs : k.asStr = some str) (hlk : spec.lookupName str = some i)
    (hr : (slots.getD i none).isSome = true) :
    kwLoop spec ((k, v) :: rest) slots kw = .error (.RepeatedArg str) := by
  simp only [kwLoop, hs, hlk]
  rw [if_pos hr]

theorem kwLoop_cons_write (spec : ParametersSpec) (k v : StarValue)
    (rest : List (StarValue × StarValue)) (slots : List (Option StarValue))
    (kw : LazyKwargs) (str : String) (i : Nat)
    (hs : k.asStr = some str) (hlk : spec.lookupName str = some i)
    (hr : ¬ (slots.getD i none).isSome = true) :
    kwLoop spec ((k, v) :: rest) slots kw =
      kwLoop spec rest (slots.set i (some v)) kw := by
  simp only [kwLoop, hs, hlk]
  rw [if_neg hr]

theorem kwLoop_cons_dup (spec : ParametersSpec) (k v : StarValue)
    (rest : List (StarValue × StarValue)) (slots : List (Option StarValue))
    (kw : LazyKwargs) (str : String)
    (hs : k.asStr = some str) (hlk : spec.lookupName str = none)
    (hdup : (lazyInsert kw str v).1 = true) :
    kwLoop spec ((k, v) :: rest) slots kw = .error (.RepeatedArg str) := by
  simp only [kwLoop, hs, hlk]
  rw [if_pos hdup]

theorem kwLoop_cons_ovf (spec : ParametersSpec) (k v : StarValue)
    (rest : List (StarValue × StarValue)) (slots : List (Option StarValue))
    (kw : LazyKwargs) (str : String)
    (hs : k.asStr = some str) (hlk : spec.lookupName str = none)
    (hdup : ¬ (lazyInsert kw str v).1 = true) :
    kwLoop spec ((k, v) :: rest) slots kw =
      kwLoop spec rest slots (lazyInsert kw str v).2 := by
  simp only [kwLoop, hs, hlk]
  rw [if_neg hdup]

theorem kwLoop_congr (spec : ParametersSpec) (N : Nat) :
    ∀ (es : List (StarValue × StarValue)),
      (∀ e ∈ es, ∀ str i, e.1.asStr = some str →
        spec.lookupName str = some i → i < N) →
      ∀ (slots slots' : List (Option StarValue)) (kw : LazyKwargs),
      N ≤ slots.length → N ≤ slots'.length → EqBelow N slots slots' →
      (∃ e, kwLoop spec es slots kw = .error e ∧
        kwLoop spec es slots' kw = .error e) ∨
      (∃ z z' kw1, kwLoop spec es slots kw = .ok (z, kw1) ∧
        kwLoop spec es slots' kw = .ok (z', kw1) ∧
        N ≤ z.length ∧ N ≤ z'.length ∧ EqBelow N z z') := by
  intro es
  induction es with
  | nil =>
    intro _ slots slots' kw hl hl' h
    exact Or.inr ⟨slots, slots', kw, rfl, rfl, hl, hl', h⟩
  | cons e0 rest ih =>
    intro htgt slots slots' kw hl hl' h
    obtain ⟨k, v⟩ := e0
    cases hs : k.asStr with
    | none =>
      exact Or.inl ⟨.ArgsValueIsNotString,
        kwLoop_cons_notstr spec k v rest slots kw hs,
        kwLoop_cons_notstr spec k v rest slots' kw hs⟩
    | some str =>
      cases hlk : spec.lookupName str with
      | some i =>
        have hiN : i < N := htgt (k, v) (List.mem_cons_self _ _) str i hs hlk
        have hrep : (slots.getD i none).isSome = (slots'.getD i none).isSome := by
          rw [h i hiN]
        by_cases hr : (slots.getD i none).isSome = true
        · exact Or.inl ⟨.RepeatedArg str,
            kwLoop_cons_hit spec k v rest slots kw str i hs hlk hr,
            kwLoop_cons_hit spec k v rest slots' kw str i hs hlk
              (by rw [← hrep]; exact hr)⟩
        · have hr' : ¬ (slots'.getD i none).isSome = true := by
            rw [← hrep]; exact hr
          have hrec := ih (fun q hq => htgt q (List.mem_cons_of_mem _ hq))
            (slots.set i (some v)) (slots'.set i (some v)) kw
            (by rw [List.length_set]; exact hl)
            (by rw [List.length_set]; exact hl')
            (eqBelow_set N i (some v) slots slots' hl hl' hiN h)
          rw [kwLoop_cons_write spec k v rest slots kw str i hs hlk hr,
            kwLoop_cons_write spec k v rest slots' kw str i hs hlk hr']
          exact hrec
      | none =>
        by_cases hdup : (lazyInsert kw str v).1 = true
        · exact Or.inl ⟨.RepeatedArg str,
            kwLoop_cons_dup spec k v rest slots kw str hs hlk hdup,
            kwLoop_cons_dup spec k v rest slots' kw str hs hlk hdup⟩
        · rw [kwLoop_cons_ovf spec k v rest slots kw str hs hlk hdup,
            kwLoop_cons_ovf spec k v rest slots' kw str hs hlk hdup]
          exact ih (fun q hq => htgt q (List.mem_cons_of_mem _ hq))
            slots slots' (lazyInsert kw str v).2 hl hl' h

theorem defLoop_cons_filled (spec : ParametersSpec) (i : Nat) (rest : List Nat)
    (slots : List (Option StarValue)) (w : StarValue)
    (hslot : slots.getD i none = some w) :
    defLoop spec (i :: rest) slots = defLoop spec rest slots := by
  simp only [defLoop, hslot]

theorem defLoop_cons_required (spec : ParametersSpec) (i : Nat) (rest : List Nat)
    (slots : List (Option StarValue))
    (hslot : slots.getD i none = none) (hk : kindAt spec i = .Required) :
    defLoop spec (i :: rest) slots =
      .error (.MissingParameter (nameAt spec i) spec.function_name) := by
  simp only [defLoop, hslot, hk]

theorem defLoop_cons_defaulted (spec : ParametersSpec) (i : Nat) (rest : List Nat)
    (slots : List (Option StarValue)) (x : StarValue)
    (hslot : slots.getD i none = none) (hk : kindAt spec i = .Defaulted x) :
    defLoop spec (i :: rest) slots = defLoop spec rest (slots.set i (some x)) := by
  simp only [defLoop, hslot, hk]

theorem defLoop_cons_optional (spec : ParametersSpec) (i : Nat) (rest : List Nat)
    (slots : List (Option StarValue))
    (hslot : slots.getD i none = none) (hk : kindAt spec i = .Optional) :
    defLoop spec (i :: rest) slots = defLoop spec rest slots := by
  simp only [defLoop, hslot, hk]

theorem defLoop_cons_args (spec : ParametersSpec) (i : Nat) (rest : List Nat)
    (slots : List (Option StarValue))
    (hslot : slots.getD i none = none) (hk : kindAt spec i = .Args) :
    defLoop spec (i :: rest) slots = defLoop spec rest slots := by
  simp only [defLoop, hslot, hk]

theorem defLoop_cons_kwargs (spec : ParametersSpec) (i : Nat) (rest : List Nat)
    (slots : List (Option StarValue))
    (hslot : slots.getD i none = none) (hk : kindAt spec i = .KWargs) :
    defLoop spec (i :: rest) slots = defLoop spec rest slots := by
  simp only [defLoop, hslot, hk]

theorem defLoop_congr (spec : ParametersSpec) (N : Nat) :
    ∀ (is' : List Nat), (∀ t ∈ is', t < N) →
    ∀ (slots slots' : List (Option StarValue)),
      N ≤ slots.length → N ≤ slots'.length → EqBelow N slots slots' →
      (∃ e, defLoop spec is' slots = .error e ∧ defLoop spec is' slots' = .error e) ∨
      (∃ s4 s4', defLoop spec is' slots = .ok s4 ∧ defLoop spec is' slots' = .ok s4' ∧
        N ≤ s4.length ∧ N ≤ s4'.length ∧ EqBelow N s4 s4') := by
  intro is'
  induction is' with
  | nil =>
    intro _ slots slots' hl hl' h
    exact Or.inr ⟨slots, slots', rfl, rfl, hl, hl', h⟩
  | cons i rest ih =>
    intro hidx slots slots' hl hl' h
    have hiN : i < N := hidx i (List.mem_cons_self _ _)
    have hrest : ∀ t ∈ rest, t < N := fun t ht => hidx t (List.mem_cons_of_mem _ ht)
    cases hslot : slots.getD i none with
    | some w =>
      have hslot' : slots'.getD i none = some w := by
        rw [← h i hiN]; exact hslot
      rw [defLoop_cons_filled spec i rest slots w hslot,
        defLoop_cons_filled spec i rest slots' w hslot']
      exact ih hrest slots slots' hl hl' h
    | none =>
      have hslot' : slots'.getD i none = none := by
        rw [← h i hiN]; exact hslot
      cases hkd : kindAt spec i with
      | Required =>
        rw [defLoop_cons_required spec i rest slots hslot hkd,
          defLoop_cons_required spec i rest slots' hslot' hkd]
        exact Or.inl ⟨_, rfl, rfl⟩
      | Defaulted x =>
        rw [defLoop_cons_defaulted spec i rest slots x hslot hkd,
          defLoop_cons_defaulted spec i rest slots' x hslot' hkd]
        exact ih hrest (slots.set i (some x)) (slots'.set i (some x))
          (by rw [List.length_set]; exact hl) (by rw [List.length_set]; exact hl')
          (eqBelow_set N i (some x) slots slots' hl hl' hiN h)
      | Optional =>
        rw [defLoop_cons_optional spec i rest slots hslot hkd,
          defLoop_cons_optional spec i rest slots' hslot' hkd]
        exact ih hrest slots slots' hl hl' h
      | Args =>
        rw [defLoop_cons_args spec i rest slots hslot hkd,
          defLoop_cons_args spec i rest slots' hslot' hkd]
        exact ih hrest slots slots' hl hl' h
      | KWargs =>
        rw [defLoop_cons_kwargs spec i rest slots hslot hkd,
          defLoop_cons_kwargs spec i rest slots' hslot' hkd]
        exact ih hrest slots slots' hl hl' h

theorem finalize_congr (spec : ParametersSpec) (star : List StarValue)
    (kw : LazyKwargs) (N : Nat)
    (ha : ∀ a, spec.args_index = some a → a < N)
    (hk : ∀ k, spec.kwargs_index = some k → k < N)
    (slots slots' : List (Option StarValue))
    (hl : N ≤ slots.length) (hl' : N ≤ slots'.length) (h : EqBelow N slots slots') :
    (∃ e, finalizeSinks spec slots star kw = .error e ∧
      finalizeSinks spec slots' star kw = .error e) ∨
    (∃ out out', finalizeSinks spec slots star kw = .ok out ∧
      finalizeSinks spec slots' star kw = .ok out' ∧
      N ≤ out.length ∧ N ≤ out'.length ∧ EqBelow N out out') := by
  unfold finalizeSinks
  cases hai : spec.args_index with
  | some a =>
    simp only []
    have haN : a < N := ha a hai
    cases hki : spec.kwargs_index with
    | some kp =>
      have hkN : kp < N := hk kp hki
      refine Or.inr ⟨_, _, rfl, rfl, ?_, ?_, ?_⟩
      · simp only [List.length_set]; omega
      · simp only [List.length_set]; omega
      · exact eqBelow_set N kp (some (lazyAlloc kw)) _ _
          (by simp only [List.length_set]; omega)
          (by simp only [List.length_set]; omega) hkN
          (eqBelow_set N a (some (.tuple star)) slots slots' hl hl' haN h)
    | none =>
      cases hkw : kw with
      | some mp => exact Or.inl ⟨_, rfl, rfl⟩
      | none =>
        refine Or.inr ⟨_, _, rfl, rfl, ?_, ?_, ?_⟩
        · simp only [List.length_set]; omega
        · simp only [List.length_set]; omega
        · exact eqBelow_set N a (some (.tuple star)) slots slots' hl hl' haN h
  | none =>
    cases hst : star.isEmpty with
    | false => exact Or.inl ⟨_, rfl, rfl⟩
    | true =>
      simp only [Bool.not_true, if_neg (by simp : ¬ (false = true))]
      cases hki : spec.kwargs_index with
      | some kp =>
        have hkN : kp < N := hk kp hki
        refine Or.inr ⟨_, _, rfl, rfl, ?_, ?_, ?_⟩
        · simp only [List.length_set]; omega
        · simp only [List.length_set]; omega
        · exact eqBelow_set N kp (some (lazyAlloc kw)) slots slots' hl hl' hkN h
      | none =>
        cases hkw : kw with
        | some mp => exact Or.inl ⟨_, rfl, rfl⟩
        | none => exact Or.inr ⟨slots, slots', rfl, rfl, hl, hl', h⟩

theorem bindPhasesPreKw_congr (spec : ParametersSpec) (args : Arguments)
    (hwf : WellFormed spec) (slots slots' : List (Option StarValue))
    (hl : spec.len ≤ slots.length) (hl' : spec.len ≤ slots'.length)
    (h : EqBelow spec.len slots slots') :
    (∃ e, bindPhasesPreKw spec args slots = .error e ∧
      bindPhasesPreKw spec args slots' = .error e) ∨
    (∃ s s' n st kwr, bindPhasesPreKw spec args slots = .ok (s, n, st, kwr) ∧
      bindPhasesPreKw spec args slots' = .ok (s', n, st, kwr) ∧
      spec.len ≤ s.length ∧ spec.len ≤ s'.length ∧ EqBelow spec.len s s') := by
  have hwf2 := hwf
  obtain ⟨-, -, w3, -, -, -, -, -, -, -, -⟩ := hwf2
  have htgt : ∀ p ∈ args.names.zip args.named, ∀ i,
      spec.lookupName p.1 = some i → i < spec.len := by
    intro p _ i hi
    exact lookupName_lt_len spec hwf p.1 i hi
  obtain ⟨⟨s1, n1, st1⟩, hp⟩ : ∃ r, posPhase spec args.pos slots = r := ⟨_, rfl⟩
  obtain ⟨⟨t1, m1, su1⟩, hq⟩ : ∃ r, posPhase spec args.pos slots' = r := ⟨_, rfl⟩
  obtain ⟨hc1, hc2, hc3⟩ :=
    posPhase_congr spec args.pos slots slots' spec.len w3 hl hl' h
  rw [hp, hq] at hc1 hc2 hc3
  have hm1 : n1 = m1 := hc2
  have hsu : st1 = su1 := hc3
  have hE1 : EqBelow spec.len s1 t1 := hc1
  subst hm1
  subst hsu
  have hl1 : spec.len ≤ s1.length := by
    have hx := posPhase_length spec args.pos slots
    rw [hp] at hx
    have hx' : s1.length = slots.length := hx
    omega
  have hl1' : spec.len ≤ t1.length := by
    have hx := posPhase_length spec args.pos slots'
    rw [hq] at hx
    have hx' : t1.length = slots'.length := hx
    omega
  obtain ⟨⟨s2, kw2, low2⟩, hnl⟩ : ∃ r,
    namedLoop spec (args.names.zip args.named) s1 none none = r := ⟨_, rfl⟩
  obtain ⟨⟨t2, kx2, lo2⟩, hnm⟩ : ∃ r,
    namedLoop spec (args.names.zip args.named) t1 none none = r := ⟨_, rfl⟩
  obtain ⟨hd1, hd2⟩ := namedLoop_congr spec spec.len (args.names.zip args.named)
    htgt s1 t1 none none hl1 hl1' hE1
  rw [hnl, hnm] at hd1 hd2
  have hE2 : EqBelow spec.len s2 t2 := hd1
  have hkx : kw2 = kx2 := congrArg Prod.fst hd2
  have hlo : low2 = lo2 := congrArg Prod.snd hd2
  subst hkx
  subst hlo
  have hl2 : spec.len ≤ s2.length := by
    have hx := namedLoop_length spec (args.names.zip args.named) s1 none none
    rw [hnl] at hx
    have hx' : s2.length = s1.length := hx
    omega
  have hl2' : spec.len ≤ t2.length := by
    have hx := namedLoop_length spec (args.names.zip args.named) t1 none none
    rw [hnm] at hx
    have hx' : t2.length = t1.length := hx
    omega
  cases hargs : args.args with
  | none =>
    cases hlow2 : low2 with
    | none =>
      rw [hlow2] at hnl hnm
      exact Or.inr ⟨s2, t2, n1, st1, kw2,
        bindPhasesPreKw_noSplat_noLow spec args slots s1 n1 st1 s2 kw2 hp hnl hargs,
        bindPhasesPreKw_noSplat_noLow spec args slots' t1 n1 st1 t2 kw2 hq hnm hargs,
        hl2, hl2', hE2⟩
    | some l =>
      rw [hlow2] at hnl hnm
      by_cases hlt : l < n1
      · exact Or.inl ⟨.RepeatedArg (nameAt spec l),
          bindPhasesPreKw_noSplat_coll spec args slots s1 n1 st1 s2 kw2 l
            hp hnl hargs hlt,
          bindPhasesPreKw_noSplat_coll spec args slots' t1 n1 st1 t2 kw2 l
            hq hnm hargs hlt⟩
      · exact Or.inr ⟨s2, t2, n1, st1, kw2,
          bindPhasesPreKw_noSplat_ok spec args slots s1 n1 st1 s2 kw2 l
            hp hnl hargs hlt,
          bindPhasesPreKw_noSplat_ok spec args slots' t1 n1 st1 t2 kw2 l
            hq hnm hargs hlt,
          hl2, hl2', hE2⟩
  | some v =>
    cases hit : v.iterate with
    | none =>
      exact Or.inl ⟨.ArgsArrayIsNotIterable,
        bindPhasesPreKw_splat_bad spec args slots v hargs hit,
        bindPhasesPreKw_splat_bad spec args slots' v hargs hit⟩
    | some xs =>
      have hn1le : n1 ≤ spec.num_positional := by
        have hx := posPhase_next spec args.pos slots
        rw [hp] at hx
        have hx' : n1 = min args.pos.length spec.num_positional := hx
        omega
      obtain ⟨⟨s3, n3, st3⟩, hf⟩ : ∃ r, fillPos spec xs s2 n1 st1 = r := ⟨_, rfl⟩
      obtain ⟨⟨u3, o3, sv3⟩, hg⟩ : ∃ r, fillPos spec xs t2 n1 st1 = r := ⟨_, rfl⟩
      obtain ⟨hf1, hf2⟩ := fillPos_congr spec xs s2 t2 n1 st1 spec.len w3 hn1le
        hl2 hl2' hE2
      rw [hf, hg] at hf1 hf2
      have hE3 : EqBelow spec.len s3 u3 := hf1
      have ho3 : n3 = o3 := congrArg Prod.fst hf2
      have hsv : st3 = sv3 := congrArg Prod.snd hf2
      subst ho3
      subst hsv
      have hl3 : spec.len ≤ s3.length := by
        have hx := fillPos_length spec xs s2 n1 st1
        rw [hf] at hx
        have hx' : s3.length = s2.length := hx
        omega
      have hl3' : spec.len ≤ u3.length := by
        have hx := fillPos_length spec xs t2 n1 st1
        rw [hg] at hx
        have hx' : u3.length = t2.length := hx
        omega
      cases hlow2 : low2 with
      | none =>
        rw [hlow2] at hnl hnm
        exact Or.inr ⟨s3, u3, n3, st3, kw2,
          bindPhasesPreKw_splat_noLow spec args slots s1 n1 st1 s2 kw2 v xs
            s3 n3 st3 hp hnl hargs hit hf,
          bindPhasesPreKw_splat_noLow spec args slots' t1 n1 st1 t2 kw2 v xs
            u3 n3 st3 hq hnm hargs hit hg,
          hl3, hl3', hE3⟩
      | some l =>
        rw [hlow2] at hnl hnm
        by_cases hlt : l < n3
        · exact Or.inl ⟨.RepeatedArg (nameAt spec l),
            bindPhasesPreKw_splat_coll spec args slots s1 n1 st1 s2 kw2 v xs
              s3 n3 st3 l hp hnl hargs hit hf hlt,
            bindPhasesPreKw_splat_coll spec args slots' t1 n1 st1 t2 kw2 v xs
              u3 n3 st3 l hq hnm hargs hit hg hlt⟩
        · exact Or.inr ⟨s3, u3, n3, st3, kw2,
            bindPhasesPreKw_splat_ok spec args slots s1 n1 st1 s2 kw2 v xs
              s3 n3 st3 l hp hnl hargs hit hf hlt,
            bindPhasesPreKw_splat_ok spec args slots' t1 n1 st1 t2 kw2 v xs
              u3 n3 st3 l hq hnm hargs hit hg hlt,
            hl3, hl3', hE3⟩

theorem bindPhases_congr (spec : ParametersSpec) (args : Arguments)
    (hwf : WellFormed spec) (slots slots' : List (Option StarValue))
    (hl : spec.len ≤ slots.length) (hl' : spec.len ≤ slots'.length)
    (h : EqBelow spec.len slots slots') :
    (∃ e, bindPhases spec args slots = .error e ∧
      bindPhases spec args slots' = .error e) ∨
    (∃ s s' n st kwr, bindPhases spec args slots = .ok (s, n, st, kwr) ∧
      bindPhases spec args slots' = .ok (s', n, st, kwr) ∧
      spec.len ≤ s.length ∧ spec.len ≤ s'.length ∧ EqBelow spec.len s s') := by
  rcases bindPhasesPreKw_congr spec args hwf slots slots' hl hl' h with
    ⟨e, h1, h2⟩ | ⟨s, s', n, st, kwr, h1, h2, hls, hls', hE⟩
  · exact Or.inl ⟨e, bindPhases_err spec args slots e h1,
      bindPhases_err spec args slots' e h2⟩
  · cases hkw : args.kwargs with
    | none =>
      exact Or.inr ⟨s, s', n, st, kwr,
        bindPhases_noKw spec args slots s n st kwr h1 hkw,
        bindPhases_noKw spec args slots' s' n st kwr h2 hkw,
        hls, hls', hE⟩
    | some v =>
      cases hd : v.dictEntries with
      | none =>
        exact Or.inl ⟨.KwArgsIsNotDict,
          bindPhases_kwNotDict spec args slots s n st kwr v h1 hkw hd,
          bindPhases_kwNotDict spec args slots' s' n st kwr v h2 hkw hd⟩
      | some es =>
        have htgt2 : ∀ e ∈ es, ∀ str i, e.1.asStr = some str →
            spec.lookupName str = some i → i < spec.len := by
          intro e _ str i _ hi
          exact lookupName_lt_len spec hwf str i hi
        rcases kwLoop_congr spec spec.len es htgt2 s s' kwr hls hls' hE with
          ⟨e, k1, k2⟩ | ⟨z, z', kw1, k1, k2, kl, kl', kE⟩
        · exact Or.inl ⟨e,
            bindPhases_kwErr spec args slots s n st kwr v es e h1 hkw hd k1,
            bindPhases_kwErr spec args slots' s' n st kwr v es e h2 hkw hd k2⟩
        · exact Or.inr ⟨z, z', n, st, kw1,
            bindPhases_kwOk spec args slots s n st kwr v es z kw1 h1 hkw hd k1,
            bindPhases_kwOk spec args slots' s' n st kwr v es z' kw1 h2 hkw hd k2,
            kl, kl', kE⟩

theorem collectSlow_congr (spec : ParametersSpec) (args : Arguments)
    (hwf : WellFormed spec) (slots slots' : List (Option StarValue))
    (hl : spec.len ≤ slots.length) (hl' : spec.len ≤ slots'.length)
    (h : EqBelow spec.len slots slots') :
    (∃ e, collectSlow spec args slots = .error e ∧
      collectSlow spec args slots' = .error e) ∨
    (∃ out out', collectSlow spec args slots = .ok out ∧
      collectSlow spec args slots' = .ok out' ∧ EqBelow spec.len out out') := by
  have hwf2 := hwf
  obtain ⟨-, -, -, -, w5, -, w7, -, -, -, -⟩ := hwf2
  rcases bindPhases_congr spec args hwf slots slots' hl hl' h with
    ⟨e, h1, h2⟩ | ⟨s, s', n, st, kwr, h1, h2, hls, hls', hE⟩
  · exact Or.inl ⟨e, collectSlow_err spec args slots e h1,
      collectSlow_err spec args slots' e h2⟩
  · have hidx : ∀ t ∈ List.range' n (spec.len - n), t < spec.len := by
      intro t ht
      rw [List.mem_range'_1] at ht
      omega
    rcases defLoop_congr spec spec.len (List.range' n (spec.len - n)) hidx
      s s' hls hls' hE with ⟨e, d1, d2⟩ | ⟨s4, s4', d1, d2, dl, dl', dE⟩
    · refine Or.inl ⟨e, ?_, ?_⟩
      · rw [collectSlow_ok_decomp spec args slots s n st kwr h1]
        exact finishBind_defErr spec n st s kwr e d1
      · rw [collectSlow_ok_decomp spec args slots' s' n st kwr h2]
        exact finishBind_defErr spec n st s' kwr e d2
    · have ha : ∀ a, spec.args_index = some a → a < spec.len := by
        intro a haa
        exact (w5 a haa).2
      have hk : ∀ k, spec.kwargs_index = some k → k < spec.len := by
        intro k hkk
        have := w7 k hkk
        omega
      rcases finalize_congr spec st kwr spec.len ha hk s4 s4' dl dl' dE with
        ⟨e, f1, f2⟩ | ⟨out, out', f1, f2, -, -, fE⟩
      · refine Or.inl ⟨e, ?_, ?_⟩
        · rw [collectSlow_ok_decomp spec args slots s n st kwr h1,
            finishBind_defOk spec n st s s4 kwr d1]
          exact f1
        · rw [collectSlow_ok_decomp spec args slots' s' n st kwr h2,
            finishBind_defOk spec n st s' s4' kwr d2]
          exact f2
      · refine Or.inr ⟨out, out', ?_, ?_, fE⟩
        · rw [collectSlow_ok_decomp spec args slots s n st kwr h1,
            finishBind_defOk spec n st s s4 kwr d1]
          exact f1
        · rw [collectSlow_ok_decomp spec args slots' s' n st kwr h2,
            finishBind_defOk spec n st s' s4' kwr d2]
          exact f2

theorem bindPhasesPreKw_ok_length (spec : ParametersSpec) (args : Arguments)
    (slots s : List (Option StarValue)) (n : Nat) (st : List StarValue)
    (kw : LazyKwargs)
    (h : bindPhasesPreKw spec args slots = .ok (s, n, st, kw)) :
    s.length = slots.length := by
  obtain ⟨s1, n1, st1, s2, low, hp, hnl, hsplit, hlow⟩ :=
    bindPhasesPreKw_ok_elim spec args slots s n st kw h
  have h1 := posPhase_length spec args.pos slots
  rw [hp] at h1
  have h1' : s1.length = slots.length := h1
  have h2 := namedLoop_length spec (args.names.zip args.named) s1 none none
  rw [hnl] at h2
  have h2' : s2.length = s1.length := h2
  rcases hsplit with ⟨-, hs0, -, -⟩ | ⟨v, xs, -, -, hf⟩
  · rw [hs0]
    omega
  · have h3 := fillPos_length spec xs s2 n1 st1
    rw [hf] at h3
    have h3' : s.length = s2.length := h3
    omega

theorem collectSlow_ok_length (spec : ParametersSpec) (args : Arguments)
    (slots out : List (Option StarValue))
    (h : collectSlow spec args slots = .ok out) : out.length = slots.length := by
  obtain ⟨s, n, st, kw, s4, hbp, hdef, hfin⟩ :=
    collectSlow_ok_elim spec args slots out h
  obtain ⟨s0, kw0, hpre, hkwcase⟩ := bindPhases_ok_elim spec args slots s n st kw hbp
  have h0 := bindPhasesPreKw_ok_length spec args slots s0 n st kw0 hpre
  have hs : s.length = slots.length := by
    rcases hkwcase with ⟨-, hss, -⟩ | ⟨v, es, -, -, hloop⟩
    · rw [hss]
      exact h0
    · rw [kwLoop_length spec es s0 kw0 s kw hloop]
      exact h0
  have h4 : s4.length = s.length := defLoop_length spec _ s s4 hdef
  have h5 : out.length = s4.length := finalize_length spec s4 st kw out hfin
  omega

theorem collectSlow_tail (spec : ParametersSpec) (args : Arguments)
    (slots out : List (Option StarValue)) (hwf : WellFormed spec)
    (h : collectSlow spec args slots = .ok out) :
    ∀ j, spec.len ≤ j → out.getD j none = slots.getD j none := by
  obtain ⟨-, -, w3, -, w5, -, w7, -, w9, -, -⟩ := hwf
  obtain ⟨s, n, st, kw, s4, hbp, hdef, hfin⟩ :=
    collectSlow_ok_elim spec args slots out h
  obtain ⟨s0, kw0, hpre, hkwcase⟩ := bindPhases_ok_elim spec args slots s n st kw hbp
  obtain ⟨s1, n1, st1, s2, low, hp, hnl, hsplit, hlow⟩ :=
    bindPhasesPreKw_ok_elim spec args slots s0 n st kw0 hpre
  have hn1 : n1 = min args.pos.length spec.num_positional := by
    have hx := posPhase_next spec args.pos slots
    rw [hp] at hx
    exact hx
  intro j hj
  have htgt : ∀ nm i, spec.lookupName nm = some i → i < spec.len := by
    intro nm i hi
    exact (w9 (nm, i) (assocLookup_mem spec.names nm i hi)).1
  have h1 : s1.getD j none = slots.getD j none := by
    have hx := posPhase_getD_ge spec args.pos slots j (by omega)
    rw [hp] at hx
    exact hx
  have hjn : j ∉ resolvedTargets spec (args.names.zip args.named) := by
    intro hres
    unfold resolvedTargets at hres
    obtain ⟨p, hpmem, hpl⟩ := List.mem_filterMap.mp hres
    have := htgt p.1 j hpl
    omega
  have h2 : s2.getD j none = s1.getD j none := by
    have hx := namedLoop_getD_notMem spec (args.names.zip args.named) j
      s1 none none hjn
    rw [hnl] at hx
    exact hx
  have h0 : s0.getD j none = slots.getD j none := by
    rcases hsplit with ⟨-, hs0, hnn, -⟩ | ⟨v, xs, -, -, hf⟩
    · rw [hs0, h2, h1]
    · rw [fillPos_eq spec xs s2 n1 st1 (by omega)] at hf
      simp only [Prod.mk.injEq] at hf
      obtain ⟨hfs, -, -⟩ := hf
      rw [← hfs, writeSeq_getD_out _ s2 n1 j (Or.inr (by
        simp only [List.length_take]
        omega)), h2, h1]
  have hsk : s.getD j none = s0.getD j none := by
    rcases hkwcase with ⟨-, hss, -⟩ | ⟨v, es, -, -, hloop⟩
    · rw [hss]
    · refine kwLoop_getD_out spec es j s0 kw0 s kw hloop ?_
      intro e he str i hstr hl
      have hi := htgt str i hl
      omega
  have h4 : s4.getD j none = s.getD j none := by
    refine defLoop_getD_out spec _ j s s4 hdef ?_
    intro hmem
    rw [List.mem_range'_1] at hmem
    omega
  have hout : out.getD j none = s4.getD j none := by
    refine finalize_getD_out spec s4 st kw out j hfin ?_ ?_
    · intro ha
      have := (w5 j ha).2
      omega
    · intro hk
      have := w7 j hk
      omega
  rw [hout, h4, hsk, h0]

/-- C10: the slow binding path is confined to the first `N` slots of the
caller-supplied array (whose length the source asserts is at least `N`):
its outcome is entirely determined by that prefix and, on success, the
array beyond the first `N` entries passes through untouched — the
unchecked indexing never reads or writes past index `N`. -/
theorem claim_C10 (spec : ParametersSpec) (args : Arguments)
    (slots : List (Option StarValue)) (hwf : WellFormed spec)
    (hsl : spec.len ≤ slots.length) :
    collectSlow spec args slots =
      Except.map (fun out => out ++ slots.drop spec.len)
        (collectSlow spec args (slots.take spec.len)) := by
  have hlt : spec.len ≤ (slots.take spec.len).length := by
    rw [List.length_take]
    omega
  have hEq : EqBelow spec.len slots (slots.take spec.len) := by
    intro j hj
    rw [List.getD_eq_getElem?_getD, List.getD_eq_getElem?_getD,
      List.getElem?_take, if_pos hj]
  rcases collectSlow_congr spec args hwf slots (slots.take spec.len)
    hsl hlt hEq with ⟨e, h1, h2⟩ | ⟨out, out', h1, h2, hE⟩
  · rw [h1, h2]
    rfl
  · rw [h1, h2]
    show Except.ok out = Except.ok (out' ++ slots.drop spec.len)
    congr 1
    have hol : out.length = slots.length := collectSlow_ok_length spec args slots out h1
    have hol' : out'.length = spec.len := by
      have hx := collectSlow_ok_length spec args (slots.take spec.len) out' h2
      rw [List.length_take] at hx
      omega
    have htail := collectSlow_tail spec args slots out hwf h1
    apply List.ext_getElem?
    intro j
    by_cases hj : j < spec.len
    · have hgd := hE j hj
      rw [getD_eq_getElem_of_lt out j (by omega),
        getD_eq_getElem_of_lt out' j (by omega)] at hgd
      rw [List.getElem?_append, if_pos (show j < out'.length by omega),
        List.getElem?_eq_getElem (show j < out.length by omega),
        List.getElem?_eq_getElem (show j < out'.length by omega), hgd]
    · push_neg at hj
      rw [List.getElem?_append_right (show out'.length ≤ j by omega), hol',
        List.getElem?_drop]
      have hidx2 : spec.len + (j - spec.len) = j := by omega
      rw [hidx2]
      by_cases hjs : j < slots.length
      · have hgd := htail j hj
        rw [getD_eq_getElem_of_lt out j (by omega),
          getD_eq_getElem_of_lt slots j hjs] at hgd
        rw [List.getElem?_eq_getElem (show j < out.length by omega),
          List.getElem?_eq_getElem hjs, hgd]
      · rw [List.getElem?_eq_none (by omega : out.length ≤ j),
          List.getElem?_eq_none (by omega : slots.length ≤ j)]

/-- Witness for C10: scenario 1 bound into a 6-slot array (one spare slot
beyond the 5 declared parameters). -/
theorem claim_C10_witness :
    collectSlow exSpecF exArgsS1 (List.replicate 6 none) =
      Except.map (fun out => out ++ (List.replicate 6 none).drop exSpecF.len)
        (collectSlow exSpecF exArgsS1 ((List.replicate 6 none).take exSpecF.len)) :=
  claim_C10 exSpecF exArgsS1 (List.replicate 6 none) (by decide) (by decide)

theorem getD_eq_getElem_of_lt2 {α : Type} (l : List α) (j : Nat) (d : α)
    (h : j < l.length) : l.getD j d = l[j] := by
  rw [List.getD_eq_getElem?_getD, List.getElem?_eq_getElem h]
  rfl

theorem getD_replicate_false (n j : Nat) :
    (List.replicate n false).getD j false = false := by
  induction n generalizing j with
  | zero => rfl
  | succ m ih =>
    cases j with
    | zero => rfl
    | succ jj => exact ih jj

theorem getD_set_true_mono (l : List Bool) (q i : Nat)
    (h : l.getD i false = true) : (l.set q true).getD i false = true := by
  by_cases hqi : q = i
  · subst hqi
    by_cases hq : q < l.length
    · rw [getD_set_self l q true false hq]
    · rw [List.set_eq_of_length_le (by omega)]
      exact h
  · rw [getD_set_of_ne l q i true false hqi]
    exact h

theorem isRequired_eq_required (k : ParameterKind) (h : k.isRequired = true) :
    k = ParameterKind.Required := by
  cases k <;> first | rfl | exact Bool.noConfusion h

theorem cfPosLoop_some (spec : ParametersSpec) :
    ∀ (qs : List Nat) (filled : List Bool),
      (∀ q ∈ qs, q < spec.num_positional ∨ spec.args_index.isSome = true) →
      (∀ q ∈ qs, q < spec.num_positional → q < filled.length) →
      ∃ filled', cfPosLoop spec qs filled = some filled' ∧
        filled'.length = filled.length ∧
        (∀ i, (filled'.getD i false = true ↔
          (filled.getD i false = true ∨ (i ∈ qs ∧ i < spec.num_positional)))) := by
  intro qs
  induction qs with
  | nil =>
    intro filled _ _
    refine ⟨filled, rfl, rfl, fun i => ⟨fun h => Or.inl h, fun h => ?_⟩⟩
    rcases h with h | ⟨hm, -⟩
    · exact h
    · simp at hm
  | cons q rest ih =>
    intro filled hfeas hlen
    by_cases hq : q < spec.num_positional
    · obtain ⟨filled', h1, h2, h3⟩ := ih (filled.set q true)
        (fun t ht => hfeas t (List.mem_cons_of_mem _ ht))
        (fun t ht hnum => by
          rw [List.length_set]
          exact hlen t (List.mem_cons_of_mem _ ht) hnum)
      refine ⟨filled', ?_, by rw [h2, List.length_set], ?_⟩
      · simp only [cfPosLoop]
        rw [if_pos hq]
        exact h1
      · intro i
        rw [h3 i]
        constructor
        · rintro (h | ⟨hm, hnum⟩)
          · by_cases hiq : i = q
            · subst hiq
              exact Or.inr ⟨List.mem_cons_self _ _, hq⟩
            · rw [getD_set_of_ne filled q i true false (fun he => hiq he.symm)] at h
              exact Or.inl h
          · exact Or.inr ⟨List.mem_cons_of_mem _ hm, hnum⟩
        · rintro (h | ⟨hm, hnum⟩)
          · exact Or.inl (getD_set_true_mono filled q i h)
          · rcases List.mem_cons.mp hm with he | hm2
            · subst he
              left
              rw [getD_set_self filled i true false
                (hlen i (List.mem_cons_self _ _) hnum)]
            · exact Or.inr ⟨hm2, hnum⟩
    · have hsome : spec.args_index.isSome = true := by
        rcases hfeas q (List.mem_cons_self _ _) with h | h
        · exact absurd h hq
        · exact h
      obtain ⟨filled', h1, h2, h3⟩ := ih filled
        (fun t ht => hfeas t (List.mem_cons_of_mem _ ht))
        (fun t ht hnum => hlen t (List.mem_cons_of_mem _ ht) hnum)
      refine ⟨filled', ?_, h2, ?_⟩
      · simp only [cfPosLoop]
        rw [if_neg hq, if_pos hsome]
        exact h1
      · intro i
        rw [h3 i]
        constructor
        · rintro (h | ⟨hm, hnum⟩)
          · exact Or.inl h
          · exact Or.inr ⟨List.mem_cons_of_mem _ hm, hnum⟩
        · rintro (h | ⟨hm, hnum⟩)
          · exact Or.inl h
          · rcases List.mem_cons.mp hm with he | hm2
            · subst he
              exact absurd hnum hq
            · exact Or.inr ⟨hm2, hnum⟩

theorem cfNamesLoop_some (spec : ParametersSpec) :
    ∀ (ns : List String) (filled : List Bool),
      ns.Nodup →
      (∀ nm ∈ ns, spec.lookupName nm = none → spec.kwargs_index.isSome = true) →
      (∀ nm ∈ ns, ∀ i, spec.lookupName nm = some i →
        filled.getD i false = false ∧ i < filled.length) →
      (∀ nm1 ∈ ns, ∀ nm2 ∈ ns, ∀ i, nm1 ≠ nm2 →
        spec.lookupName nm1 = some i → spec.lookupName nm2 = some i → False) →
      ∃ filled', cfNamesLoop spec ns filled = some filled' ∧
        filled'.length = filled.length ∧
        (∀ i, (filled'.getD i false = true ↔
          (filled.getD i false = true ∨ ∃ nm ∈ ns, spec.lookupName nm = some i))) := by
  intro ns
  induction ns with
  | nil =>
    intro filled _ _ _ _
    refine ⟨filled, rfl, rfl, fun i => ⟨fun h => Or.inl h, fun h => ?_⟩⟩
    rcases h with h | ⟨nm, hm, -⟩
    · exact h
    · simp at hm
  | cons nm rest ih =>
    intro filled hnd hkws hunf hinj
    have hnm : nm ∉ rest := (List.nodup_cons.mp hnd).1
    have hnd' := (List.nodup_cons.mp hnd).2
    cases hlk : spec.lookupName nm with
    | none =>
      have hks : spec.kwargs_index.isSome = true :=
        hkws nm (List.mem_cons_self _ _) hlk
      have hkn : ¬ spec.kwargs_index.isNone = true := by
        cases hx : spec.kwargs_index with
        | none => rw [hx] at hks; cases hks
        | some k => simp
      obtain ⟨filled', h1, h2, h3⟩ := ih filled hnd'
        (fun t ht => hkws t (List.mem_cons_of_mem _ ht))
        (fun t ht => hunf t (List.mem_cons_of_mem _ ht))
        (fun a hai b hbi => hinj a (List.mem_cons_of_mem _ hai) b
          (List.mem_cons_of_mem _ hbi))
      refine ⟨filled', ?_, h2, ?_⟩
      · simp only [cfNamesLoop, hlk]
        rw [if_neg hkn]
        exact h1
      · intro i
        rw [h3 i]
        constructor
        · rintro (h | ⟨t, hmem, hti⟩)
          · exact Or.inl h
          · exact Or.inr ⟨t, List.mem_cons_of_mem _ hmem, hti⟩
        · rintro (h | ⟨t, hmem, hti⟩)
          · exact Or.inl h
          · rcases List.mem_cons.mp hmem with he | hm
            · subst he
              rw [hlk] at hti
              cases hti
            · exact Or.inr ⟨t, hm, hti⟩
    | some i0 =>
      obtain ⟨hf0, hlen0⟩ := hunf nm (List.mem_cons_self _ _) i0 hlk
      have hcond : ¬ filled.getD i0 false = true := by
        rw [hf0]
        simp
      obtain ⟨filled', h1, h2, h3⟩ := ih (filled.set i0 true) hnd'
        (fun t ht => hkws t (List.mem_cons_of_mem _ ht))
        (fun t ht j hres => by
          have htnm : t ≠ nm := fun he => hnm (he ▸ ht)
          have hji : j ≠ i0 := by
            intro he
            subst he
            exact hinj nm (List.mem_cons_self _ _) t (List.mem_cons_of_mem _ ht) j
              (fun h => htnm h.symm) hlk hres
          constructor
          · rw [getD_set_of_ne filled i0 j true false (fun he => hji he.symm)]
            exact (hunf t (List.mem_cons_of_mem _ ht) j hres).1
          · rw [List.length_set]
            exact (hunf t (List.mem_cons_of_mem _ ht) j hres).2)
        (fun a hai b hbi => hinj a (List.mem_cons_of_mem _ hai) b
          (List.mem_cons_of_mem _ hbi))
      refine ⟨filled', ?_, by rw [h2, List.length_set], ?_⟩
      · simp only [cfNamesLoop, hlk]
        rw [if_neg hcond]
        exact h1
      · intro i
        rw [h3 i]
        constructor
        · rintro (h | ⟨t, hmem, hti⟩)
          · by_cases hii : i = i0
            · subst hii
              exact Or.inr ⟨nm, List.mem_cons_self _ _, hlk⟩
            · rw [getD_set_of_ne filled i0 i true false (fun he => hii he.symm)] at h
              exact Or.inl h
          · exact Or.inr ⟨t, List.mem_cons_of_mem _ hmem, hti⟩
        · rintro (h | ⟨t, hmem, hti⟩)
          · exact Or.inl (getD_set_true_mono filled i0 i h)
          · rcases List.mem_cons.mp hmem with he | hm
            · subst he
              rw [hlk] at hti
              have hii : i0 = i := Option.some.inj hti
              subst hii
              left
              rw [getD_set_self filled i0 true false hlen0]
            · exact Or.inr ⟨t, hm, hti⟩

theorem all_zip_required (f2 : List Bool) :
    ∀ (ks : List ParameterKind),
      (∀ i, i < f2.length → i < ks.length →
        (f2.getD i false || !(ks.getD i ParameterKind.Required).isRequired) = true) →
      (f2.zip ks).all (fun fp => fp.1 || !fp.2.isRequired) = true := by
  induction f2 with
  | nil => intro ks _; cases ks <;> rfl
  | cons b bs ih =>
    intro ks h
    cases ks with
    | nil => rfl
    | cons k ks' =>
      simp only [List.zip_cons_cons, List.all_cons, Bool.and_eq_true]
      constructor
      · exact h 0 (by simp) (by simp)
      · exact ih ks' (fun i h1 h2 => h (i + 1) (by simpa using h1) (by simpa using h2))

/-- C6: whenever the slow binding path succeeds on a call starting from
empty slots, the feasibility check `can_fill_with_args` accepts the call's
total positional count together with the set of its distinct keyword names
(the implication is one-way: feasibility ignores argument values). -/
theorem claim_C6 (spec : ParametersSpec) (args : Arguments)
    (slots out : List (Option StarValue))
    (hwf : WellFormed spec)
    (hsl : spec.len ≤ slots.length)
    (hempty : ∀ j, slots.getD j none = none)
    (hok : collectSlow spec args slots = .ok out) :
    canFillWithArgs spec (callPosCount args) (callNames args).dedup = true := by
  have hwfK := hwf
  obtain ⟨w1, w2, w3, w4, w5, w6, w7, w8, w9, w10, w11⟩ := hwfK
  obtain ⟨s, n, st, kw, s4, hbp, hdef, hfin⟩ :=
    collectSlow_ok_elim spec args slots out hok
  obtain ⟨s0, kw0, hpre, hkwcase⟩ := bindPhases_ok_elim spec args slots s n st kw hbp
  obtain ⟨s1, n1, st1, s2, low, hp, hnl, hsplit, hlow⟩ :=
    bindPhasesPreKw_ok_elim spec args slots s0 n st kw0 hpre
  have hn1 : n1 = min args.pos.length spec.num_positional := by
    have hx := posPhase_next spec args.pos slots
    rw [hp] at hx
    exact hx
  have hs1len : s1.length = slots.length := by
    have hx := posPhase_length spec args.pos slots
    rw [hp] at hx
    exact hx
  have hs2len : s2.length = slots.length := by
    have hx := namedLoop_length spec (args.names.zip args.named) s1 none none
    rw [hnl] at hx
    have hx' : s2.length = s1.length := hx
    omega
  have hn1le : n1 ≤ spec.num_positional := by omega
  have hst1 : st1 = args.pos.drop spec.num_positional := by
    have hx := posPhase_star spec args.pos slots
    rw [hp] at hx
    exact hx
  have hslen : s.length = slots.length := by
    have h0 := bindPhasesPreKw_ok_length spec args slots s0 n st kw0 hpre
    rcases hkwcase with ⟨-, hss, -⟩ | ⟨v, es, -, -, hloop⟩
    · rw [hss]
      exact h0
    · rw [kwLoop_length spec es s0 kw0 s kw hloop]
      exact h0
  have hbranch :
      n = posSuppliedCount spec args ∧
      st.length = callPosCount args - spec.num_positional ∧
      (∀ j, j < n → (s0.getD j none).isSome = true) ∧
      (∀ j, n ≤ j → j ∉ resolvedTargets spec (args.names.zip args.named) →
        s0.getD j none = slots.getD j none) := by
    have hs1some : ∀ j, j < n1 → (s1.getD j none).isSome = true := by
      intro j hj
      have hgd := posPhase_getD_lt spec args.pos slots j (by omega) (by omega)
      rw [hp] at hgd
      have hgd' : s1.getD j none = args.pos[j]? := hgd
      rw [hgd', List.getElem?_eq_getElem (show j < args.pos.length by omega)]
      rfl
    have hs2some : ∀ j, j < n1 → (s2.getD j none).isSome = true := by
      intro j hj
      have h2 := namedLoop_getD_isSome_mono spec (args.names.zip args.named) j
        s1 none none (hs1some j hj)
      rw [hnl] at h2
      exact h2
    have hout21 : ∀ j, j ∉ resolvedTargets spec (args.names.zip args.named) →
        s2.getD j none = s1.getD j none := by
      intro j hjn
      have h2 := namedLoop_getD_notMem spec (args.names.zip args.named) j
        s1 none none hjn
      rw [hnl] at h2
      exact h2
    have hout1slots : ∀ j, n1 ≤ j → s1.getD j none = slots.getD j none := by
      intro j hj
      have h1 := posPhase_getD_ge spec args.pos slots j (by omega)
      rw [hp] at h1
      exact h1
    rcases hsplit with ⟨hargsN, hs0, hnn2, hstst⟩ | ⟨v, xs, hargsS, hiter, hf⟩
    · have hsp0 : splatElemsLen args = 0 := by
        unfold splatElemsLen
        rw [hargsN]
      have hpsc : n = posSuppliedCount spec args := by
        unfold posSuppliedCount
        rw [hsp0]
        omega
      refine ⟨hpsc, ?_, ?_, ?_⟩
      · rw [hstst, hst1, List.length_drop]
        unfold callPosCount
        rw [hsp0]
        omega
      · intro j hj
        rw [hs0]
        exact hs2some j (by omega)
      · intro j hj hjn
        rw [hs0, hout21 j hjn, hout1slots j (by omega)]
    · rw [fillPos_eq spec xs s2 n1 st1 hn1le] at hf
      simp only [Prod.mk.injEq] at hf
      obtain ⟨hfs, hfn, hfst⟩ := hf
      have hsplatlen : splatElemsLen args = xs.length := by
        unfold splatElemsLen
        rw [hargsS]
        simp only []
        rw [hiter]
        rfl
      have htklen : (xs.take (spec.num_positional - n1)).length =
          min xs.length (spec.num_positional - n1) := by
        rw [List.length_take, Nat.min_comm]
      refine ⟨?_, ?_, ?_, ?_⟩
      · unfold posSuppliedCount
        rw [hsplatlen]
        omega
      · rw [← hfst, List.length_append, hst1, List.length_drop, List.length_drop]
        unfold callPosCount
        rw [hsplatlen]
        omega
      · intro j hj
        rw [← hfs]
        by_cases hjn1 : j < n1
        · exact writeSeq_isSome_mono _ j s2 n1 (hs2some j hjn1)
        · rw [writeSeq_getD_in _ s2 n1 j (by omega) (by rw [htklen]; omega)
            (by omega)]
          rw [List.getElem?_eq_getElem (show j - n1 < (xs.take
            (spec.num_positional - n1)).length by rw [htklen]; omega)]
          rfl
      · intro j hj hjn
        rw [← hfs]
        rw [writeSeq_getD_out _ s2 n1 j (Or.inr (by rw [htklen]; omega))]
        rw [hout21 j hjn, hout1slots j (by omega)]
  obtain ⟨hneq, hstlen, hfill, hs0out⟩ := hbranch
  have hkwb :
      (∀ x, x ∈ ovfKeys kw0 → x ∈ ovfKeys kw) ∧
      (∀ e ∈ kwSplatEntries args, ∀ str, e.1.asStr = some str →
        spec.lookupName str = none → str ∈ ovfKeys kw) ∧
      (∀ e ∈ kwSplatEntries args, ∀ str i, e.1.asStr = some str →
        spec.lookupName str = some i → s0.getD i none = none) ∧
      (∀ j, (∀ e ∈ kwSplatEntries args, ∀ str i', e.1.asStr = some str →
        spec.lookupName str = some i' → i' ≠ j) →
        s.getD j none = s0.getD j none) := by
    rcases hkwcase with ⟨hkwN, hss, hkwkw⟩ | ⟨v, es, hkwS, hdict, hloop⟩
    · have hke : kwSplatEntries args = [] := by
        unfold kwSplatEntries
        rw [hkwN]
      refine ⟨?_, ?_, ?_, ?_⟩
      · intro x hx
        rw [hkwkw]
        exact hx
      · intro e he
        rw [hke] at he
        simp at he
      · intro e he
        rw [hke] at he
        simp at he
      · intro j _
        rw [hss]
    · have hes : kwSplatEntries args = es := by
        unfold kwSplatEntries
        rw [hkwS]
        simp only []
        rw [hdict]
        rfl
      refine ⟨?_, ?_, ?_, ?_⟩
      · intro x hx
        exact kwLoop_mono_keys spec es x s0 kw0 s kw hloop hx
      · intro e he str hstr hlk
        rw [hes] at he
        exact kwLoop_ok_unresolved_mem spec es str s0 kw0 s kw hloop e he hstr hlk
      · intro e he str i hstr hlk
        rw [hes] at he
        obtain ⟨str2, hs2', hnone, -⟩ := kwLoop_ok_start spec es s0 kw0 s kw hloop e he
        have hseq : str2 = str := by
          rw [hstr] at hs2'
          exact (Option.some.inj hs2').symm
        subst hseq
        exact hnone i hlk
      · intro j hcond
        refine kwLoop_getD_out spec es j s0 kw0 s kw hloop ?_
        intro e he str i h1 h2
        exact hcond e (by rw [hes]; exact he) str i h1 h2
  obtain ⟨hkwmono, hkwunres, hkwtgt0, hsout⟩ := hkwb
  have hples : n ≤ spec.num_positional := by
    rw [hneq]
    unfold posSuppliedCount
    omega
  have hneq' : n = min (callPosCount args) spec.num_positional := hneq
  have hfeas1 : spec.num_positional < callPosCount args →
      spec.args_index.isSome = true := by
    intro hlt
    cases hx : spec.args_index with
    | some a => rfl
    | none =>
      exfalso
      have hse := finalize_star_empty spec s4 st kw out hfin hx
      rw [hse] at hstlen
      simp only [List.length_nil] at hstlen
      omega
  have hnamedge : ∀ i, i ∈ resolvedTargets spec (args.names.zip args.named) →
      n ≤ i := by
    intro i hi
    have hlowf := namedLoop_low spec (args.names.zip args.named) s1 none none
    rw [hnl] at hlowf
    have hlowf' : low =
        (resolvedTargets spec (args.names.zip args.named)).foldl minOpt none := hlowf
    cases hlw : low with
    | none =>
      rw [hlw] at hlowf'
      have hz := foldl_minOpt_eq_none _ none hlowf'.symm
      rw [hz.1] at hi
      simp at hi
    | some l =>
      have hle := foldl_minOpt_le_mem _ i none l hi (by rw [← hlowf']; exact hlw)
      have := hlow l hlw
      omega
  have hkwge : ∀ e ∈ kwSplatEntries args, ∀ str i, e.1.asStr = some str →
      spec.lookupName str = some i → n ≤ i := by
    intro e he str i hstr hlk
    by_contra hc
    push_neg at hc
    have h1 := hfill i hc
    rw [hkwtgt0 e he str i hstr hlk] at h1
    cases h1
  have hge : ∀ nm ∈ callNames args, ∀ i, spec.lookupName nm = some i → n ≤ i := by
    intro nm hmem i hlk
    unfold callNames at hmem
    rcases List.mem_append.mp hmem with hm1 | hm2
    · obtain ⟨p, hp2, hpe⟩ := List.mem_map.mp hm1
      have hres : i ∈ resolvedTargets spec (args.names.zip args.named) := by
        unfold resolvedTargets
        exact List.mem_filterMap.mpr ⟨p, hp2, by rw [hpe]; exact hlk⟩
      exact hnamedge i hres
    · obtain ⟨e, he, hes⟩ := List.mem_filterMap.mp hm2
      exact hkwge e he nm i hes hlk
  have hkwsink : ∀ nm ∈ callNames args, spec.lookupName nm = none →
      spec.kwargs_index.isSome = true := by
    intro nm hmem hlk
    cases hx : spec.kwargs_index with
    | some k => rfl
    | none =>
      exfalso
      have hkn := finalize_kw_none spec s4 st kw out hfin hx
      unfold callNames at hmem
      rcases List.mem_append.mp hmem with hm1 | hm2
      · obtain ⟨p, hp2, hpe⟩ := List.mem_map.mp hm1
        have hpmem : (nm, p.2) ∈ args.names.zip args.named := by
          rw [show (nm, p.2) = p from Prod.ext hpe.symm rfl]
          exact hp2
        have hx2 := namedLoop_kw_unresolved spec (args.names.zip args.named)
          nm p.2 s1 none none hpmem hlk
        rw [hnl] at hx2
        have hx3 : nm ∈ ovfKeys kw0 := hx2
        have hx4 : nm ∈ ovfKeys kw := hkwmono nm hx3
        rw [hkn] at hx4
        simp [ovfKeys] at hx4
      · obtain ⟨e, he, hes⟩ := List.mem_filterMap.mp hm2
        have hx4 := hkwunres e he nm hes hlk
        rw [hkn] at hx4
        simp [ovfKeys] at hx4
  have hinj : ∀ a i, spec.lookupName a = some i →
      ∀ b, spec.lookupName b = some i → a = b := by
    intro a i h1 b h2
    have m1 := assocLookup_mem spec.names a i h1
    have m2 := assocLookup_mem spec.names b i h2
    have e1 := (w9 (a, i) m1).2.1
    have e2 := (w9 (b, i) m2).2.1
    exact e1.symm.trans e2
  have hreqcov : ∀ i, i < spec.len → kindAt spec i = ParameterKind.Required →
      i < n ∨ ∃ nm ∈ callNames args, spec.lookupName nm = some i := by
    intro i hi hkd
    by_contra hc
    push_neg at hc
    obtain ⟨hin, hnoname⟩ := hc
    have hin' : n ≤ i := by omega
    have hires : i ∉ resolvedTargets spec (args.names.zip args.named) := by
      intro hres
      unfold resolvedTargets at hres
      obtain ⟨p, hp2, hpl⟩ := List.mem_filterMap.mp hres
      refine hnoname p.1 ?_ hpl
      unfold callNames
      exact List.mem_append.mpr (Or.inl (List.mem_map.mpr ⟨p, hp2, rfl⟩))
    have hcond : ∀ e ∈ kwSplatEntries args, ∀ str i', e.1.asStr = some str →
        spec.lookupName str = some i' → i' ≠ i := by
      intro e he str i' h1 h2 heq
      subst heq
      refine hnoname str ?_ h2
      unfold callNames
      exact List.mem_append.mpr (Or.inr (List.mem_filterMap.mpr ⟨e, he, h1⟩))
    have hs' : s.getD i none = none := by
      rw [hsout i hcond, hs0out i hin' hires]
      exact hempty i
    have h4 : s4.getD i none = s.getD i none := by
      refine defLoop_not_defaulted spec (List.range' n (spec.len - n)) i ?_ s s4 hdef
      intro x hx
      rw [hkd] at hx
      exact ParameterKind.noConfusion hx
    have hmem : i ∈ List.range' n (spec.len - n) := by
      rw [List.mem_range'_1]
      omega
    have hle := defLoop_ok_leftEmpty spec _ s s4 hdef
      (fun t ht => by rw [List.mem_range'_1] at ht; omega) i hmem
      (by rw [h4]; exact hs')
    rw [hkd] at hle
    exact Bool.noConfusion hle
  unfold canFillWithArgs
  obtain ⟨f1, hcf1, hlen1, hchar1⟩ := cfPosLoop_some spec
    (List.range (callPosCount args)) (List.replicate spec.len false)
    (fun q hq => by
      by_cases hqn : q < spec.num_positional
      · exact Or.inl hqn
      · refine Or.inr (hfeas1 ?_)
        have := List.mem_range.mp hq
        omega)
    (fun q hq hqn => by
      rw [List.length_replicate]
      omega)
  rw [hcf1]
  simp only []
  have hguard : ¬ ((decide (spec.num_positional < callPosCount args) &&
      spec.args_index.isNone) = true) := by
    intro hcontra
    rw [Bool.and_eq_true] at hcontra
    obtain ⟨hc1, hc2⟩ := hcontra
    have hlt := of_decide_eq_true hc1
    have hsome := hfeas1 hlt
    cases hx : spec.args_index with
    | some a =>
      rw [hx] at hc2
      exact Bool.noConfusion hc2
    | none =>
      rw [hx] at hsome
      exact Bool.noConfusion hsome
  rw [if_neg hguard]
  obtain ⟨f2, hcf2, hlen2, hchar2⟩ := cfNamesLoop_some spec (callNames args).dedup f1
    (List.nodup_dedup _)
    (fun nm hm hlk => hkwsink nm (List.mem_dedup.mp hm) hlk)
    (fun nm hm i hlk => by
      have hni := hge nm (List.mem_dedup.mp hm) i hlk
      constructor
      · cases hx : f1.getD i false with
        | false => rfl
        | true =>
          exfalso
          rcases (hchar1 i).mp hx with hz | ⟨hm2, hnum⟩
          · rw [getD_replicate_false] at hz
            exact Bool.noConfusion hz
          · have := List.mem_range.mp hm2
            omega
      · rw [hlen1, List.length_replicate]
        exact lookupName_lt_len spec hwf nm i hlk)
    (fun a hai b hbi i hne h1 h2 => hne (hinj a i h1 b h2))
  rw [hcf2]
  simp only []
  refine all_zip_required f2 spec.param_kinds ?_
  intro i hif2 hiks
  have hilen : i < spec.len := by
    rw [hlen2, hlen1, List.length_replicate] at hif2
    exact hif2
  cases hreq : (spec.param_kinds.getD i ParameterKind.Required).isRequired with
  | false => simp
  | true =>
    have hkd : kindAt spec i = ParameterKind.Required :=
      isRequired_eq_required _ hreq
    have hf2i : f2.getD i false = true := by
      rw [hchar2 i]
      rcases hreqcov i hilen hkd with hlt | ⟨nm, hm, hlk⟩
      · refine Or.inl ((hchar1 i).mpr (Or.inr ⟨List.mem_range.mpr (by omega), by omega⟩))
      · exact Or.inr ⟨nm, List.mem_dedup.mpr hm, hlk⟩
    rw [hf2i]
    simp

/-- Witness for C6 at scenario 1, `f(1, 2, 3, 4, c=5, d=6)`. -/
theorem claim_C6_witness :
    canFillWithArgs exSpecF (callPosCount exArgsS1) (callNames exArgsS1).dedup = true :=
  claim_C6 exSpecF exArgsS1 (List.replicate 5 none) _ (by decide) (by decide)
    (by intro j; rcases j with _ | _ | _ | _ | _ | j <;> rfl) rfl

end Starlark
